import Mathlib

/-!
# DirectDecoder (velox/dwio/common/DirectDecoder.h)

A shallow embedding of `DirectDecoder<isSigned>`: `skipPending`, `readFixed`,
`readFloat`, `readDouble`, `readWithVisitor` (scalar loop) and `fastPath`.

The decoder state carries a ghost `log`: the calls made on the decoder and
on the visitor, in program order. It has no influence on the computation.

`IntDecoder`, the visitor and the run kernels of `DecoderUtil.h` are not part
of the sources at hand. The base decoder and the kernels are modelled from
the specification (each such definition says so); the visitor is a parameter
(`Visitor`), with one reference instance (`ColumnVisitor`).
-/

namespace DirectDecoder

/-! ## Values, events, outcomes -/

/-- A value handed to the visitor. `float`/`double` carry the raw bit pattern
that `readFloat`/`readDouble` reinterpret; `timestamp d n` stands for
`Timestamp::fromDaysAndNanos(d, n)` reinterpreted as `int128_t`. -/
inductive Value
  | int (i : Int)
  | float (bits : Nat)
  | double (bits : Nat)
  | timestamp (days : Int) (nanos : Nat)
  deriving DecidableEq, Repr

/-- Ghost record of one call. -/
inductive Event
  /-- Bytes taken from the byte source: the value of `pendingSkip_` then, and how many. -/
  | consume (pending nbytes : Nat)
  /-- The pending-skip counter grows by `n` (the count after null filtering). -/
  | skip (n : Nat)
  | skipLongs (n : Nat)
  | readInt
  | readFixed (size : Nat)
  | bulkRead (n : Nat)
  | bulkReadRows (rows : List Nat)
  | fixedWidthScan (rows : List Nat)
  /-- The run kernel returned; `numValues` is its emitted count. -/
  | runKernel (numValues : Nat)
  | checkAndSkipNulls (current : Nat)
  | processNull
  | process (v : Value)
  | setHasNulls
  | setAllNull (n : Nat)
  | setNumValues (n : Nat)
  deriving DecidableEq, Repr

/-- Failures that unwind a call. -/
inductive Error
  /-- The byte source cannot supply the bytes of the next read or skip. -/
  | shortRead
  /-- A null pointer is dereferenced. -/
  | nullDeref
  deriving DecidableEq, Repr

/-- Result of running a piece of the decoder: a normal return, an exception
that propagates to the caller (with the log at the throw), or exhaustion of
the fuel that bounds `for (;;)` in the model. -/
inductive Outcome (α : Type)
  | ok (a : α)
  | thrown (e : Error) (log : List Event)
  | outOfFuel
  deriving DecidableEq, Repr

/-- Sequencing: an exception, or exhaustion of the fuel, ends the computation. -/
def Outcome.bind {α β : Type} (x : Outcome α) (f : α → Outcome β) : Outcome β :=
  match x with
  | .ok a => f a
  | .thrown e l => .thrown e l
  | .outOfFuel => .outOfFuel

/-- An outcome without the ghost logs: `f` projects a normal result. -/
def Outcome.erase {α β : Type} (f : α → β) : Outcome α → Outcome β
  | .ok a => .ok (f a)
  | .thrown e _ => .thrown e []
  | .outOfFuel => .outOfFuel

/-! ## Base integer decoder (`IntDecoder`) -/

/-- Immutable configuration of `IntDecoder`. `vint` is the variable-length
codec: on the unread bytes it gives the next value and the number of bytes it
occupies. -/
structure Config where
  useVInts : Bool
  numBytes : Nat
  bigEndian : Bool
  isSigned : Bool
  vint : List Nat → Option (Int × Nat)

/-- Mutable decoder state. `input` is the unread bytes: the buffer
`[bufferStart_, bufferEnd_)` followed by what `inputStream_` still holds. -/
structure Decoder where
  input : List Nat
  pendingSkip : Nat
  log : List Event
  deriving DecidableEq, Repr

/-- The real state of a decoder: the unread bytes and the pending skip. -/
def Decoder.real (d : Decoder) : List Nat × Nat := (d.input, d.pendingSkip)

/-- Append a call to the ghost log. -/
def Decoder.emit (d : Decoder) (e : Event) : Decoder :=
  { d with log := d.log ++ [e] }

/-- Null bitmap: `nulls i = true` iff row `i` is present (bit set). -/
abbrev Nulls := Nat → Bool

/-- The function `bits::isBitNull`. -/
def isBitNull (nulls : Nulls) (i : Nat) : Bool := !nulls i

/-- The function `bits::countNonNulls(nulls, b, e)`: set bits in `[b, e)`. -/
def countNonNulls (nulls : Nulls) (b e : Nat) : Nat :=
  ((List.range' b (e - b)).filter (fun i => nulls i)).length

/-- Modelled from the spec: the byte source read primitive (behind
the buffer cursors of `IntDecoder`). Takes the next `n` bytes; a short read fails. -/
def takeBytes (n : Nat) (d : Decoder) : Outcome (List Nat × Decoder) :=
  if n ≤ d.input.length then
    .ok (d.input.take n,
      { d with input := d.input.drop n, log := d.log ++ [.consume d.pendingSkip n] })
  else .thrown .shortRead d.log

/-- Modelled from the spec: one variable-length value (`IntDecoder::readVInt`)
through the pluggable codec. -/
def readVInt (cfg : Config) (d : Decoder) : Outcome (Int × Decoder) :=
  match cfg.vint d.input with
  | none => .thrown .shortRead d.log
  | some (v, k) =>
    (takeBytes k d).bind (fun r => .ok (v, r.2))

/-- Skip `n` variable-length values by repeated decode. -/
def skipVInts (cfg : Config) : Nat → Decoder → Outcome Decoder
  | 0, d => .ok d
  | n + 1, d =>
    (readVInt cfg d).bind (fun r => skipVInts cfg n r.2)

/-- Modelled from the spec: `IntDecoder::skipLongs`, the real byte-level skip
(fixed-width byte advance, or repeated variable-length decode). -/
def skipLongs (cfg : Config) (n : Nat) (d : Decoder) : Outcome Decoder :=
  let d0 := d.emit (.skipLongs n)
  if cfg.useVInts then skipVInts cfg n d0
  else
    (takeBytes (n * cfg.numBytes) d0).bind (fun r => .ok r.2)

/-- Modelled from the spec: `IntDecoder::skip(numValues)` increments the
pending-skip counter. -/
def skip (n : Nat) (d : Decoder) : Decoder :=
  { d with pendingSkip := d.pendingSkip + n, log := d.log ++ [.skip n] }

/-- Modelled from the spec: `IntDecoder::skip<hasNulls>(numValues, current,
nulls)`; with a null bitmap only the non-null rows of
`[current, current + numValues)` hold bytes. -/
def skipT (hasNulls : Bool) (numValues current : Nat) (nulls : Nulls) (d : Decoder) : Decoder :=
  skip (if hasNulls then countNonNulls nulls current (current + numValues) else numValues) d

/-- The method `DirectDecoder::skipPending`. -/
def skipPending (cfg : Config) (d : Decoder) : Outcome Decoder :=
  let toSkip := d.pendingSkip
  let d1 := { d with pendingSkip := 0 }
  skipLongs cfg toSkip d1

/-- Little-endian value of a byte sequence. -/
def leValue : List Nat → Nat
  | [] => 0
  | b :: bs => b % 256 + 256 * leValue bs

/-- Modelled from the spec: a fixed-width value, little- or big-endian per
configuration, two-complement when signed. -/
def decodeFixed (cfg : Config) (bytes : List Nat) : Int :=
  let u := leValue (if cfg.bigEndian then bytes.reverse else bytes)
  if cfg.isSigned && decide (2 ^ (8 * bytes.length - 1) ≤ u) then (u : Int) - 2 ^ (8 * bytes.length)
  else (u : Int)

/-- One fixed- or variable-length integer at the cursor. -/
def readOne (cfg : Config) (d : Decoder) : Outcome (Int × Decoder) :=
  if cfg.useVInts then readVInt cfg d
  else (takeBytes cfg.numBytes d).bind (fun r => .ok (decodeFixed cfg r.1, r.2))

/-- Modelled from the spec: `IntDecoder::readInt<T>`. A read resolves the
pending skip, then decodes one fixed- or variable-length integer. -/
def readInt (cfg : Config) (d : Decoder) : Outcome (Int × Decoder) :=
  (skipPending cfg d).bind (fun d1 => readOne cfg (d1.emit .readInt))

/-- The method `DirectDecoder::readFixed`: the next `size` bytes. Both branches
(pointer into the buffer, or copy into `temp` by `readBytes`) yield the same
bytes and advance the source by `size`. -/
def readFixed (cfg : Config) (size : Nat) (d : Decoder) : Outcome (List Nat × Decoder) :=
  (skipPending cfg d).bind (fun d1 => takeBytes size (d1.emit (.readFixed size)))

/-- The method `DirectDecoder::readFloat`. -/
def readFloat (cfg : Config) (d : Decoder) : Outcome (Value × Decoder) :=
  (readFixed cfg 4 d).bind (fun r => .ok (.float (leValue r.1), r.2))

/-- The method `DirectDecoder::readDouble`. -/
def readDouble (cfg : Config) (d : Decoder) : Outcome (Value × Decoder) :=
  (readFixed cfg 8 d).bind (fun r => .ok (.double (leValue r.1), r.2))

/-! ## The visitor -/

/-- The value type of the visitor (`Visitor::DataType`); `integer` stands for
`int64_t`. -/
inductive DataType
  | integer
  | float
  | double
  | int128
  deriving DecidableEq, Repr

/-- What a run kernel leaves in the buffers of the visitor: the output values
(`none` marks a slot that was not written), the output row numbers (only with a
filter), the values routed to the hook, and the emitted count. -/
structure RunOutput where
  values : List (Option Value)
  filterHits : List Nat
  hooked : List (Nat × Value)
  numValues : Nat
  deriving DecidableEq, Repr

/-- The visitor capability consumed by `readWithVisitor`, over a visitor state
`V`. Static members (`DataType`, `dense`, `FilterType`, `Extract`, `HookType`)
are fields; `useFastPath` is the eligibility predicate
`dwio::common::useFastPath<Visitor, hasNulls>`. Callbacks with a `bool& atEnd`
return the flag; `checkAndSkipNulls` also returns the updated `current`. -/
structure Visitor (V : Type) where
  dataType : DataType
  dense : Bool
  hasFilter : Bool
  filterOnly : Bool
  hasHook : Bool
  useFastPath : Bool → V → Bool
  start : V → Nat
  allowNulls : V → Bool
  checkAndSkipNulls : Nulls → Nat → V → Nat × Nat × Bool × V
  processNull : V → Nat × Bool × V
  process : Value → V → Nat × Bool × V
  rows : V → List Nat
  numValuesBias : V → Nat
  filter : V → Value → Bool
  storeNulls : List Bool → V → V
  storeRun : RunOutput → V → V
  setHasNulls : V → V
  setAllNull : Nat → V → V
  setNumValues : Nat → V → V

/-! ## `readWithVisitor`: the scalar loop -/

/-- State of the scalar loop: the row cursor `current`, the decoder, the visitor. -/
structure LoopState (V : Type) where
  current : Nat
  dec : Decoder
  vis : V

/-- How one iteration of `for (;;)` ends: `next` goes round again, `exit` is
`return`. -/
inductive Step (V : Type)
  | next (s : LoopState V)
  | exit (s : LoopState V)

/-- The split of a 96-bit value: `int32_t days = encoded & ((1ULL << 32) - 1)`. -/
def int96Days (encoded : Int) : Int :=
  let low := encoded % 2 ^ 32
  if low < 2 ^ 31 then low else low - 2 ^ 32

/-- The split of a 96-bit value:
`uint64_t nanos = static_cast<uint64_t>(encoded >> 32)`. -/
def int96Nanos (encoded : Int) : Nat :=
  ((encoded / 2 ^ 32) % 2 ^ 64).toNat

/-- A 32-bit pattern read as a signed 32-bit integer. -/
def toInt32 (u : Nat) : Int := if u < 2 ^ 31 then (u : Int) else (u : Int) - 2 ^ 32

/-- An integer as `int64_t`: its low 64 bits read as a signed 64-bit integer. -/
def toInt64 (x : Int) : Int :=
  let low := x % 2 ^ 64
  if low < 2 ^ 63 then low else low - 2 ^ 64

/-- Lines 89-109: decode one value according to `Visitor::DataType`. The value
type `integer` stands for the 64-bit integer: line 108 hands the visitor the
`int64_t` that `readInt<int64_t>` returns. -/
def decodeValue (cfg : Config) (dt : DataType) (d : Decoder) : Outcome (Value × Decoder) :=
  match dt with
  | .float => readFloat cfg d
  | .double => readDouble cfg d
  | .int128 =>
    (readInt cfg d).bind (fun r =>
      let encoded := r.1
      if cfg.numBytes = 12 then
        .ok (.timestamp (int96Days encoded) (int96Nanos encoded), r.2)
      else .ok (.int encoded, r.2))
  | .integer =>
    (readInt cfg d).bind (fun r => .ok (.int (toInt64 r.1), r.2))

/-- The loop state a step ends in. -/
def Step.state {V : Type} : Step V → LoopState V
  | .next s => s
  | .exit s => s

/-- Whether a step leaves the loop. -/
def Step.isExit {V : Type} : Step V → Bool
  | .next _ => false
  | .exit _ => true

/-- Lines 111-119, the shared tail at label `skip`: advance the cursor, charge
the skip, test `atEnd`. -/
def skipTail {V : Type} (hasNulls : Bool) (nulls : Nulls)
    (toSkip : Nat) (atEnd : Bool) (s : LoopState V) : Step V :=
  let current := s.current + 1
  let s1 : LoopState V :=
    if toSkip ≠ 0 then
      { s with current := current + toSkip, dec := skipT hasNulls toSkip current nulls s.dec }
    else { s with current := current }
  if atEnd then .exit s1 else .next s1

/-- Lines 89-119: decode, `visitor.process`, then the shared tail. -/
def processRow {V : Type} (cfg : Config) (hasNulls : Bool) (nulls : Nulls) (vis : Visitor V)
    (s : LoopState V) : Outcome (Step V) :=
  (decodeValue cfg vis.dataType s.dec).bind (fun r =>
    let value := r.1
    let p := vis.process value s.vis
    .ok (skipTail hasNulls nulls p.1 p.2.1
      { s with dec := r.2.emit (.process value), vis := p.2.2 }))

/-- Lines 71-119: one iteration of the scalar loop. -/
def iteration {V : Type} (cfg : Config) (hasNulls : Bool) (nulls : Nulls) (vis : Visitor V)
    (allowNulls : Bool) (s : LoopState V) : Outcome (Step V) :=
  if hasNulls then
    if !allowNulls then
      let c := vis.checkAndSkipNulls nulls s.current s.vis
      let toSkip := c.1
      let current := c.2.1
      let atEnd := c.2.2.1
      let d1 := s.dec.emit (.checkAndSkipNulls s.current)
      let d2 := if !vis.dense then skipT false toSkip current nulls d1 else d1
      let s1 : LoopState V := { current := current, dec := d2, vis := c.2.2.2 }
      if atEnd then .ok (.exit s1) else processRow cfg hasNulls nulls vis s1
    else
      if isBitNull nulls s.current then
        let p := vis.processNull s.vis
        .ok (skipTail hasNulls nulls p.1 p.2.1
          { s with dec := s.dec.emit .processNull, vis := p.2.2 })
      else processRow cfg hasNulls nulls vis s
  else processRow cfg hasNulls nulls vis s

/-- The loop `for (;;)` of lines 70-120, bounded by fuel. -/
def scalarLoop {V : Type} (cfg : Config) (hasNulls : Bool) (nulls : Nulls) (vis : Visitor V)
    (allowNulls : Bool) : Nat → LoopState V → Outcome (LoopState V)
  | 0, _ => .outOfFuel
  | fuel + 1, s =>
    (iteration cfg hasNulls nulls vis allowNulls s).bind (fun r =>
      match r with
      | .exit s1 => .ok s1
      | .next s1 => scalarLoop cfg hasNulls nulls vis allowNulls fuel s1)

/-- Lines 67-120: the scalar path of `readWithVisitor`, after `skipPending`. -/
def scalarPath {V : Type} (cfg : Config) (hasNulls : Bool) (nulls : Nulls) (vis : Visitor V)
    (fuel : Nat) (d : Decoder) (v : V) : Outcome (LoopState V) :=
  let current := vis.start v
  let d1 := skipT hasNulls current 0 nulls d
  let allowNulls := hasNulls && vis.allowNulls v
  scalarLoop cfg hasNulls nulls vis allowNulls fuel { current := current, dec := d1, vis := v }

/-! ## Bulk readers and run kernels -/

/-- Read `n` consecutive values, fixed- or variable-length. -/
def readValues (cfg : Config) : Nat → Decoder → Outcome (List Int × Decoder)
  | 0, d => .ok ([], d)
  | n + 1, d =>
    (readOne cfg d).bind (fun r =>
      (readValues cfg n r.2).bind (fun rs => .ok (r.1 :: rs.1, rs.2)))

/-- Number of stream values a row list spans: last row + 1. -/
def span (rows : List Nat) : Nat :=
  match rows.getLast? with
  | some r => r + 1
  | none => 0

/-- The values of a contiguous run at the positions `rows`. -/
def pick (run : List Int) (rows : List Nat) : List Int :=
  rows.map (fun r => run.getD r 0)

/-- Modelled from the spec: `IntDecoder::bulkRead(size, result)`, the bulk reader
read linearly: `n` consecutive values. -/
def bulkRead (cfg : Config) (n : Nat) (d : Decoder) : Outcome (List Int × Decoder) :=
  (skipPending cfg d).bind (fun d1 => readValues cfg n (d1.emit (.bulkRead n)))

/-- Modelled from the spec: `IntDecoder::bulkReadRows(rows, result)`, the bulk
reader driven by an index list: the values at the positions `rows`, consuming
the stream up to the last of them. -/
def bulkReadRows (cfg : Config) (rows : List Nat) (d : Decoder) : Outcome (List Int × Decoder) :=
  (skipPending cfg d).bind (fun d1 =>
    (readValues cfg (span rows) (d1.emit (.bulkReadRows rows))).bind (fun r =>
      .ok (pick r.1 rows, r.2)))

/-- An integer of the variable-length bulk readers as a value of the visitor
type `T`. -/
def asValue (dt : DataType) (i : Int) : Value :=
  match dt with
  | .float => .float i.toNat
  | .double => .double i.toNat
  | .integer => .int (toInt64 i)
  | .int128 => .int i

/-- Modelled from the spec: `dwio::common::nonNullRowsFromDense`, the
positions-from-dense-bitmap compaction (outer index list only). -/
def nonNullRowsFromDense (nulls : Nulls) (numRows : Nat) : List Nat :=
  (List.range numRows).filter (fun i => nulls i)

/-- Result of the sparse compaction. -/
structure SparseNonNulls where
  anyNulls : Bool
  inner : List Nat
  outer : List Nat
  resultNulls : List Bool
  tailSkip : Nat
  deriving DecidableEq, Repr

/-- Modelled from the spec: `dwio::common::nonNullRowsFromSparse<isFilter,
outputNulls>`. For the selected non-null rows: outer = position in the
null-inclusive row space (the row number with a filter, the position in the
selection otherwise), inner = position in the null-compacted value space; the
raw output null bitmap when asked for; whether a null was seen; the trailing
skip, the values between the last surviving row and the last selected row. -/
def nonNullRowsFromSparse (isFilter outputNulls : Bool) (nulls : Nulls) (rows : List Nat) :
    SparseNonNulls :=
  let live := rows.filter (fun r => nulls r)
  { anyNulls := rows.any (fun r => isBitNull nulls r)
    inner := live.map (fun r => countNonNulls nulls 0 r)
    outer :=
      if isFilter then live
      else ((List.range rows.length).zip rows).filterMap
        (fun p => if nulls p.2 then some p.1 else none)
    resultNulls := if outputNulls then rows.map (fun r => nulls r) else []
    tailSkip := countNonNulls nulls (span live) (span rows - 1) }

/-- Spread `values` over the slots `slots` of a buffer of `size` slots. -/
def scatter (slots : List Nat) (values : List Value) (size : Nat) : List (Option Value) :=
  (List.range size).map (fun i => (slots.zip values).lookup i)

/-- Modelled from the spec: `dwio::common::processFixedWidthRun<T, filterOnly,
scatter, dense>`, the run kernel. A value passing the filter (or absent a
filter) is written at the next output slot, or routed to the hook if one is
present; with neither filter nor hook all values are kept in place (spread to
their row slots when `scatterRows` compacts nulls). -/
def processFixedWidthRun (hasFilter filterOnly hasHook isScatter : Bool)
    (rows : List Nat) (scatterRows : Option (List Nat)) (values : List Value)
    (filter : Value → Bool) : RunOutput :=
  let ids := if isScatter then scatterRows.getD [] else rows
  let kept := (ids.zip values).filter (fun p => !hasFilter || filter p.2)
  if hasHook then
    { values := [], filterHits := if hasFilter then kept.map Prod.fst else [],
      hooked := (((scatterRows.getD rows).zip values).filter (fun p => !hasFilter || filter p.2)),
      numValues := if hasFilter then kept.length else 0 }
  else if hasFilter then
    { values := if filterOnly then [] else kept.map (fun p => some p.2),
      filterHits := kept.map Prod.fst, hooked := [], numValues := kept.length }
  else if isScatter then
    { values := scatter ids values (span ids), filterHits := [], hooked := [],
      numValues := span ids }
  else
    { values := values.map some, filterHits := [], hooked := [], numValues := values.length }

/-- A fixed-width value read as the visitor type `T`: the raw bit pattern for
the floating types, the integer otherwise. -/
def fixedValue (cfg : Config) (dt : DataType) (bytes : List Nat) : Value :=
  match dt with
  | .float => .float (leValue bytes)
  | .double => .double (leValue bytes)
  | .integer => .int (toInt64 (decodeFixed cfg bytes))
  | .int128 => .int (decodeFixed cfg bytes)

/-- Modelled from the spec: `dwio::common::fixedWidthScan<T, filterOnly,
scatter>`, the fixed-width bulk reader: a direct scan of the byte source (it
is handed the stream and the buffer cursors, not the decoder) for the values
at the positions `rows`, followed by the run kernel. -/
def fixedWidthScan (cfg : Config) (dt : DataType) (hasFilter filterOnly hasHook isScatter : Bool)
    (rows : List Nat) (scatterRows : Option (List Nat)) (filter : Value → Bool)
    (d : Decoder) : Outcome (RunOutput × Decoder) :=
  (takeBytes (span rows * cfg.numBytes) (d.emit (.fixedWidthScan rows))).bind (fun r =>
    let values := rows.map
      (fun i => fixedValue cfg dt ((r.1.drop (i * cfg.numBytes)).take cfg.numBytes))
    let out := processFixedWidthRun hasFilter filterOnly hasHook isScatter rows scatterRows
      values filter
    .ok (out, r.2.emit (.runKernel out.numValues)))

/-- The function `velox::iota(numRows, storage, bias)`. -/
def iota (numRows bias : Nat) : List Nat := List.range' bias numRows

/-! ## `fastPath` and `readWithVisitor` -/

/-- Line 290: `visitor.setNumValues(hasFilter ? numValues : numRows)`. -/
def finish {V : Type} (vis : Visitor V) (numValues numRows : Nat) (d : Decoder) (v : V) :
    Outcome (Decoder × V) :=
  let n := if vis.hasFilter then numValues else numRows
  .ok (d.emit (.setNumValues n), vis.setNumValues n v)

/-- Lines 184-185 and 203-204: `visitor.setAllNull(hasFilter ? 0 : numRows); return`. -/
def allNull {V : Type} (vis : Visitor V) (numRows : Nat) (d : Decoder) (v : V) :
    Outcome (Decoder × V) :=
  let n := if vis.hasFilter then 0 else numRows
  .ok (d.emit (.setAllNull n), vis.setAllNull n v)

/-- Lines 207-247 and 290: the fast path with a null bitmap, after the null
compaction. `rows` is the row batch read at line 169; `innerVector` is `none`
for the null pointer. -/
def fastPathNulls {V : Type} (cfg : Config) (nulls : Nulls) (vis : Visitor V)
    (rows : List Nat)
    (innerVector : Option (List Nat)) (outerVector : List Nat) (numNonNull tailSkip : Nat)
    (d : Decoder) (v : V) : Outcome (Decoder × V) :=
  let numRows := rows.length
  let outer :=
    if vis.hasHook && decide (vis.numValuesBias v > 0) then
      outerVector.map (fun row => row + vis.numValuesBias v)
    else outerVector
  if cfg.useVInts then
    (if vis.dense then bulkRead cfg numNonNull d
     else
       match innerVector with
       | some inner => bulkReadRows cfg inner d
       | none => .thrown .nullDeref d.log).bind (fun r =>
      let d2 := skipT false tailSkip 0 nulls r.2
      let dataRows := innerVector.getD (rows.take outer.length)
      let out := processFixedWidthRun vis.hasFilter vis.filterOnly vis.hasHook true
        dataRows (some outer) (r.1.map (asValue vis.dataType)) (vis.filter v)
      finish vis out.numValues numRows (d2.emit (.runKernel out.numValues))
        (vis.storeRun out v))
  else
    (fixedWidthScan cfg vis.dataType vis.hasFilter vis.filterOnly vis.hasHook true
        (innerVector.getD (rows.take outer.length))
        (some outer) (vis.filter v) d).bind (fun r =>
      let d2 := skipT false tailSkip 0 nulls r.2
      finish vis r.1.numValues numRows d2 (vis.storeRun r.1 v))

/-- Lines 249-290: the fast path without a null bitmap. -/
def fastPathNoNulls {V : Type} (cfg : Config) (vis : Visitor V)
    (d : Decoder) (v : V) : Outcome (Decoder × V) :=
  let rows := vis.rows v
  let numRows := rows.length
  let scatterRows := if vis.hasHook then some (iota numRows (vis.numValuesBias v)) else none
  if cfg.useVInts then
    (if vis.dense then bulkRead cfg numRows d else bulkReadRows cfg rows d).bind (fun r =>
      let out := processFixedWidthRun vis.hasFilter vis.filterOnly vis.hasHook false
        rows scatterRows (r.1.map (asValue vis.dataType)) (vis.filter v)
      finish vis out.numValues numRows (r.2.emit (.runKernel out.numValues))
        (vis.storeRun out v))
  else
    (fixedWidthScan cfg vis.dataType vis.hasFilter vis.filterOnly vis.hasHook false
        rows scatterRows (vis.filter v) d).bind (fun r =>
      finish vis r.1.numValues numRows r.2 (vis.storeRun r.1 v))

/-- The method `DirectDecoder::fastPath<hasNulls>`. -/
def fastPath {V : Type} (cfg : Config) (hasNulls : Bool) (nulls : Nulls) (vis : Visitor V)
    (d : Decoder) (v : V) : Outcome (Decoder × V) :=
  let rows := vis.rows v
  let numRows := rows.length
  if hasNulls then
    if vis.dense || rows.getLast? == some (numRows - 1) then
      let outerVector := nonNullRowsFromDense nulls numRows
      let numNonNull := outerVector.length
      if numNonNull = 0 then allNull vis numRows d v
      else fastPathNulls cfg nulls vis rows none outerVector numNonNull 0 d v
    else
      let c := nonNullRowsFromSparse vis.hasFilter (!vis.hasFilter && !vis.hasHook) nulls rows
      let v1 := if vis.hasFilter || vis.hasHook then v else vis.storeNulls c.resultNulls v
      let d1 := if c.anyNulls then d.emit .setHasNulls else d
      let v2 := if c.anyNulls then vis.setHasNulls v1 else v1
      if c.inner.isEmpty then
        allNull vis numRows (skipT false c.tailSkip 0 nulls d1) v2
      else fastPathNulls cfg nulls vis rows (some c.inner) c.outer numRows c.tailSkip d1 v2
  else fastPathNoNulls cfg vis d v

/-- The method `DirectDecoder::readWithVisitor<hasNulls>`. -/
def readWithVisitor {V : Type} (cfg : Config) (hasNulls : Bool) (nulls : Nulls) (vis : Visitor V)
    (useFastPath : Bool) (fuel : Nat) (d : Decoder) (v : V) : Outcome (Decoder × V) :=
  (skipPending cfg d).bind (fun d1 =>
    if vis.dataType ≠ .int128 ∧ useFastPath = true ∧ vis.useFastPath hasNulls v = true then
      fastPath cfg hasNulls nulls vis d1 v
    else
      (scalarPath cfg hasNulls nulls vis fuel d1 v).bind (fun s => .ok (s.dec, s.vis)))

/-! ## A reference visitor -/

/-- Modelled from the spec: the static part of the column visitor
(`ColumnVisitor`, dwio/common/ColumnVisitors.h, consumed only through the
capability contract): value type, dense flag, filter, extraction policy, hook,
null handling mode, and the verdict of the fast-path eligibility predicate for
this configuration. -/
structure VisitorConfig where
  dataType : DataType
  dense : Bool
  hasFilter : Bool
  filterOnly : Bool
  hasHook : Bool
  allowNulls : Bool
  eligible : Bool
  testValue : Value → Bool
  testNull : Bool

/-- Modelled from the spec: the mutable part of the column visitor: the row
selection and the cursor into it, the output buffers and the emitted count. -/
structure ColumnVisitor where
  rows : List Nat
  rowIndex : Nat
  bias : Nat
  values : List (Option Value)
  outputRows : List Nat
  hooked : List (Nat × Value)
  numValues : Nat
  hasNulls : Bool
  resultNulls : List Bool
  deriving DecidableEq, Repr

namespace ColumnVisitor

/-- A visitor about to read the row selection `rows`. -/
def init (rows : List Nat) : ColumnVisitor :=
  { rows := rows, rowIndex := 0, bias := 0, values := [], outputRows := [], hooked := [],
    numValues := 0, hasNulls := false, resultNulls := [] }

/-- The row under the cursor. -/
def currentRow (v : ColumnVisitor) : Nat := v.rows.getD v.rowIndex 0

/-- Modelled from the spec: after a row: move to the next selected row; the
skip count is the number of unselected rows in between, `atEnd` tells that
the selection is exhausted. -/
def advance (v : ColumnVisitor) (previous : Nat) : Nat × Bool × ColumnVisitor :=
  let v1 := { v with rowIndex := v.rowIndex + 1 }
  if v.rowIndex + 1 ≥ v.rows.length then (0, true, v1)
  else (v1.currentRow - previous - 1, false, v1)

/-- A value that passed the filter (or met none): written at the next output
slot, or routed to the hook. -/
def keep (c : VisitorConfig) (row : Nat) (x : Option Value) (v : ColumnVisitor) : ColumnVisitor :=
  if c.hasHook then
    match x with
    | some value => { v with hooked := v.hooked ++ [(v.numValues + v.bias, value)],
                             numValues := v.numValues + 1 }
    | none => { v with numValues := v.numValues + 1 }
  else
    { v with values := if c.filterOnly then v.values else v.values ++ [x],
             outputRows := if c.hasFilter then v.outputRows ++ [row] else v.outputRows,
             numValues := v.numValues + 1 }

/-- Modelled from the spec: `process(value) -> (skip, atEnd)`. -/
def process (c : VisitorConfig) (value : Value) (v : ColumnVisitor) : Nat × Bool × ColumnVisitor :=
  let previous := v.currentRow
  let v1 := if !c.hasFilter || c.testValue value then keep c previous (some value) v else v
  advance v1 previous

/-- Modelled from the spec: `processNull() -> (skip, atEnd)`. -/
def processNull (c : VisitorConfig) (v : ColumnVisitor) : Nat × Bool × ColumnVisitor :=
  let previous := v.currentRow
  let v1 := if !c.hasFilter || c.testNull then keep c previous none { v with hasNulls := true } else v
  advance v1 previous

/-- Modelled from the spec: `checkAndSkipNulls(nulls, currentRow) -> (skip,
atEnd)`, classify-and-skip. On a present row nothing happens. On a null row
the cursor moves to the next selected row that is present; the skip count is
the number of value-bearing rows passed over; `atEnd` tells that no selected
row is left. -/
def checkAndSkipNulls (nulls : Nulls) (current : Nat) (v : ColumnVisitor) :
    Nat × Nat × Bool × ColumnVisitor :=
  if nulls current then (0, current, false, v)
  else
    match (v.rows.drop (v.rowIndex + 1)).findIdx? (fun r => nulls r) with
    | some j =>
      let v1 := { v with rowIndex := v.rowIndex + 1 + j }
      (countNonNulls nulls (current + 1) v1.currentRow, v1.currentRow, false, v1)
    | none =>
      (countNonNulls nulls (current + 1) (span v.rows), current, true,
        { v with rowIndex := v.rows.length })

/-- The reference visitor as a `Visitor`. -/
def visitor (c : VisitorConfig) : Visitor ColumnVisitor where
  dataType := c.dataType
  dense := c.dense
  hasFilter := c.hasFilter
  filterOnly := c.filterOnly
  hasHook := c.hasHook
  useFastPath := fun _ _ => c.eligible
  start := fun v => v.rows.getD 0 0
  allowNulls := fun _ => c.allowNulls
  checkAndSkipNulls := checkAndSkipNulls
  processNull := processNull c
  process := process c
  rows := fun v => v.rows
  numValuesBias := fun v => v.bias
  filter := fun _ => c.testValue
  storeNulls := fun ns v => { v with resultNulls := ns }
  storeRun := fun out v =>
    { v with values := out.values, outputRows := out.filterHits, hooked := v.hooked ++ out.hooked }
  setHasNulls := fun v => { v with hasNulls := true }
  setAllNull := fun n v => { v with numValues := n, hasNulls := true }
  setNumValues := fun n v => { v with numValues := n }

end ColumnVisitor

/-! ## Concrete inputs -/

/-- Little-endian bytes of `x` over `w` bytes. -/
def leBytes : Nat → Nat → List Nat
  | 0, _ => []
  | w + 1, x => x % 256 :: leBytes w (x / 256)

/-- A fixed-width little-endian unsigned decoder of 4-byte values. -/
def fixed4 : Config :=
  { useVInts := false, numBytes := 4, bigEndian := false, isSigned := false,
    vint := fun _ => none }

/-- A variable-length decoder whose codec is one byte per value. -/
def vint1 : Config :=
  { useVInts := true, numBytes := 1, bigEndian := false, isSigned := false,
    vint := fun bs => bs.head?.map (fun b => ((b : Int), 1)) }

/-- The stream of 4-byte little-endian values 10, 20, 30, 40, 50. -/
def stream5 : Decoder :=
  { input := [10, 20, 30, 40, 50].flatMap (leBytes 4), pendingSkip := 0, log := [] }

/-- A plain materializing configuration: integers, no filter, no hook. -/
def plain (dense allowNulls : Bool) : VisitorConfig :=
  { dataType := .integer, dense := dense, hasFilter := false, filterOnly := false,
    hasHook := false, allowNulls := allowNulls, eligible := true,
    testValue := fun _ => true, testNull := true }

/-- The bitmap 1,0,1,1,0 (1 = present). -/
def bitmap5 : Nulls := fun i => [true, false, true, true, false].getD i false

/-- A variable-length stream of the one-byte values 1, 2, 3, 4, 5. -/
def vintStream : Decoder :=
  { input := [1, 2, 3, 4, 5], pendingSkip := 0, log := [] }

/-- A stream of two 4-byte values, too short for five rows. -/
def shortStream : Decoder :=
  { input := [10, 20].flatMap (leBytes 4), pendingSkip := 0, log := [] }

/-- The scalar loop at the null row 1 of `bitmap5`, rows 0, 1, 3 selected. -/
def atNullRow : LoopState ColumnVisitor :=
  { current := 1, dec := stream5, vis := { ColumnVisitor.init [0, 1, 3] with rowIndex := 1 } }

/-- As `plain`, dense and with nulls hidden, for the value type `int128_t`. -/
def wide : VisitorConfig :=
  { plain true false with dataType := .int128 }

/-- The scalar loop as it is entered for the selection 1, 3 over `bitmap5` and
`stream5`: at the null row 1, the value of row 0 pending as a skip. -/
def atHiddenRow : LoopState ColumnVisitor :=
  { current := 1, dec := skipT true 1 0 bitmap5 stream5, vis := ColumnVisitor.init [1, 3] }

/-- The scalar loop on the dense batch `[0, 5)` over `bitmap5` and `stream5`
after row 0 was processed: at the null row 1, the stream at its second value. -/
def atDenseRow : LoopState ColumnVisitor :=
  { current := 1
    dec := { input := [20, 30, 40, 50].flatMap (leBytes 4), pendingSkip := 0, log := [] }
    vis := { ColumnVisitor.init (List.range 5) with rowIndex := 1 } }

/-- The `process` calls of a log, in order. -/
def processed (l : List Event) : List Value :=
  l.filterMap (fun e => match e with
    | .process v => some v
    | _ => none)

/-! ## Specification vocabulary

Predicates on logs and outcomes, the logical content of a byte stream, and the
invariants of the scalar loop, used to state the theorems below. -/

/-- The log `l` extends `l0` by events that all satisfy `q`. -/
def Only (q : Event → Prop) (l0 l : List Event) : Prop :=
  ∃ new, l = l0 ++ new ∧ ∀ e ∈ new, q e

/-- A property of the outcomes that are not exhaustion: `P` on a normal result,
`T` on the log of an exception. -/
def Outcome.Sat {α : Type} (P : α → Prop) (T : List Event → Prop) : Outcome α → Prop
  | .ok a => P a
  | .thrown _ l => T l
  | .outOfFuel => True

/-- The events of a call before its count is finalized; a byte consumption
counts only when the pending skip is resolved. -/
def callEvent : Event → Prop
  | .consume p _ => p = 0
  | .setAllNull _ => False
  | .setNumValues _ => False
  | _ => True

/-- Every byte consumption happened with the pending skip resolved. -/
def resolvedEvent : Event → Prop
  | .consume p _ => p = 0
  | _ => True

/-- A decoder whose log extends `l0` by call events and whose pending skip is
resolved. -/
def Good (l0 : List Event) (d : Decoder) : Prop :=
  Only callEvent l0 d.log ∧ d.pendingSkip = 0

/-- The log of a step. -/
def Step.log {V : Type} : Step V → List Event
  | .next s => s.dec.log
  | .exit s => s.dec.log

/-- The two calls that finalize the count of the visitor. -/
def isFinal : Event → Prop
  | .setAllNull _ => True
  | .setNumValues _ => True
  | _ => False

/-- The log `l` extends `l0` by call events followed by exactly one
finalization, the last event. -/
def Finalized (l0 l : List Event) : Prop :=
  ∃ pre e, Only callEvent l0 pre ∧ l = pre ++ [e] ∧ isFinal e

/-- The log `l` extends the log of `d` by the byte-level skip of the pending
count of `d` (the first act of `skipPending`), followed by events among
which every byte consumption happened while `pendingSkip_` was 0. -/
def ResolvedSince (d : Decoder) (l : List Event) : Prop :=
  ∃ new, l = d.log ++ .skipLongs d.pendingSkip :: new ∧
    ∀ p n, Event.consume p n ∈ new → p = 0

/-- The decoder side of an outcome of a call: the decoder (its log included) on
return, the exception and its log otherwise. -/
def Outcome.dec {V : Type} (x : Outcome (Decoder × V)) : Outcome Decoder :=
  x.bind (fun r => .ok r.1)

/-- The next value of a byte stream and the bytes after it. -/
def valueOf (cfg : Config) (input : List Nat) : Option (Int × List Nat) :=
  if cfg.useVInts then
    match cfg.vint input with
    | some (x, k) => if k ≤ input.length then some (x, input.drop k) else none
    | none => none
  else if cfg.numBytes ≤ input.length then
    some (decodeFixed cfg (input.take cfg.numBytes), input.drop cfg.numBytes)
  else none

/-- The first `n` values of a byte stream and the bytes after them. -/
def valuesOf (cfg : Config) : Nat → List Nat → Option (List Int × List Nat)
  | 0, input => some ([], input)
  | n + 1, input =>
    match valueOf cfg input with
    | some (x, rest) =>
      match valuesOf cfg n rest with
      | some (xs, rest1) => some (x :: xs, rest1)
      | none => none
    | none => none

/-- A decoder seen through what the claims below speak of: unread bytes,
pending skip, and the values handed to `process` so far. -/
def Decoder.view (d : Decoder) : List Nat × Nat × List Value :=
  (d.input, d.pendingSkip, processed d.log)

/-- The byte stream after its first `n` values. -/
def advance (cfg : Config) : Nat → List Nat → Option (List Nat)
  | 0, input => some input
  | n + 1, input =>
    match valueOf cfg input with
    | some (_, rest) => advance cfg n rest
    | none => none

/-- The loop is at the selected row `r`, between the selected rows `pre` and
`post`: the cursor and the visitor agree on `r`, and the values consumed plus
the pending skip count the value-bearing rows before `r`. -/
def AtRow (cfg : Config) (nulls : Nulls) (start rows : List Nat) (s : LoopState ColumnVisitor)
    (pre : List Nat) (r : Nat) (post : List Nat) : Prop :=
  s.vis.rows = rows ∧ rows = pre ++ r :: post ∧ s.vis.rowIndex = pre.length ∧ s.current = r ∧
    ∃ K, advance cfg K start = some s.dec.input ∧
      K + s.dec.pendingSkip = countNonNulls nulls 0 r

/-- The values consumed plus the pending skip count the value-bearing rows up to
the last selected row: nothing was read for a null row. -/
def AtEnd (cfg : Config) (nulls : Nulls) (start rows : List Nat) (d : Decoder) : Prop :=
  ∃ K, advance cfg K start = some d.input ∧
    K + d.pendingSkip = countNonNulls nulls 0 (span rows)

/-- The value of row `r` in a stream holding the values `xs` of the non-null
rows: null rows hold no bytes, so it is the value number `countNonNulls 0 r`. -/
def rowValue (nulls : Nulls) (xs : List Int) (r : Nat) : Value :=
  .int (toInt64 (xs.getD (countNonNulls nulls 0 r) 0))

/-- The values of the selected non-null rows, in row order. -/
def liveValues (nulls : Nulls) (xs : List Int) (rows : List Nat) : List Value :=
  (rows.filter (fun r => nulls r)).map (rowValue nulls xs)

/-- For a materializing visitor without filter and hook: the output buffer and
the count of `v1` are those of `v` extended by the values `emitted`. -/
def Plain (c : VisitorConfig) (v v1 : ColumnVisitor) (emitted : List Value) : Prop :=
  c.hasFilter = false → c.hasHook = false → c.filterOnly = false →
    v1.values = v.values ++ emitted.map some ∧ v1.numValues = v.numValues + emitted.length

/-- The decoder after the classify-and-skip call of lines 75-78. -/
def afterCheck (c : VisitorConfig) (nulls : Nulls) (toSkip current : Nat) (s : LoopState ColumnVisitor) :
    Decoder :=
  if (!c.dense) = true then
    skipT false toSkip current nulls (s.dec.emit (.checkAndSkipNulls s.current))
  else s.dec.emit (.checkAndSkipNulls s.current)

/-- The calls of the scalar loop: reads and skips of the stream and the per-row
callbacks of the visitor. The bulk readers, the run kernels and the calls that
report a count are made by the fast path only. -/
def scalarEvent : Event → Prop
  | .bulkRead _ => False
  | .bulkReadRows _ => False
  | .fixedWidthScan _ => False
  | .runKernel _ => False
  | .setHasNulls => False
  | .setAllNull _ => False
  | .setNumValues _ => False
  | _ => True

/-- The outcome is not a failure other than a short read of the byte source. -/
def Outcome.OnlyShort {α : Type} : Outcome α → Prop
  | .thrown e _ => e = .shortRead
  | _ => True

/-- The outcome is the dereference of a null pointer. -/
def Outcome.NullDeref {α : Type} : Outcome α → Prop
  | .thrown e _ => e = .nullDeref
  | _ => False

/-- The number of values held by the rows `[current + 1, current + 1 + toSkip)`:
all of them without a null bitmap, the non-null ones with one. -/
def tailCharge (hasNulls : Bool) (nulls : Nulls) (current toSkip : Nat) : Nat :=
  if hasNulls then countNonNulls nulls (current + 1) (current + 1 + toSkip) else toSkip

/-- Lines 75-78: the loop state after the classify-and-skip call, as the
`atEnd` test of line 79 and the decoding of lines 89-109 find it. -/
def checked {V : Type} (nulls : Nulls) (vis : Visitor V) (s : LoopState V) : LoopState V :=
  { current := (vis.checkAndSkipNulls nulls s.current s.vis).2.1
    dec :=
      if !vis.dense then
        skipT false (vis.checkAndSkipNulls nulls s.current s.vis).1
          (vis.checkAndSkipNulls nulls s.current s.vis).2.1 nulls
          (s.dec.emit (.checkAndSkipNulls s.current))
      else s.dec.emit (.checkAndSkipNulls s.current)
    vis := (vis.checkAndSkipNulls nulls s.current s.vis).2.2.2 }

/-- The loop state after the classify-and-skip call of lines 75-78 when the
returned count is charged: cursor and visitor as returned, the count added to
the pending skip. -/
def checkedCharged {V : Type} (nulls : Nulls) (vis : Visitor V) (s : LoopState V) : LoopState V :=
  { current := (vis.checkAndSkipNulls nulls s.current s.vis).2.1
    dec := skip (vis.checkAndSkipNulls nulls s.current s.vis).1
      (s.dec.emit (.checkAndSkipNulls s.current))
    vis := (vis.checkAndSkipNulls nulls s.current s.vis).2.2.2 }

/-- The loop state after the classify-and-skip call of lines 75-78 when the
returned count is dropped: cursor and visitor as returned, the decoder as it was. -/
def checkedDropped {V : Type} (nulls : Nulls) (vis : Visitor V) (s : LoopState V) : LoopState V :=
  { current := (vis.checkAndSkipNulls nulls s.current s.vis).2.1
    dec := s.dec.emit (.checkAndSkipNulls s.current)
    vis := (vis.checkAndSkipNulls nulls s.current s.vis).2.2.2 }

/-! ## Sequencing -/

@[simp] theorem Outcome.bind_ok {α β : Type} (a : α) (f : α → Outcome β) :
    (Outcome.ok a).bind f = f a := rfl

@[simp] theorem Outcome.bind_thrown {α β : Type} (e : Error) (l : List Event)
    (f : α → Outcome β) : (Outcome.thrown e l : Outcome α).bind f = .thrown e l := rfl

@[simp] theorem Outcome.bind_outOfFuel {α β : Type} (f : α → Outcome β) :
    (Outcome.outOfFuel : Outcome α).bind f = .outOfFuel := rfl

@[simp] theorem Outcome.erase_ok {α β : Type} (f : α → β) (a : α) :
    (Outcome.ok a).erase f = .ok (f a) := rfl

@[simp] theorem Outcome.erase_thrown {α β : Type} (f : α → β) (e : Error) (l : List Event) :
    (Outcome.thrown e l : Outcome α).erase f = .thrown e [] := rfl

@[simp] theorem Outcome.erase_outOfFuel {α β : Type} (f : α → β) :
    (Outcome.outOfFuel : Outcome α).erase f = .outOfFuel := rfl

/-- Erasure commutes with sequencing when the continuations agree on erased states. -/
theorem Outcome.erase_bind_congr_of {α β γ δ : Type} (r : α → γ) (q : β → δ)
    (x y : Outcome α) (f g : α → Outcome β)
    (hxy : x.erase r = y.erase r)
    (hfg : ∀ a b, x = .ok a → y = .ok b → r a = r b → (f a).erase q = (g b).erase q) :
    (x.bind f).erase q = (y.bind g).erase q := by
  cases x <;> cases y <;> simp at hxy ⊢
  · exact hfg _ _ rfl rfl hxy
  · exact hxy

/-- Erasure commutes with sequencing when the continuations agree on erased states. -/
theorem Outcome.erase_bind_congr {α β γ δ : Type} (r : α → γ) (q : β → δ)
    (x y : Outcome α) (f g : α → Outcome β)
    (hxy : x.erase r = y.erase r)
    (hfg : ∀ a b, r a = r b → (f a).erase q = (g b).erase q) :
    (x.bind f).erase q = (y.bind g).erase q :=
  Outcome.erase_bind_congr_of r q x y f g hxy (fun a b _ _ h => hfg a b h)

/-! ## The pending-skip counter changes only in `skip` and `skipPending` -/

theorem takeBytes_pending (n : Nat) (d : Decoder) (r : List Nat × Decoder)
    (h : takeBytes n d = .ok r) : r.2.pendingSkip = d.pendingSkip := by
  unfold takeBytes at h
  split at h
  · cases h; rfl
  · cases h

theorem readVInt_pending (cfg : Config) (d : Decoder) (r : Int × Decoder)
    (h : readVInt cfg d = .ok r) : r.2.pendingSkip = d.pendingSkip := by
  unfold readVInt at h
  cases hv : cfg.vint d.input with
  | none => simp [hv] at h
  | some p =>
    simp only [hv] at h
    cases ht : takeBytes p.2 d with
    | ok t =>
      simp only [ht, Outcome.bind_ok, Outcome.ok.injEq] at h
      rw [← h]
      exact takeBytes_pending _ _ _ ht
    | thrown e l => simp [ht] at h
    | outOfFuel => simp [ht] at h

theorem readOne_pending (cfg : Config) (d : Decoder) (r : Int × Decoder)
    (h : readOne cfg d = .ok r) : r.2.pendingSkip = d.pendingSkip := by
  unfold readOne at h
  split at h
  · exact readVInt_pending cfg d r h
  · cases ht : takeBytes cfg.numBytes d with
    | ok t =>
      simp only [ht, Outcome.bind_ok, Outcome.ok.injEq] at h
      rw [← h]
      exact takeBytes_pending _ _ _ ht
    | thrown e l => simp [ht] at h
    | outOfFuel => simp [ht] at h

theorem skipVInts_pending (cfg : Config) (n : Nat) : ∀ (d d1 : Decoder),
    skipVInts cfg n d = .ok d1 → d1.pendingSkip = d.pendingSkip := by
  induction n with
  | zero => intro d d1 h; simp [skipVInts] at h; rw [h]
  | succ n ih =>
    intro d d1 h
    unfold skipVInts at h
    cases hr : readVInt cfg d with
    | ok r =>
      simp only [hr, Outcome.bind_ok] at h
      rw [ih _ _ h, readVInt_pending cfg d r hr]
    | thrown e l => simp [hr] at h
    | outOfFuel => simp [hr] at h

theorem skipLongs_pending (cfg : Config) (n : Nat) (d d1 : Decoder)
    (h : skipLongs cfg n d = .ok d1) : d1.pendingSkip = d.pendingSkip := by
  unfold skipLongs at h
  simp only at h
  split at h
  · exact skipVInts_pending cfg n (d.emit (.skipLongs n)) _ h
  · cases ht : takeBytes (n * cfg.numBytes) (d.emit (.skipLongs n)) with
    | ok t =>
      simp only [ht, Outcome.bind_ok, Outcome.ok.injEq] at h
      rw [← h]
      exact takeBytes_pending _ (d.emit (.skipLongs n)) _ ht
    | thrown e l => simp [ht] at h
    | outOfFuel => simp [ht] at h

theorem skipPending_pending (cfg : Config) (d d1 : Decoder)
    (h : skipPending cfg d = .ok d1) : d1.pendingSkip = 0 :=
  skipLongs_pending cfg _ _ _ h

/-! ## Skips: the log is ghost, and skips compose -/

theorem takeBytes_real (n : Nat) (d1 d2 : Decoder) (h : d1.real = d2.real) :
    (takeBytes n d1).erase (fun r => (r.1, r.2.real)) =
      (takeBytes n d2).erase (fun r => (r.1, r.2.real)) := by
  simp only [Decoder.real, Prod.mk.injEq] at h
  unfold takeBytes
  rw [h.1]
  split <;> simp [Decoder.real, h.1, h.2]

theorem readVInt_real (cfg : Config) (d1 d2 : Decoder) (h : d1.real = d2.real) :
    (readVInt cfg d1).erase (fun r => (r.1, r.2.real)) =
      (readVInt cfg d2).erase (fun r => (r.1, r.2.real)) := by
  have hi : d1.input = d2.input := by simpa [Decoder.real] using congrArg Prod.fst h
  unfold readVInt
  rw [hi]
  cases hv : cfg.vint d2.input with
  | none => simp
  | some p =>
    apply Outcome.erase_bind_congr (fun r => (r.1, r.2.real)) _ _ _ _ _
      (takeBytes_real p.2 d1 d2 h)
    intro a b hab
    simp only [Prod.mk.injEq] at hab
    simp [hab.2]

theorem readOne_real (cfg : Config) (d1 d2 : Decoder) (h : d1.real = d2.real) :
    (readOne cfg d1).erase (fun r => (r.1, r.2.real)) =
      (readOne cfg d2).erase (fun r => (r.1, r.2.real)) := by
  unfold readOne
  split
  · exact readVInt_real cfg d1 d2 h
  · apply Outcome.erase_bind_congr (fun r => (r.1, r.2.real)) _ _ _ _ _
      (takeBytes_real cfg.numBytes d1 d2 h)
    intro a b hab
    simp only [Prod.mk.injEq] at hab
    simp [hab.1, hab.2]

theorem skipVInts_real (cfg : Config) (n : Nat) : ∀ (d1 d2 : Decoder), d1.real = d2.real →
    (skipVInts cfg n d1).erase Decoder.real = (skipVInts cfg n d2).erase Decoder.real := by
  induction n with
  | zero => intro d1 d2 h; simp [skipVInts, h]
  | succ n ih =>
    intro d1 d2 h
    unfold skipVInts
    apply Outcome.erase_bind_congr (fun r => (r.1, r.2.real)) _ _ _ _ _
      (readVInt_real cfg d1 d2 h)
    intro a b hab
    simp only [Prod.mk.injEq] at hab
    exact ih _ _ hab.2

theorem skipLongs_real (cfg : Config) (n : Nat) (d1 d2 : Decoder) (h : d1.real = d2.real) :
    (skipLongs cfg n d1).erase Decoder.real = (skipLongs cfg n d2).erase Decoder.real := by
  have h0 : (d1.emit (.skipLongs n)).real = (d2.emit (.skipLongs n)).real := by
    simpa [Decoder.real, Decoder.emit] using h
  unfold skipLongs
  simp only
  split
  · exact skipVInts_real cfg n _ _ h0
  · apply Outcome.erase_bind_congr (fun r => (r.1, r.2.real)) _ _ _ _ _
      (takeBytes_real (n * cfg.numBytes) _ _ h0)
    intro a b hab
    simp only [Prod.mk.injEq] at hab
    simp [hab.2]

theorem skipPending_real (cfg : Config) (d1 d2 : Decoder) (h : d1.real = d2.real) :
    (skipPending cfg d1).erase Decoder.real = (skipPending cfg d2).erase Decoder.real := by
  simp only [Decoder.real, Prod.mk.injEq] at h
  unfold skipPending
  simp only [h.2]
  exact skipLongs_real cfg _ _ _ (by simp [Decoder.real, h.1])

theorem readInt_real (cfg : Config) (d1 d2 : Decoder) (h : d1.real = d2.real) :
    (readInt cfg d1).erase (fun r => (r.1, r.2.real)) =
      (readInt cfg d2).erase (fun r => (r.1, r.2.real)) := by
  unfold readInt
  apply Outcome.erase_bind_congr Decoder.real _ _ _ _ _ (skipPending_real cfg d1 d2 h)
  intro a b hab
  exact readOne_real cfg _ _ (by simpa [Decoder.real, Decoder.emit] using hab)

theorem skipVInts_add (cfg : Config) (a b : Nat) : ∀ d : Decoder,
    skipVInts cfg (a + b) d = (skipVInts cfg a d).bind (skipVInts cfg b) := by
  induction a with
  | zero => intro d; simp [skipVInts]
  | succ a ih =>
    intro d
    rw [show a + 1 + b = (a + b) + 1 by omega]
    simp only [skipVInts]
    cases h1 : readVInt cfg d with
    | ok r => simpa using ih r.2
    | thrown e l => rfl
    | outOfFuel => rfl

theorem skipLongs_vint (cfg : Config) (n : Nat) (d : Decoder) (hv : cfg.useVInts = true) :
    skipLongs cfg n d = skipVInts cfg n (d.emit (.skipLongs n)) := by
  simp [skipLongs, hv]

theorem skipLongs_fixed (cfg : Config) (n : Nat) (d : Decoder) (hv : ¬ cfg.useVInts = true) :
    skipLongs cfg n d =
      if n * cfg.numBytes ≤ d.input.length then
        .ok { input := d.input.drop (n * cfg.numBytes), pendingSkip := d.pendingSkip,
              log := d.log ++ [.skipLongs n, .consume d.pendingSkip (n * cfg.numBytes)] }
      else .thrown .shortRead (d.log ++ [.skipLongs n]) := by
  simp only [skipLongs, hv, takeBytes, Decoder.emit, Bool.false_eq_true, if_false]
  split <;> simp

theorem skipPending_eq (cfg : Config) (d : Decoder) :
    skipPending cfg d = skipLongs cfg d.pendingSkip { d with pendingSkip := 0 } := rfl

/-- Two byte-level skips in a row skip the sum. -/
theorem skipLongs_add (cfg : Config) (a b : Nat) (d : Decoder) :
    ((skipLongs cfg a d).bind (fun d1 => skipLongs cfg b d1)).erase Decoder.real
      = (skipLongs cfg (a + b) d).erase Decoder.real := by
  by_cases hv : cfg.useVInts = true
  · rw [skipLongs_vint cfg _ _ hv, skipLongs_vint cfg _ _ hv,
      skipVInts_add cfg a b (d.emit (.skipLongs (a + b)))]
    apply Outcome.erase_bind_congr Decoder.real _ _ _ _ _
      (skipVInts_real cfg a _ _ (by simp [Decoder.real, Decoder.emit]))
    intro x y hxy
    rw [skipLongs_vint cfg _ _ hv]
    exact skipVInts_real cfg b _ _ (by simpa [Decoder.real, Decoder.emit] using hxy)
  · rw [skipLongs_fixed cfg _ _ hv, skipLongs_fixed cfg _ _ hv]
    by_cases h1 : a * cfg.numBytes ≤ d.input.length
    · by_cases h2 : b * cfg.numBytes ≤ d.input.length - a * cfg.numBytes
      · have h3 : (a + b) * cfg.numBytes ≤ d.input.length := by rw [Nat.add_mul]; omega
        have h4 : a * cfg.numBytes + b * cfg.numBytes = (a + b) * cfg.numBytes := by
          rw [Nat.add_mul]
        simp [h1, h2, h3, skipLongs_fixed cfg _ _ hv, Decoder.real, List.drop_drop, h4]
      · have h3 : ¬ (a + b) * cfg.numBytes ≤ d.input.length := by rw [Nat.add_mul]; omega
        simp [h1, h2, h3, skipLongs_fixed cfg _ _ hv]
    · have h3 : ¬ (a + b) * cfg.numBytes ≤ d.input.length := by rw [Nat.add_mul]; omega
      simp [h1, h3]

/-! ## C5: skip coalescing -/

/-- C5. For all `a`, `b` and every decoder state: `skip(a); skip(b)` followed by
a resolution of the pending skip (by `skipPending`, or by the next read) leaves
the decoder in the same real state, with the same failure if the source is too
short, as `skip(a + b)` followed by the same resolution; the resolution is the
byte-level skip of the pending count plus `a + b` values; and resolving after
each skip consumes the same bytes as resolving once. -/
theorem skip_coalescing (cfg : Config) (a b : Nat) (d : Decoder) :
    (skipPending cfg (skip b (skip a d))).erase Decoder.real
        = (skipPending cfg (skip (a + b) d)).erase Decoder.real
    ∧ (readInt cfg (skip b (skip a d))).erase (fun r => (r.1, r.2.real))
        = (readInt cfg (skip (a + b) d)).erase (fun r => (r.1, r.2.real))
    ∧ (skipPending cfg (skip (a + b) d)).erase Decoder.real
        = (skipLongs cfg (d.pendingSkip + (a + b)) { d with pendingSkip := 0 }).erase Decoder.real
    ∧ ((skipPending cfg (skip a d)).bind (fun d1 => skipPending cfg (skip b d1))).erase
          Decoder.real
        = (skipPending cfg (skip (a + b) d)).erase Decoder.real := by
  have hreal : (skip b (skip a d)).real = (skip (a + b) d).real := by
    simp [skip, Decoder.real, Nat.add_assoc]
  refine ⟨skipPending_real cfg _ _ hreal, readInt_real cfg _ _ hreal, ?_, ?_⟩
  · exact skipLongs_real cfg _ _ _ (by simp [skip, Decoder.real])
  · have h1 : (skipPending cfg (skip (a + b) d)).erase Decoder.real
        = (skipLongs cfg (d.pendingSkip + a + b) { d with pendingSkip := 0 }).erase
            Decoder.real := by
      rw [skipPending_eq]
      simp only [skip, ← Nat.add_assoc]
      exact skipLongs_real cfg _ _ _ (by simp [Decoder.real])
    rw [h1, ← skipLongs_add cfg (d.pendingSkip + a) b { d with pendingSkip := 0 }]
    apply Outcome.erase_bind_congr_of Decoder.real _ _ _ _ _
      (skipLongs_real cfg _ _ _ (by simp [skip, Decoder.real]))
    intro x y hx hy hxy
    have hx0 : x.pendingSkip = 0 := skipPending_pending cfg _ _ hx
    rw [skipPending_eq]
    simp only [skip, hx0, Nat.zero_add]
    exact skipLongs_real cfg _ _ _ (by
      simp only [Decoder.real, Prod.mk.injEq] at hxy
      simp [Decoder.real, hxy.1, ← hxy.2, hx0])

/-! ## Log invariants -/

theorem callEvent_resolved (e : Event) (h : callEvent e) : resolvedEvent e := by
  cases e <;> first | exact h | trivial

theorem Only.refl (q : Event → Prop) (l : List Event) : Only q l l :=
  ⟨[], by simp, by simp⟩

theorem Only.snoc {q : Event → Prop} {l0 l : List Event} (h : Only q l0 l) (e : Event)
    (he : q e) : Only q l0 (l ++ [e]) := by
  obtain ⟨new, rfl, hn⟩ := h
  refine ⟨new ++ [e], by simp, ?_⟩
  intro x hx
  rcases List.mem_append.1 hx with h1 | h1
  · exact hn x h1
  · simp at h1; rw [h1]; exact he

theorem Only.weaken {q q1 : Event → Prop} {l0 l : List Event} (h : Only q l0 l)
    (hq : ∀ e, q e → q1 e) : Only q1 l0 l := by
  obtain ⟨new, rfl, hn⟩ := h
  exact ⟨new, rfl, fun e he => hq e (hn e he)⟩

theorem Outcome.Sat.bind {α β : Type} {P : α → Prop} {Q : β → Prop} {T : List Event → Prop}
    {x : Outcome α} {f : α → Outcome β} (hx : x.Sat P T) (hf : ∀ a, P a → (f a).Sat Q T) :
    (x.bind f).Sat Q T := by
  cases x with
  | ok a => exact hf a hx
  | thrown e l => exact hx
  | outOfFuel => trivial

theorem Outcome.Sat.mono {α : Type} {P P1 : α → Prop} {T T1 : List Event → Prop}
    {x : Outcome α} (hx : x.Sat P T) (hP : ∀ a, P a → P1 a) (hT : ∀ l, T l → T1 l) :
    x.Sat P1 T1 := by
  cases x with
  | ok a => exact hP a hx
  | thrown e l => exact hT l hx
  | outOfFuel => trivial

theorem emit_good {l0 : List Event} {d : Decoder} (h : Good l0 d) (e : Event)
    (he : callEvent e) : Good l0 (d.emit e) :=
  ⟨Only.snoc h.1 e he, h.2⟩

theorem skip_only {l0 : List Event} {d : Decoder} (h : Only callEvent l0 d.log) (n : Nat) :
    Only callEvent l0 (skip n d).log :=
  Only.snoc h _ trivial

theorem skipT_only {l0 : List Event} {d : Decoder} (h : Only callEvent l0 d.log)
    (hasNulls : Bool) (n c : Nat) (nulls : Nulls) :
    Only callEvent l0 (skipT hasNulls n c nulls d).log :=
  skip_only h _

theorem takeBytes_good {l0 : List Event} {d : Decoder} (h : Good l0 d) (n : Nat) :
    (takeBytes n d).Sat (fun r => Good l0 r.2) (Only callEvent l0) := by
  unfold takeBytes
  split
  · exact ⟨Only.snoc h.1 _ h.2, h.2⟩
  · exact h.1

theorem readVInt_good {l0 : List Event} (cfg : Config) {d : Decoder} (h : Good l0 d) :
    (readVInt cfg d).Sat (fun r => Good l0 r.2) (Only callEvent l0) := by
  unfold readVInt
  cases cfg.vint d.input with
  | none => exact h.1
  | some p => exact (takeBytes_good h p.2).bind (fun _ ha => ha)

theorem readOne_good {l0 : List Event} (cfg : Config) {d : Decoder} (h : Good l0 d) :
    (readOne cfg d).Sat (fun r => Good l0 r.2) (Only callEvent l0) := by
  unfold readOne
  split
  · exact readVInt_good cfg h
  · exact (takeBytes_good h _).bind (fun _ ha => ha)

theorem skipVInts_good {l0 : List Event} (cfg : Config) (n : Nat) : ∀ {d : Decoder},
    Good l0 d → (skipVInts cfg n d).Sat (Good l0) (Only callEvent l0) := by
  induction n with
  | zero => intro d h; exact h
  | succ n ih =>
    intro d h
    unfold skipVInts
    exact (readVInt_good cfg h).bind (fun _ ha => ih ha)

theorem skipLongs_good {l0 : List Event} (cfg : Config) (n : Nat) {d : Decoder}
    (h : Good l0 d) : (skipLongs cfg n d).Sat (Good l0) (Only callEvent l0) := by
  have h0 : Good l0 (d.emit (.skipLongs n)) := emit_good h _ trivial
  unfold skipLongs
  simp only
  split
  · exact skipVInts_good cfg n h0
  · exact (takeBytes_good h0 _).bind (fun _ ha => ha)

theorem skipPending_good {l0 : List Event} (cfg : Config) {d : Decoder}
    (h : Only callEvent l0 d.log) : (skipPending cfg d).Sat (Good l0) (Only callEvent l0) :=
  skipLongs_good cfg _ (d := { d with pendingSkip := 0 }) ⟨h, rfl⟩

theorem readInt_good {l0 : List Event} (cfg : Config) {d : Decoder}
    (h : Only callEvent l0 d.log) :
    (readInt cfg d).Sat (fun r => Good l0 r.2) (Only callEvent l0) :=
  (skipPending_good cfg h).bind
    (fun _ ha => readOne_good cfg (emit_good ha .readInt trivial))

theorem readFixed_good {l0 : List Event} (cfg : Config) (size : Nat) {d : Decoder}
    (h : Only callEvent l0 d.log) :
    (readFixed cfg size d).Sat (fun r => Good l0 r.2) (Only callEvent l0) :=
  (skipPending_good cfg h).bind
    (fun _ ha => takeBytes_good (emit_good ha (.readFixed size) trivial) _)

theorem decodeValue_good {l0 : List Event} (cfg : Config) (dt : DataType) {d : Decoder}
    (h : Only callEvent l0 d.log) :
    (decodeValue cfg dt d).Sat (fun r => Good l0 r.2) (Only callEvent l0) := by
  cases dt with
  | float => exact (readFixed_good cfg 4 h).bind (fun _ ha => ha)
  | double => exact (readFixed_good cfg 8 h).bind (fun _ ha => ha)
  | int128 =>
    refine (readInt_good cfg h).bind (fun a ha => ?_)
    simp only
    split <;> exact ha
  | integer => exact (readInt_good cfg h).bind (fun _ ha => ha)

theorem readValues_good {l0 : List Event} (cfg : Config) (n : Nat) : ∀ {d : Decoder},
    Good l0 d → (readValues cfg n d).Sat (fun r => Good l0 r.2) (Only callEvent l0) := by
  induction n with
  | zero => intro d h; exact h
  | succ n ih =>
    intro d h
    unfold readValues
    exact (readOne_good cfg h).bind (fun _ ha => (ih ha).bind (fun _ hb => hb))

theorem bulkRead_good {l0 : List Event} (cfg : Config) (n : Nat) {d : Decoder}
    (h : Only callEvent l0 d.log) :
    (bulkRead cfg n d).Sat (fun r => Good l0 r.2) (Only callEvent l0) :=
  (skipPending_good cfg h).bind
    (fun _ ha => readValues_good cfg n (emit_good ha (.bulkRead n) trivial))

theorem bulkReadRows_good {l0 : List Event} (cfg : Config) (rows : List Nat) {d : Decoder}
    (h : Only callEvent l0 d.log) :
    (bulkReadRows cfg rows d).Sat (fun r => Good l0 r.2) (Only callEvent l0) :=
  (skipPending_good cfg h).bind (fun _ ha =>
    (readValues_good cfg _ (emit_good ha (.bulkReadRows rows) trivial)).bind
      (fun _ hb => hb))

theorem fixedWidthScan_good {l0 : List Event} (cfg : Config) (dt : DataType)
    (hasFilter filterOnly hasHook sc : Bool)
    (rows : List Nat) (scatterRows : Option (List Nat)) (filter : Value → Bool)
    {d : Decoder} (h : Good l0 d) :
    (fixedWidthScan cfg dt hasFilter filterOnly hasHook sc rows scatterRows filter d).Sat
      (fun r => Good l0 r.2) (Only callEvent l0) :=
  (takeBytes_good (emit_good h (.fixedWidthScan rows) trivial) _).bind
    (fun _ ha => emit_good ha _ trivial)

/-! ### The scalar loop -/

theorem skipTail_only {V : Type} {l0 : List Event} (hasNulls : Bool) (nulls : Nulls)
    (toSkip : Nat) (atEnd : Bool) (s : LoopState V) (h : Only callEvent l0 s.dec.log) :
    match skipTail hasNulls nulls toSkip atEnd s with
    | .next s1 => Only callEvent l0 s1.dec.log
    | .exit s1 => Only callEvent l0 s1.dec.log := by
  unfold skipTail
  by_cases ht : toSkip = 0 <;> cases atEnd <;> simp [ht, h, skipT_only h]

theorem skipTail_log {V : Type} {l0 : List Event} (hasNulls : Bool) (nulls : Nulls)
    (toSkip : Nat) (atEnd : Bool) (s : LoopState V) (h : Only callEvent l0 s.dec.log) :
    Only callEvent l0 (skipTail hasNulls nulls toSkip atEnd s).log := by
  have := skipTail_only hasNulls nulls toSkip atEnd s h
  cases hs : skipTail hasNulls nulls toSkip atEnd s <;> simp_all [Step.log]

theorem processRow_only {V : Type} {l0 : List Event} (cfg : Config) (hasNulls : Bool)
    (nulls : Nulls) (vis : Visitor V) (s : LoopState V) (h : Only callEvent l0 s.dec.log) :
    (processRow cfg hasNulls nulls vis s).Sat (fun r => Only callEvent l0 r.log)
      (Only callEvent l0) := by
  unfold processRow
  refine (decodeValue_good cfg vis.dataType h).bind (fun a ha => ?_)
  exact skipTail_log _ _ _ _ _ (Only.snoc ha.1 _ trivial)

theorem iteration_only {V : Type} {l0 : List Event} (cfg : Config) (hasNulls : Bool)
    (nulls : Nulls) (vis : Visitor V) (allowNulls : Bool) (s : LoopState V)
    (h : Only callEvent l0 s.dec.log) :
    (iteration cfg hasNulls nulls vis allowNulls s).Sat (fun r => Only callEvent l0 r.log)
      (Only callEvent l0) := by
  have h1 : Only callEvent l0 (s.dec.emit (.checkAndSkipNulls s.current)).log :=
    Only.snoc h _ trivial
  unfold iteration
  split
  · split
    · simp only
      split
      · split
        · exact skipT_only h1 _ _ _ _
        · exact h1
      · apply processRow_only
        split
        · exact skipT_only h1 _ _ _ _
        · exact h1
    · split
      · exact skipTail_log _ _ _ _ _ (Only.snoc h _ trivial)
      · exact processRow_only cfg hasNulls nulls vis s h
  · exact processRow_only cfg hasNulls nulls vis s h

theorem scalarLoop_only {V : Type} {l0 : List Event} (cfg : Config) (hasNulls : Bool)
    (nulls : Nulls) (vis : Visitor V) (allowNulls : Bool) (fuel : Nat) :
    ∀ (s : LoopState V), Only callEvent l0 s.dec.log →
    (scalarLoop cfg hasNulls nulls vis allowNulls fuel s).Sat
      (fun r => Only callEvent l0 r.dec.log) (Only callEvent l0) := by
  induction fuel with
  | zero => intro s _; trivial
  | succ fuel ih =>
    intro s h
    unfold scalarLoop
    refine (iteration_only cfg hasNulls nulls vis allowNulls s h).bind (fun r hr => ?_)
    cases r with
    | next s1 => exact ih s1 hr
    | exit s1 => exact hr

/-! ### The fast path -/

theorem Finalized.resolved {l0 l : List Event} (h : Finalized l0 l) :
    Only resolvedEvent l0 l := by
  obtain ⟨pre, e, hpre, rfl, he⟩ := h
  refine Only.snoc (hpre.weaken callEvent_resolved) e ?_
  cases e <;> first | exact he.elim | trivial

theorem finish_final {V : Type} {l0 : List Event} (vis : Visitor V) (numValues numRows : Nat)
    (d : Decoder) (v : V) (h : Only callEvent l0 d.log) :
    (finish vis numValues numRows d v).Sat (fun r => Finalized l0 r.1.log)
      (Only callEvent l0) :=
  ⟨d.log, _, h, rfl, trivial⟩

theorem allNull_final {V : Type} {l0 : List Event} (vis : Visitor V) (numRows : Nat)
    (d : Decoder) (v : V) (h : Only callEvent l0 d.log) :
    (allNull vis numRows d v).Sat (fun r => Finalized l0 r.1.log) (Only callEvent l0) :=
  ⟨d.log, _, h, rfl, trivial⟩

theorem fastPathNulls_final {V : Type} {l0 : List Event} (cfg : Config) (nulls : Nulls)
    (vis : Visitor V) (rows : List Nat) (innerVector : Option (List Nat)) (outerVector : List Nat)
    (numNonNull tailSkip : Nat) (d : Decoder) (v : V) (h : Good l0 d) :
    (fastPathNulls cfg nulls vis rows innerVector outerVector numNonNull tailSkip d v).Sat
      (fun r => Finalized l0 r.1.log) (Only callEvent l0) := by
  unfold fastPathNulls
  simp only
  split
  · have hread : (if vis.dense = true then bulkRead cfg numNonNull d
        else
          match innerVector with
          | some inner => bulkReadRows cfg inner d
          | none => Outcome.thrown Error.nullDeref d.log).Sat
        (fun r => Good l0 r.2) (Only callEvent l0) := by
      split
      · exact bulkRead_good cfg _ h.1
      · cases innerVector with
        | some inner => exact bulkReadRows_good cfg _ h.1
        | none => exact h.1
    exact hread.bind (fun a ha =>
      finish_final _ _ _ _ _ (Only.snoc (skipT_only ha.1 _ _ _ _) _ trivial))
  · exact (fixedWidthScan_good cfg _ _ _ _ _ _ _ _ h).bind
      (fun a ha => finish_final _ _ _ _ _ (skipT_only ha.1 _ _ _ _))

theorem fastPathNoNulls_final {V : Type} {l0 : List Event} (cfg : Config)
    (vis : Visitor V) (d : Decoder) (v : V) (h : Good l0 d) :
    (fastPathNoNulls cfg vis d v).Sat (fun r => Finalized l0 r.1.log) (Only callEvent l0) := by
  unfold fastPathNoNulls
  simp only
  split
  · have hread : (if vis.dense = true then bulkRead cfg (vis.rows v).length d
        else bulkReadRows cfg (vis.rows v) d).Sat
        (fun r => Good l0 r.2) (Only callEvent l0) := by
      split
      · exact bulkRead_good cfg _ h.1
      · exact bulkReadRows_good cfg _ h.1
    exact hread.bind (fun a ha => finish_final _ _ _ _ _ (Only.snoc ha.1 _ trivial))
  · exact (fixedWidthScan_good cfg _ _ _ _ _ _ _ _ h).bind
      (fun a ha => finish_final _ _ _ _ _ ha.1)

theorem fastPath_final {V : Type} {l0 : List Event} (cfg : Config) (hasNulls : Bool)
    (nulls : Nulls) (vis : Visitor V) (d : Decoder) (v : V) (h : Good l0 d) :
    (fastPath cfg hasNulls nulls vis d v).Sat (fun r => Finalized l0 r.1.log)
      (Only callEvent l0) := by
  unfold fastPath
  simp only
  split
  · split
    · split
      · exact allNull_final _ _ _ _ h.1
      · exact fastPathNulls_final cfg nulls vis _ _ _ _ _ d _ h
    · have h1 : Good l0
          (if (nonNullRowsFromSparse vis.hasFilter (!vis.hasFilter && !vis.hasHook) nulls
              (vis.rows v)).anyNulls = true
            then d.emit .setHasNulls else d) := by
        split
        · exact emit_good h _ trivial
        · exact h
      split
      · exact allNull_final _ _ _ _ (skipT_only h1.1 _ _ _ _)
      · exact fastPathNulls_final cfg nulls vis _ _ _ _ _ _ _ h1
  · exact fastPathNoNulls_final cfg vis d v h

theorem scalarPath_only {V : Type} {l0 : List Event} (cfg : Config) (hasNulls : Bool)
    (nulls : Nulls) (vis : Visitor V) (fuel : Nat) (d : Decoder) (v : V)
    (h : Only callEvent l0 d.log) :
    (scalarPath cfg hasNulls nulls vis fuel d v).Sat
      (fun r => Only callEvent l0 r.dec.log) (Only callEvent l0) :=
  scalarLoop_only cfg hasNulls nulls vis _ fuel _ (skipT_only h _ _ _ _)

theorem skipPending_from (cfg : Config) (d : Decoder) :
    (skipPending cfg d).Sat (Good (d.log ++ [.skipLongs d.pendingSkip]))
      (Only callEvent (d.log ++ [.skipLongs d.pendingSkip])) := by
  have h0 : Good (d.log ++ [.skipLongs d.pendingSkip])
      (({ d with pendingSkip := 0 } : Decoder).emit (.skipLongs d.pendingSkip)) :=
    ⟨Only.refl _ _, rfl⟩
  unfold skipPending skipLongs
  simp only
  split
  · exact skipVInts_good cfg _ h0
  · exact (takeBytes_good h0 _).bind (fun _ ha => ha)

theorem readWithVisitor_resolved {V : Type} (cfg : Config) (hasNulls : Bool)
    (nulls : Nulls) (vis : Visitor V) (useFastPath : Bool) (fuel : Nat) (d : Decoder) (v : V) :
    (readWithVisitor cfg hasNulls nulls vis useFastPath fuel d v).Sat
      (fun r => Only resolvedEvent (d.log ++ [.skipLongs d.pendingSkip]) r.1.log)
      (Only callEvent (d.log ++ [.skipLongs d.pendingSkip])) := by
  unfold readWithVisitor
  refine (skipPending_from cfg d).bind (fun d1 hd1 => ?_)
  split
  · exact (fastPath_final cfg hasNulls nulls vis d1 v hd1).mono
      (fun _ ha => ha.resolved) (fun _ hl => hl)
  · exact (scalarPath_only cfg hasNulls nulls vis fuel d1 v hd1.1).bind
      (fun s hs => hs.weaken callEvent_resolved)

/-! ## C6: the pending skip is resolved before any byte is read -/

theorem ResolvedSince.of_only {d : Decoder} {l : List Event}
    (h : Only resolvedEvent (d.log ++ [.skipLongs d.pendingSkip]) l) : ResolvedSince d l := by
  obtain ⟨new, rfl, hn⟩ := h
  exact ⟨new, by simp, fun p n hp => hn _ hp⟩

theorem skipPending_twice (cfg : Config) (d1 : Decoder) (h : d1.pendingSkip = 0) :
    (skipPending cfg d1).erase Decoder.real = .ok d1.real := by
  rw [skipPending_eq, h]
  by_cases hv : cfg.useVInts = true
  · rw [skipLongs_vint cfg _ _ hv]
    simp [skipVInts, Decoder.real, Decoder.emit, h]
  · rw [skipLongs_fixed cfg _ _ hv]
    simp [Decoder.real, h]

/-- C6. `skipPending` sets `pendingSkip_` to 0 and skips exactly the previously
pending number of values (its log is the byte-level skip of that count; in the
fixed-width case the source advanced by that many values), a second
`skipPending` in a row leaves the real state as it is; and `readFixed`,
`readFloat`, `readDouble` and `readWithVisitor` (on either path, for every
visitor) begin with that resolution, so that every byte consumption of the call,
the first one included, happens while `pendingSkip_` is 0, whether the call
returns or throws. -/
theorem pending_skip_resolved_before_reads (cfg : Config) (d : Decoder) :
    (skipPending cfg d).Sat
        (fun d1 => d1.pendingSkip = 0 ∧ ResolvedSince d d1.log
          ∧ (cfg.useVInts = true ∨ d1.input = d.input.drop (d.pendingSkip * cfg.numBytes))
          ∧ (skipPending cfg d1).erase Decoder.real = .ok d1.real)
        (ResolvedSince d)
    ∧ (∀ size, (readFixed cfg size d).Sat (fun r => ResolvedSince d r.2.log ∧ r.2.pendingSkip = 0)
        (ResolvedSince d))
    ∧ (readFloat cfg d).Sat (fun r => ResolvedSince d r.2.log ∧ r.2.pendingSkip = 0)
        (ResolvedSince d)
    ∧ (readDouble cfg d).Sat (fun r => ResolvedSince d r.2.log ∧ r.2.pendingSkip = 0)
        (ResolvedSince d)
    ∧ (∀ (V : Type) (hasNulls : Bool) (nulls : Nulls) (vis : Visitor V) (useFastPath : Bool)
        (fuel : Nat) (v : V),
        (readWithVisitor cfg hasNulls nulls vis useFastPath fuel d v).Sat
          (fun r => ResolvedSince d r.1.log) (ResolvedSince d)) := by
  have hfix : ∀ size, (readFixed cfg size d).Sat
      (fun r => ResolvedSince d r.2.log ∧ r.2.pendingSkip = 0) (ResolvedSince d) := by
    intro size
    have h1 : (readFixed cfg size d).Sat
        (fun r => Good (d.log ++ [.skipLongs d.pendingSkip]) r.2)
        (Only callEvent (d.log ++ [.skipLongs d.pendingSkip])) :=
      (skipPending_from cfg d).bind
        (fun _ ha => takeBytes_good (emit_good ha (.readFixed size) trivial) _)
    exact h1.mono
      (fun _ ha => ⟨ResolvedSince.of_only (ha.1.weaken callEvent_resolved), ha.2⟩)
      (fun _ hl => ResolvedSince.of_only (hl.weaken callEvent_resolved))
  refine ⟨?_, hfix, ?_, ?_, ?_⟩
  · have h1 := skipPending_from cfg d
    cases hs : skipPending cfg d with
    | ok d1 =>
      rw [hs] at h1
      have h2 : Good (d.log ++ [.skipLongs d.pendingSkip]) d1 := h1
      refine ⟨h2.2, ResolvedSince.of_only (h2.1.weaken callEvent_resolved), ?_,
        skipPending_twice cfg d1 h2.2⟩
      by_cases hv1 : cfg.useVInts = true
      · exact Or.inl hv1
      right
      rw [skipPending_eq, skipLongs_fixed cfg _ _ hv1] at hs
      simp only at hs
      split at hs
      · cases hs; rfl
      · cases hs
    | thrown e l =>
      rw [hs] at h1
      have h2 : Only callEvent (d.log ++ [.skipLongs d.pendingSkip]) l := h1
      exact ResolvedSince.of_only (h2.weaken callEvent_resolved)
    | outOfFuel => trivial
  · exact (hfix 4).bind (fun _ ha => ha)
  · exact (hfix 8).bind (fun _ ha => ha)
  · intro V hasNulls nulls vis useFastPath fuel v
    exact (readWithVisitor_resolved cfg hasNulls nulls vis useFastPath fuel d v).mono
      (fun _ ha => ResolvedSince.of_only ha)
      (fun _ hl => ResolvedSince.of_only (hl.weaken callEvent_resolved))

/-! ## The 12-byte legacy timestamp: arithmetic -/

theorem leValue_lt (bs : List Nat) : leValue bs < 256 ^ bs.length := by
  induction bs with
  | nil => simp [leValue]
  | cons b bs ih =>
    simp only [leValue, List.length_cons, pow_succ]
    have : b % 256 < 256 := Nat.mod_lt _ (by norm_num)
    nlinarith

theorem leValue_append (as bs : List Nat) :
    leValue (as ++ bs) = leValue as + 256 ^ as.length * leValue bs := by
  induction as with
  | nil => simp [leValue]
  | cons a as ih =>
    show leValue (a :: (as ++ bs)) = _
    simp only [leValue, ih, List.length_cons, pow_succ]
    ring

theorem int96_roundtrip (days : Int) (nanos : Nat) (hlo : -2 ^ 31 ≤ days)
    (hhi : days < 2 ^ 31) (hn : nanos < 2 ^ 64) :
    int96Days (days % 2 ^ 32 + nanos * 2 ^ 32) = days
    ∧ int96Nanos (days % 2 ^ 32 + nanos * 2 ^ 32) = nanos := by
  unfold int96Days int96Nanos
  constructor
  · simp only
    split <;> omega
  · omega

theorem int96_bytes (cfg : Config) (bs : List Nat) (hlen : bs.length = 12)
    (hle : cfg.bigEndian = false) :
    int96Days (decodeFixed cfg bs) = toInt32 (leValue (bs.take 4))
    ∧ int96Nanos (decodeFixed cfg bs) = leValue (bs.drop 4) := by
  have hsplit : leValue bs = leValue (bs.take 4) + 2 ^ 32 * leValue (bs.drop 4) := by
    conv_lhs => rw [← List.take_append_drop 4 bs]
    rw [leValue_append]
    simp [hlen]
  have hlo : leValue (bs.take 4) < 2 ^ 32 := by
    have := leValue_lt (bs.take 4)
    simpa [hlen] using this
  have hhi : leValue (bs.drop 4) < 2 ^ 64 := by
    have := leValue_lt (bs.drop 4)
    simpa [hlen] using this
  generalize leValue (bs.take 4) = lo at *
  generalize leValue (bs.drop 4) = hi at *
  unfold decodeFixed int96Days int96Nanos toInt32
  simp only [hle, hlen, hsplit]
  norm_num
  split <;> constructor <;> (try split) <;> (try split) <;> omega

/-! ## C3: a surfaced null row -/

/-- C3. With a null bitmap and nulls surfaced, an iteration of the scalar loop
whose current row is null invokes `processNull` exactly once and nothing else
of the visitor, reads no value (the source is untouched, the log gains
`processNull` and at most the skip of the shared tail), and ends in the shared
tail: cursor advanced by one plus the returned skip count, `return` iff
`atEnd`. -/
theorem surfaced_null_row {V : Type} (cfg : Config) (nulls : Nulls) (vis : Visitor V)
    (s : LoopState V) (hnull : isBitNull nulls s.current = true) :
    ∃ r, iteration cfg true nulls vis true s = .ok r
      ∧ r = skipTail true nulls (vis.processNull s.vis).1 (vis.processNull s.vis).2.1
          { s with dec := s.dec.emit .processNull, vis := (vis.processNull s.vis).2.2 }
      ∧ r.state.vis = (vis.processNull s.vis).2.2
      ∧ r.state.dec.input = s.dec.input
      ∧ r.state.dec.log = s.dec.log ++ .processNull ::
          (if (vis.processNull s.vis).1 = 0 then []
           else [.skip (countNonNulls nulls (s.current + 1)
                  (s.current + 1 + (vis.processNull s.vis).1))])
      ∧ r.state.current = s.current + 1 + (vis.processNull s.vis).1
      ∧ r.isExit = (vis.processNull s.vis).2.1 := by
  refine ⟨_, ?_, rfl, ?_⟩
  · simp [iteration, hnull]
  · unfold skipTail
    by_cases ht : (vis.processNull s.vis).1 = 0 <;>
      cases ha : (vis.processNull s.vis).2.1 <;>
      simp [ht, ha, Step.state, Step.isExit, skipT, skip, Decoder.emit]

/-- Witness for C3: the null row 1 of the bitmap 1,0,1,1,0, rows 0, 1, 3 selected. -/
theorem surfaced_null_row_witness :
    isBitNull bitmap5 atNullRow.current = true
    ∧ ∃ r, iteration fixed4 true bitmap5 (ColumnVisitor.visitor (plain false true)) true
          atNullRow = .ok r
        ∧ r.state.dec.input = stream5.input
        ∧ r.state.dec.log = [.processNull, .skip 1]
        ∧ r.state.current = 3 := by
  refine ⟨by decide, ?_⟩
  obtain ⟨r, h1, _, _, h4, h5, h6, _⟩ :=
    surfaced_null_row fixed4 bitmap5 (ColumnVisitor.visitor (plain false true)) atNullRow
      (by decide)
  exact ⟨r, h1, h4, h5, h6⟩

/-! ## The fast path always returns or throws -/

theorem readWithVisitor_fast {V : Type} (cfg : Config) (hasNulls : Bool)
    (nulls : Nulls) (vis : Visitor V) (fuel : Nat) (d : Decoder) (v : V)
    (hdt : vis.dataType ≠ .int128) (helig : vis.useFastPath hasNulls v = true) :
    readWithVisitor cfg hasNulls nulls vis true fuel d v =
      (skipPending cfg d).bind (fun d1 => fastPath cfg hasNulls nulls vis d1 v) := by
  unfold readWithVisitor
  simp [hdt, helig]

/-! ## C9: a failed fast-path call finalizes no count -/

/-- C9. When a `readWithVisitor` call that takes the fast path fails, the
exception is the one raised by the resolution of the pending skip or by the
fast path, handed to the caller unchanged, and since the call began neither
`setNumValues` nor `setAllNull` was invoked; and the fast path always either
returns or throws. -/
theorem fast_path_failure_not_finalized {V : Type} (cfg : Config) (hasNulls : Bool)
    (nulls : Nulls) (vis : Visitor V) (fuel : Nat) (d : Decoder) (v : V)
    (e : Error) (l : List Event)
    (hdt : vis.dataType ≠ .int128) (helig : vis.useFastPath hasNulls v = true)
    (hthrown : readWithVisitor cfg hasNulls nulls vis true fuel d v = .thrown e l) :
    (∃ new, l = d.log ++ new ∧
        ∀ n, Event.setNumValues n ∉ new ∧ Event.setAllNull n ∉ new)
    ∧ (skipPending cfg d = .thrown e l
        ∨ ∃ d1, skipPending cfg d = .ok d1
            ∧ fastPath cfg hasNulls nulls vis d1 v = .thrown e l)
    ∧ (∀ fuel1, readWithVisitor cfg hasNulls nulls vis true fuel1 d v = .thrown e l) := by
  have hfast := readWithVisitor_fast cfg hasNulls nulls vis
  refine ⟨?_, ?_, fun fuel1 => ?_⟩
  · have h := readWithVisitor_resolved cfg hasNulls nulls vis true fuel d v
    rw [hthrown] at h
    have h2 : Only callEvent (d.log ++ [Event.skipLongs d.pendingSkip]) l := h
    obtain ⟨new, rfl, hn⟩ := h2
    refine ⟨.skipLongs d.pendingSkip :: new, by simp, fun n => ⟨?_, ?_⟩⟩
    · intro hmem
      rcases List.mem_cons.1 hmem with h1 | h1
      · cases h1
      · exact hn _ h1
    · intro hmem
      rcases List.mem_cons.1 hmem with h1 | h1
      · cases h1
      · exact hn _ h1
  · rw [hfast fuel d v hdt helig] at hthrown
    cases hs : skipPending cfg d with
    | ok d1 =>
      rw [hs] at hthrown
      exact Or.inr ⟨d1, rfl, hthrown⟩
    | thrown e1 l1 =>
      rw [hs] at hthrown
      exact Or.inl (by simpa using hthrown)
    | outOfFuel =>
      rw [hs] at hthrown
      cases hthrown
  · rw [hfast fuel1 d v hdt helig, ← hfast fuel d v hdt helig]
    exact hthrown

/-- Witness for C9: five dense rows over a stream of two values. -/
theorem fast_path_failure_not_finalized_witness :
    (ColumnVisitor.visitor (plain true false)).dataType ≠ .int128
    ∧ readWithVisitor fixed4 false (fun _ => true) (ColumnVisitor.visitor (plain true false))
        true 0 shortStream (ColumnVisitor.init [0, 1, 2, 3, 4])
        = .thrown .shortRead [.skipLongs 0, .consume 0 0, .fixedWidthScan [0, 1, 2, 3, 4]]
    ∧ ∃ new, [Event.skipLongs 0, .consume 0 0, .fixedWidthScan [0, 1, 2, 3, 4]]
          = shortStream.log ++ new
        ∧ ∀ n, Event.setNumValues n ∉ new ∧ Event.setAllNull n ∉ new :=
  ⟨by decide, by decide,
    (fast_path_failure_not_finalized fixed4 false (fun _ => true)
      (ColumnVisitor.visitor (plain true false)) 0 shortStream
      (ColumnVisitor.init [0, 1, 2, 3, 4]) .shortRead _ (by decide) rfl (by decide)).1⟩

/-! ## The count reported by the fast path -/

theorem processFixedWidthRun_numValues (hasFilter hasHook sc : Bool)
    (rows : List Nat) (scatterRows : Option (List Nat)) (values : List Value)
    (filter : Value → Bool) :
    (processFixedWidthRun hasFilter true hasHook sc rows scatterRows values filter).numValues
      = (processFixedWidthRun hasFilter false hasHook sc rows scatterRows values
          filter).numValues := by
  unfold processFixedWidthRun
  simp only
  split
  · rfl
  · split
    · rfl
    · split <;> rfl

theorem fastPathNoNulls_dec {V : Type} (cfg : Config) (vis : Visitor V) (d : Decoder) (v : V) :
    (fastPathNoNulls cfg { vis with filterOnly := true } d v).dec
      = (fastPathNoNulls cfg { vis with filterOnly := false } d v).dec := by
  unfold fastPathNoNulls Outcome.dec
  simp only
  by_cases hv : cfg.useVInts = true
  · simp only [hv, if_true]
    cases hr : (if vis.dense = true then bulkRead cfg (vis.rows v).length d
        else bulkReadRows cfg (vis.rows v) d) with
    | ok r => simp [finish, processFixedWidthRun_numValues]
    | thrown e l => rfl
    | outOfFuel => rfl
  · simp only [hv, fixedWidthScan]
    cases ht : takeBytes (span (vis.rows v) * cfg.numBytes)
        (d.emit (.fixedWidthScan (vis.rows v))) with
    | ok r => simp [finish, processFixedWidthRun_numValues]
    | thrown e l => rfl
    | outOfFuel => rfl

theorem fastPathNulls_dec {V : Type} (cfg : Config) (nulls : Nulls) (vis : Visitor V)
    (rows : List Nat) (innerVector : Option (List Nat)) (outerVector : List Nat)
    (numNonNull tailSkip : Nat) (d : Decoder) (v : V) :
    (fastPathNulls cfg nulls { vis with filterOnly := true } rows innerVector outerVector
        numNonNull tailSkip d v).dec
      = (fastPathNulls cfg nulls { vis with filterOnly := false } rows innerVector outerVector
        numNonNull tailSkip d v).dec := by
  unfold fastPathNulls Outcome.dec
  simp only
  by_cases hv : cfg.useVInts = true
  · simp only [hv, if_true]
    cases hr : (if vis.dense = true then bulkRead cfg numNonNull d
        else
          match innerVector with
          | some inner => bulkReadRows cfg inner d
          | none => Outcome.thrown Error.nullDeref d.log) with
    | ok r => simp [finish, processFixedWidthRun_numValues]
    | thrown e l => rfl
    | outOfFuel => rfl
  · simp only [hv, fixedWidthScan]
    cases ht : takeBytes (span (innerVector.getD (rows.take
          (if (vis.hasHook && decide (vis.numValuesBias v > 0)) = true then
            outerVector.map (fun row => row + vis.numValuesBias v)
           else outerVector).length)) * cfg.numBytes)
        (d.emit (.fixedWidthScan (innerVector.getD (rows.take
          (if (vis.hasHook && decide (vis.numValuesBias v > 0)) = true then
            outerVector.map (fun row => row + vis.numValuesBias v)
           else outerVector).length)))) with
    | ok r => simp [ht, finish, processFixedWidthRun_numValues]
    | thrown e l => simp [ht]
    | outOfFuel => simp [ht]

/-- C10. Two fast-path runs from the same decoder state, null bitmap and row
selection whose visitors differ only in the extraction policy (`DropValues`
against materializing) make the same calls with the same arguments in the
same order (their logs are equal: `bulkRead`, `bulkReadRows`,
`fixedWidthScan`, `skip`, every byte consumption, the reported count) and
leave the decoder in the same state: same unread bytes, same pending skip;
or fail alike. -/
theorem drop_values_same_stream_operations {V : Type} (cfg : Config) (hasNulls : Bool)
    (nulls : Nulls) (vis : Visitor V) (d : Decoder) (v : V) :
    (fastPath cfg hasNulls nulls { vis with filterOnly := true } d v).dec
      = (fastPath cfg hasNulls nulls { vis with filterOnly := false } d v).dec := by
  unfold fastPath
  simp only
  cases hasNulls with
  | false => exact fastPathNoNulls_dec cfg vis d v
  | true =>
    simp only [if_true]
    split
    · split
      · rfl
      · exact fastPathNulls_dec cfg nulls vis _ _ _ _ _ d v
    · split
      · rfl
      · exact fastPathNulls_dec cfg nulls vis _ _ _ _ _ _ _

/-! ## The logical content of a byte stream -/

theorem processed_append (l1 l2 : List Event) :
    processed (l1 ++ l2) = processed l1 ++ processed l2 := by
  simp [processed, List.filterMap_append]

theorem takeBytes_view (n : Nat) (d : Decoder) (h : n ≤ d.input.length) :
    ∃ d1, takeBytes n d = .ok (d.input.take n, d1)
      ∧ d1.view = (d.input.drop n, d.pendingSkip, processed d.log) := by
  refine ⟨_, by simp [takeBytes, h]; rfl, ?_⟩
  simp [Decoder.view, processed_append, processed]

theorem readOne_view (cfg : Config) (d : Decoder) (x : Int) (rest : List Nat)
    (h : valueOf cfg d.input = some (x, rest)) :
    ∃ d1, readOne cfg d = .ok (x, d1)
      ∧ d1.view = (rest, d.pendingSkip, processed d.log) := by
  unfold valueOf at h
  unfold readOne
  by_cases hv : cfg.useVInts = true
  · simp only [hv, if_true] at h ⊢
    unfold readVInt
    cases hc : cfg.vint d.input with
    | none => simp [hc] at h
    | some p =>
      obtain ⟨y, k⟩ := p
      simp only [hc] at h ⊢
      by_cases hk : k ≤ d.input.length
      · simp only [hk, if_true, Option.some.injEq, Prod.mk.injEq] at h
        obtain ⟨d1, h1, h2⟩ := takeBytes_view k d hk
        refine ⟨d1, by simp [h1, h.1], ?_⟩
        rw [h2, h.2]
      · simp [hk] at h
  · simp only [hv] at h ⊢
    by_cases hk : cfg.numBytes ≤ d.input.length
    · simp only [hk, if_true, Option.some.injEq, Prod.mk.injEq, Bool.false_eq_true,
        if_false] at h
      obtain ⟨d1, h1, h2⟩ := takeBytes_view cfg.numBytes d hk
      refine ⟨d1, by simp [h1, h.1], ?_⟩
      rw [h2, h.2]
    · simp [hk] at h

theorem readValues_view (cfg : Config) (n : Nat) : ∀ (d : Decoder) (xs : List Int)
    (rest : List Nat), valuesOf cfg n d.input = some (xs, rest) →
    ∃ d1, readValues cfg n d = .ok (xs, d1)
      ∧ d1.view = (rest, d.pendingSkip, processed d.log) := by
  induction n with
  | zero =>
    intro d xs rest h
    simp only [valuesOf, Option.some.injEq, Prod.mk.injEq] at h
    exact ⟨d, by simp [readValues, h.1], by simp [Decoder.view, h.2]⟩
  | succ n ih =>
    intro d xs rest h
    unfold valuesOf at h
    cases hv : valueOf cfg d.input with
    | none => simp [hv] at h
    | some p =>
      obtain ⟨x, r1⟩ := p
      simp only [hv] at h
      cases hvs : valuesOf cfg n r1 with
      | none => simp [hvs] at h
      | some q =>
        obtain ⟨ys, r2⟩ := q
        simp only [hvs, Option.some.injEq, Prod.mk.injEq] at h
        obtain ⟨d1, h1, h2⟩ := readOne_view cfg d x r1 hv
        have hd1 : d1.input = r1 := by simpa [Decoder.view] using congrArg Prod.fst h2
        obtain ⟨d2, h3, h4⟩ := ih d1 ys r2 (by rw [hd1]; exact hvs)
        refine ⟨d2, by simp [readValues, h1, h3, h.1], ?_⟩
        simp only [Decoder.view, Prod.mk.injEq] at h2 h4 ⊢
        exact ⟨h4.1.trans h.2, h4.2.1.trans h2.2.1, h4.2.2.trans h2.2.2⟩

theorem skipVInts_view (cfg : Config) (hv : cfg.useVInts = true) (n : Nat) :
    ∀ (d : Decoder) (rest : List Nat), advance cfg n d.input = some rest →
    ∃ d1, skipVInts cfg n d = .ok d1
      ∧ d1.view = (rest, d.pendingSkip, processed d.log) := by
  induction n with
  | zero =>
    intro d rest h
    simp only [advance, Option.some.injEq] at h
    exact ⟨d, rfl, by simp [Decoder.view, h]⟩
  | succ n ih =>
    intro d rest h
    unfold advance at h
    cases hval : valueOf cfg d.input with
    | none => simp [hval] at h
    | some p =>
      obtain ⟨x, r1⟩ := p
      simp only [hval] at h
      obtain ⟨d1, h1, h2⟩ := readOne_view cfg d x r1 hval
      have h1v : readVInt cfg d = .ok (x, d1) := by simpa [readOne, hv] using h1
      have hd1 : d1.input = r1 := by simpa [Decoder.view] using congrArg Prod.fst h2
      obtain ⟨d2, h3, h4⟩ := ih d1 rest (by rw [hd1]; exact h)
      refine ⟨d2, by simp [skipVInts, h1v, h3], ?_⟩
      simp only [Decoder.view, Prod.mk.injEq] at h2 h4 ⊢
      exact ⟨h4.1, h4.2.1.trans h2.2.1, h4.2.2.trans h2.2.2⟩

theorem advance_fixed (cfg : Config) (hv : ¬ cfg.useVInts = true) (n : Nat) :
    ∀ (input rest : List Nat), advance cfg n input = some rest →
      n * cfg.numBytes ≤ input.length ∧ rest = input.drop (n * cfg.numBytes) := by
  induction n with
  | zero => intro input rest h; simp [advance] at h; simp [h]
  | succ n ih =>
    intro input rest h
    unfold advance at h
    unfold valueOf at h
    simp only [hv, Bool.false_eq_true, if_false] at h
    by_cases hk : cfg.numBytes ≤ input.length
    · simp only [hk, if_true] at h
      obtain ⟨h1, h2⟩ := ih _ _ h
      rw [List.length_drop] at h1
      refine ⟨by rw [Nat.add_mul]; omega, ?_⟩
      rw [h2, List.drop_drop, Nat.add_mul, Nat.one_mul, Nat.add_comm]
    · simp [hk] at h

theorem skipLongs_view (cfg : Config) (n : Nat) (d : Decoder) (rest : List Nat)
    (h : advance cfg n d.input = some rest) :
    ∃ d1, skipLongs cfg n d = .ok d1
      ∧ d1.view = (rest, d.pendingSkip, processed d.log) := by
  by_cases hv : cfg.useVInts = true
  · rw [skipLongs_vint cfg n d hv]
    obtain ⟨d1, h1, h2⟩ := skipVInts_view cfg hv n (d.emit (.skipLongs n)) rest h
    exact ⟨d1, h1, by simpa [Decoder.emit, processed_append, processed] using h2⟩
  · rw [skipLongs_fixed cfg n d hv]
    obtain ⟨h1, h2⟩ := advance_fixed cfg hv n _ _ h
    refine ⟨_, by simp only [h1, if_true]; rfl, ?_⟩
    simp [Decoder.view, processed_append, processed, h2]

theorem skipPending_view (cfg : Config) (d : Decoder) (rest : List Nat)
    (h : advance cfg d.pendingSkip d.input = some rest) :
    ∃ d1, skipPending cfg d = .ok d1 ∧ d1.view = (rest, 0, processed d.log) :=
  skipLongs_view cfg d.pendingSkip { d with pendingSkip := 0 } rest h

theorem readInt_view (cfg : Config) (d : Decoder) (mid : List Nat) (x : Int) (rest : List Nat)
    (h : advance cfg d.pendingSkip d.input = some mid)
    (hx : valueOf cfg mid = some (x, rest)) :
    ∃ d1, readInt cfg d = .ok (x, d1) ∧ d1.view = (rest, 0, processed d.log) := by
  obtain ⟨d1, h1, h2⟩ := skipPending_view cfg d mid h
  simp only [Decoder.view, Prod.mk.injEq] at h2
  obtain ⟨d2, h3, h4⟩ := readOne_view cfg (d1.emit .readInt) x rest
    (by simpa [Decoder.emit, h2.1] using hx)
  refine ⟨d2, by simp [readInt, h1, h3], ?_⟩
  rw [h4]
  have h5 := h2.2.2
  simp only [Decoder.emit, h2.2.1, processed_append, h5]
  simp [processed]

theorem advance_add (cfg : Config) (a b : Nat) : ∀ input : List Nat,
    advance cfg (a + b) input = (advance cfg a input).bind (advance cfg b) := by
  induction a with
  | zero => intro input; simp [advance]
  | succ a ih =>
    intro input
    rw [show a + 1 + b = (a + b) + 1 by omega]
    simp only [advance]
    cases valueOf cfg input with
    | none => rfl
    | some p => exact ih p.2

theorem valuesOf_advance (cfg : Config) (n : Nat) : ∀ (input : List Nat) (xs : List Int)
    (rest : List Nat), valuesOf cfg n input = some (xs, rest) →
    advance cfg n input = some rest ∧ xs.length = n := by
  induction n with
  | zero => intro input xs rest h; simp [valuesOf] at h; simp [advance, h]
  | succ n ih =>
    intro input xs rest h
    unfold valuesOf at h
    unfold advance
    cases hv : valueOf cfg input with
    | none => simp [hv] at h
    | some p =>
      obtain ⟨x, r1⟩ := p
      simp only [hv] at h ⊢
      cases hvs : valuesOf cfg n r1 with
      | none => simp [hvs] at h
      | some q =>
        obtain ⟨ys, r2⟩ := q
        simp only [hvs, Option.some.injEq, Prod.mk.injEq] at h
        obtain ⟨h1, h2⟩ := ih r1 ys r2 hvs
        exact ⟨by rw [h1, h.2], by rw [← h.1]; simp [h2]⟩

/-- In a stream holding `n` values `xs`, the value after the first `k < n` is
`xs[k]`. -/
theorem valuesOf_get (cfg : Config) (n : Nat) : ∀ (input : List Nat) (xs : List Int)
    (rest : List Nat), valuesOf cfg n input = some (xs, rest) → ∀ k, k < n →
    ∃ mid rest1, advance cfg k input = some mid
      ∧ valueOf cfg mid = some (xs.getD k 0, rest1)
      ∧ advance cfg (k + 1) input = some rest1 := by
  induction n with
  | zero => intro input xs rest _ k hk; omega
  | succ n ih =>
    intro input xs rest h k hk
    unfold valuesOf at h
    cases hv : valueOf cfg input with
    | none => simp [hv] at h
    | some p =>
      obtain ⟨x, r1⟩ := p
      simp only [hv] at h
      cases hvs : valuesOf cfg n r1 with
      | none => simp [hvs] at h
      | some q =>
        obtain ⟨ys, r2⟩ := q
        simp only [hvs, Option.some.injEq, Prod.mk.injEq] at h
        cases k with
        | zero =>
          refine ⟨input, r1, rfl, ?_, ?_⟩
          · rw [hv, ← h.1]; rfl
          · simp [advance, hv]
        | succ k =>
          obtain ⟨mid, rest1, h1, h2, h3⟩ := ih r1 ys r2 hvs k (by omega)
          refine ⟨mid, rest1, ?_, ?_, ?_⟩
          · simp [advance, hv, h1]
          · rw [h2, ← h.1]; rfl
          · rw [show k + 1 + 1 = (k + 1) + 1 by rfl]
            simp only [advance, hv]
            exact h3

/-! ## The reference visitor on a dense batch -/

theorem keep_rows (c : VisitorConfig) (row : Nat) (x : Option Value) (v : ColumnVisitor) :
    (ColumnVisitor.keep c row x v).rows = v.rows
    ∧ (ColumnVisitor.keep c row x v).rowIndex = v.rowIndex := by
  unfold ColumnVisitor.keep
  split
  · cases x <;> exact ⟨rfl, rfl⟩
  · exact ⟨rfl, rfl⟩

theorem process_dense (c : VisitorConfig) (x : Value) (v : ColumnVisitor) (n : Nat)
    (hrows : v.rows = List.range n) (hk : v.rowIndex < n) :
    (ColumnVisitor.process c x v).1 = 0
    ∧ (ColumnVisitor.process c x v).2.1 = decide (n ≤ v.rowIndex + 1)
    ∧ (ColumnVisitor.process c x v).2.2.rows = List.range n
    ∧ (ColumnVisitor.process c x v).2.2.rowIndex = v.rowIndex + 1 := by
  have hcur : v.currentRow = v.rowIndex := by
    simp [ColumnVisitor.currentRow, hrows, List.getD_eq_getElem?_getD, List.getElem?_range hk]
  unfold ColumnVisitor.process
  simp only
  generalize hv1 : (if (!c.hasFilter || c.testValue x) = true then
      ColumnVisitor.keep c v.currentRow (some x) v else v) = v1
  have h1 : v1.rows = List.range n ∧ v1.rowIndex = v.rowIndex := by
    rw [← hv1]
    split
    · rw [(keep_rows _ _ _ _).1, (keep_rows _ _ _ _).2]; exact ⟨hrows, rfl⟩
    · exact ⟨hrows, rfl⟩
  unfold ColumnVisitor.advance
  simp only [h1.1, h1.2, List.length_range, ge_iff_le]
  by_cases hend : n ≤ v.rowIndex + 1
  · simp [hend, h1.1]
  · have hlt : v.rowIndex + 1 < n := by omega
    have hcur2 : v.rows[v.rowIndex]?.getD 0 = v.rowIndex := by
      simp [hrows, List.getElem?_range hk]
    simp [hend, h1.1, ColumnVisitor.currentRow, List.getD_eq_getElem?_getD,
      List.getElem?_range hlt, hcur2]

theorem valuesOf_succ (cfg : Config) (m : Nat) (input : List Nat) (ys : List Int)
    (rest : List Nat) (h : valuesOf cfg (m + 1) input = some (ys, rest)) :
    ∃ y ys1 r1, ys = y :: ys1 ∧ valueOf cfg input = some (y, r1)
      ∧ valuesOf cfg m r1 = some (ys1, rest) := by
  unfold valuesOf at h
  cases hv : valueOf cfg input with
  | none => simp [hv] at h
  | some p =>
    obtain ⟨x, r1⟩ := p
    simp only [hv] at h
    cases hvs : valuesOf cfg m r1 with
    | none => simp [hvs] at h
    | some q =>
      obtain ⟨zs, r2⟩ := q
      simp only [hvs, Option.some.injEq, Prod.mk.injEq] at h
      exact ⟨x, zs, r1, h.1.symm, rfl, by rw [hvs, h.2]⟩

theorem processed_emit_process (d : Decoder) (v : Value) :
    processed (d.emit (.process v)).log = processed d.log ++ [v] := by
  simp [Decoder.emit, processed]

theorem processed_emit_other (d : Decoder) (e : Event) (h : ∀ v, e ≠ .process v) :
    processed (d.emit e).log = processed d.log := by
  cases e with
  | process v => exact absurd rfl (h v)
  | _ => simp [Decoder.emit, processed]

theorem processed_skipT (hasNulls : Bool) (n c : Nat) (nulls : Nulls) (d : Decoder) :
    processed (skipT hasNulls n c nulls d).log = processed d.log := by
  simp [skipT, skip, processed]

/-- One row of the scalar loop without a null bitmap, on a decoder whose pending
skip is resolved and whose next value is `y`. -/
theorem processRow_view (cfg : Config) (c : VisitorConfig) (hdt : c.dataType = .integer)
    (hasNulls : Bool) (nulls : Nulls) (s : LoopState ColumnVisitor) (mid : List Nat)
    (y : Int) (r1 : List Nat)
    (hadv : advance cfg s.dec.pendingSkip s.dec.input = some mid)
    (hy : valueOf cfg mid = some (y, r1)) :
    ∃ d1, d1.view = (r1, 0, processed s.dec.log ++ [.int (toInt64 y)])
      ∧ processRow cfg hasNulls nulls (ColumnVisitor.visitor c) s =
        .ok (skipTail hasNulls nulls (ColumnVisitor.process c (.int (toInt64 y)) s.vis).1
          (ColumnVisitor.process c (.int (toInt64 y)) s.vis).2.1
          { s with dec := d1, vis := (ColumnVisitor.process c (.int (toInt64 y)) s.vis).2.2 }) := by
  obtain ⟨d1, h1, h2⟩ := readInt_view cfg s.dec mid y r1 hadv hy
  refine ⟨d1.emit (.process (.int (toInt64 y))), ?_, ?_⟩
  · simp only [Decoder.view, Prod.mk.injEq] at h2 ⊢
    exact ⟨h2.1, h2.2.1, by rw [processed_emit_process, h2.2.2]⟩
  · simp [processRow, decodeValue, ColumnVisitor.visitor, hdt, h1]

theorem dense_loop (cfg : Config) (c : VisitorConfig) (hdt : c.dataType = .integer)
    (nulls : Nulls) (allowNulls : Bool) (n : Nat) :
    ∀ (m : Nat) (s : LoopState ColumnVisitor) (ys : List Int) (rest : List Nat),
      0 < m → s.vis.rowIndex + m = n → s.vis.rows = List.range n → s.dec.pendingSkip = 0 →
      valuesOf cfg m s.dec.input = some (ys, rest) → ∀ fuel, m ≤ fuel →
      ∃ s1, scalarLoop cfg false nulls (ColumnVisitor.visitor c) allowNulls fuel s = .ok s1
        ∧ s1.dec.view = (rest, 0, processed s.dec.log ++ ys.map (fun y => .int (toInt64 y)))
        ∧ s1.vis = ys.foldl (fun v y => (ColumnVisitor.process c (.int (toInt64 y)) v).2.2) s.vis := by
  intro m
  induction m with
  | zero => intro s ys rest hm; omega
  | succ m ih =>
    intro s ys rest _ hidx hrows hp hvals fuel hfuel
    obtain ⟨y, ys1, r1, rfl, hy, hrest⟩ := valuesOf_succ cfg m _ _ _ hvals
    obtain ⟨d1, hd1, hrow⟩ := processRow_view cfg c hdt false nulls s s.dec.input y r1
      (by rw [hp]; rfl) hy
    obtain ⟨hskip, hend, hrows1, hidx1⟩ :=
      process_dense c (.int (toInt64 y)) s.vis n hrows (by omega)
    obtain ⟨fuel1, rfl⟩ : ∃ f, fuel = f + 1 := ⟨fuel - 1, by omega⟩
    simp only [Decoder.view, Prod.mk.injEq] at hd1
    have hiter : iteration cfg false nulls (ColumnVisitor.visitor c) allowNulls s =
        .ok (skipTail false nulls 0 (decide (n ≤ s.vis.rowIndex + 1))
          { s with dec := d1, vis := (ColumnVisitor.process c (.int (toInt64 y)) s.vis).2.2 }) := by
      simp only [iteration, Bool.false_eq_true, if_false, hrow, hskip, hend]
    unfold scalarLoop
    rw [hiter]
    cases m with
    | zero =>
      have hn : n ≤ s.vis.rowIndex + 1 := by omega
      simp only [valuesOf, Option.some.injEq, Prod.mk.injEq] at hrest
      refine ⟨_, by simp [skipTail, hn]; rfl, ?_, ?_⟩
      · simp [Decoder.view, hd1.1, hd1.2.1, hd1.2.2, ← hrest.1, ← hrest.2]
      · simp [← hrest.1]
    | succ m =>
      have hn : ¬ n ≤ s.vis.rowIndex + 1 := by omega
      obtain ⟨s2, h1, h2, h3⟩ := ih
        { current := s.current + 1, dec := d1,
          vis := (ColumnVisitor.process c (.int (toInt64 y)) s.vis).2.2 } ys1 rest (by omega)
        (by simp only [hidx1]; omega) hrows1 hd1.2.1 (by simp only [hd1.1]; exact hrest)
        fuel1 (by omega)
      refine ⟨s2, ?_, ?_, ?_⟩
      · simp only [skipTail, hn, decide_False, Outcome.bind_ok]
        simpa using h1
      · rw [h2]; simp [hd1.2.2]
      · rw [h3]; rfl

theorem advance_state (v : ColumnVisitor) (previous : Nat) :
    (ColumnVisitor.advance v previous).2.2 = { v with rowIndex := v.rowIndex + 1 } := by
  unfold ColumnVisitor.advance
  split <;> rfl

theorem fold_process_plain (c : VisitorConfig) (hf : c.hasFilter = false)
    (hh : c.hasHook = false) (hfo : c.filterOnly = false) (ys : List Int) :
    ∀ v : ColumnVisitor,
      (ys.foldl (fun v y => (ColumnVisitor.process c (.int (toInt64 y)) v).2.2) v).values
          = v.values ++ ys.map (fun y => some (.int (toInt64 y)))
      ∧ (ys.foldl (fun v y => (ColumnVisitor.process c (.int (toInt64 y)) v).2.2) v).numValues
          = v.numValues + ys.length := by
  induction ys with
  | nil => intro v; simp
  | cons y ys ih =>
    intro v
    simp only [List.foldl_cons]
    obtain ⟨h1, h2⟩ := ih (ColumnVisitor.process c (.int (toInt64 y)) v).2.2
    have hv : (ColumnVisitor.process c (.int (toInt64 y)) v).2.2.values = v.values ++ [some (.int (toInt64 y))]
        ∧ (ColumnVisitor.process c (.int (toInt64 y)) v).2.2.numValues = v.numValues + 1 := by
      simp only [ColumnVisitor.process, advance_state, ColumnVisitor.keep, hf, hh, hfo]
      simp
    rw [h1, h2, hv.1, hv.2]
    simp only [List.map_cons, List.length_cons, List.append_assoc, List.singleton_append,
      true_and]
    omega

theorem span_range (n : Nat) (hn : 0 < n) : span (List.range n) = n := by
  obtain ⟨m, rfl⟩ : ∃ m, n = m + 1 := ⟨n - 1, by omega⟩
  simp [span, List.range_succ]

theorem pick_range (run : List Int) : pick run (List.range run.length) = run := by
  apply List.ext_getElem
  · simp [pick]
  · intro i h1 h2
    simp only [pick, List.length_map, List.length_range] at h1
    simp [pick, List.getD_eq_getElem?_getD, List.getElem?_eq_getElem h1]

theorem valuesOf_fixed (cfg : Config) (hv : ¬ cfg.useVInts = true) (n : Nat) :
    ∀ (input : List Nat) (xs : List Int) (rest : List Nat),
      valuesOf cfg n input = some (xs, rest) →
      n * cfg.numBytes ≤ input.length
      ∧ xs = (List.range n).map
          (fun i => decodeFixed cfg ((input.drop (i * cfg.numBytes)).take cfg.numBytes))
      ∧ rest = input.drop (n * cfg.numBytes) := by
  induction n with
  | zero => intro input xs rest h; simp [valuesOf] at h; simp [h]
  | succ n ih =>
    intro input xs rest h
    obtain ⟨y, ys, r1, rfl, hy, hrest⟩ := valuesOf_succ cfg n _ _ _ h
    unfold valueOf at hy
    simp only [hv, Bool.false_eq_true, if_false] at hy
    by_cases hk : cfg.numBytes ≤ input.length
    · simp only [hk, if_true, Option.some.injEq, Prod.mk.injEq] at hy
      obtain ⟨h1, h2, h3⟩ := ih r1 ys rest hrest
      rw [← hy.2, List.length_drop] at h1
      refine ⟨by rw [Nat.add_mul]; omega, ?_, ?_⟩
      · rw [List.range_succ_eq_map, List.map_cons, List.map_map, h2, ← hy.1, ← hy.2]
        simp only [Nat.zero_mul, List.drop_zero, List.cons.injEq, true_and]
        apply List.map_congr_left
        intro i _
        simp only [Function.comp, List.drop_drop]
        rw [show cfg.numBytes + i * cfg.numBytes = (i + 1) * cfg.numBytes by
          rw [Nat.add_mul]; omega]
      · rw [h3, ← hy.2, List.drop_drop, Nat.add_mul, Nat.one_mul, Nat.add_comm]
    · simp [hk] at hy

theorem bulkRead_view (cfg : Config) (n : Nat) (d : Decoder) (xs : List Int) (rest : List Nat)
    (hp : d.pendingSkip = 0) (h : valuesOf cfg n d.input = some (xs, rest)) :
    ∃ d1, bulkRead cfg n d = .ok (xs, d1) ∧ d1.view = (rest, 0, processed d.log) := by
  obtain ⟨d1, h1, h2⟩ := skipPending_view cfg d d.input (by rw [hp]; rfl)
  simp only [Decoder.view, Prod.mk.injEq] at h2
  obtain ⟨d2, h3, h4⟩ := readValues_view cfg n (d1.emit (.bulkRead n)) xs rest
    (by simpa [Decoder.emit, h2.1] using h)
  refine ⟨d2, by simp [bulkRead, h1, h3], ?_⟩
  rw [h4]
  have h5 := h2.2.2
  simp only [Decoder.emit, h2.2.1, processed_append, h5]
  simp [processed]

theorem bulkReadRows_view (cfg : Config) (n : Nat) (hn : 0 < n) (d : Decoder) (xs : List Int)
    (rest : List Nat) (hp : d.pendingSkip = 0)
    (h : valuesOf cfg n d.input = some (xs, rest)) :
    ∃ d1, bulkReadRows cfg (List.range n) d = .ok (xs, d1)
      ∧ d1.view = (rest, 0, processed d.log) := by
  obtain ⟨d1, h1, h2⟩ := skipPending_view cfg d d.input (by rw [hp]; rfl)
  simp only [Decoder.view, Prod.mk.injEq] at h2
  obtain ⟨d2, h3, h4⟩ := readValues_view cfg n (d1.emit (.bulkReadRows (List.range n))) xs rest
    (by simpa [Decoder.emit, h2.1] using h)
  have hlen := (valuesOf_advance cfg n _ _ _ h).2
  have hpick : pick xs (List.range n) = xs := by
    rw [← hlen]; exact pick_range xs
  refine ⟨d2, by simp [bulkReadRows, h1, span_range n hn, h3, hpick], ?_⟩
  rw [h4]
  have h5 := h2.2.2
  simp only [Decoder.emit, h2.2.1, processed_append, h5]
  simp [processed]

theorem fixedWidthScan_view (cfg : Config) (hv : ¬ cfg.useVInts = true)
    (hasFilter filterOnly hasHook sc : Bool) (scatterRows : Option (List Nat))
    (filter : Value → Bool) (n : Nat) (hn : 0 < n) (d : Decoder) (xs : List Int)
    (rest : List Nat) (h : valuesOf cfg n d.input = some (xs, rest)) :
    ∃ d1, fixedWidthScan cfg .integer hasFilter filterOnly hasHook sc (List.range n)
          scatterRows filter d
        = .ok (processFixedWidthRun hasFilter filterOnly hasHook sc (List.range n) scatterRows
            (xs.map (fun x => .int (toInt64 x))) filter, d1)
      ∧ d1.view = (rest, d.pendingSkip, processed d.log) := by
  obtain ⟨h1, h2, h3⟩ := valuesOf_fixed cfg hv n _ _ _ h
  obtain ⟨d1, h4, h5⟩ := takeBytes_view (n * cfg.numBytes)
    (d.emit (.fixedWidthScan (List.range n))) (by simpa [Decoder.emit] using h1)
  have hrun : (List.range n).map (fun i => fixedValue cfg .integer
        ((((d.emit (.fixedWidthScan (List.range n))).input.take (n * cfg.numBytes)).drop
          (i * cfg.numBytes)).take cfg.numBytes)) = xs.map (fun x => .int (toInt64 x)) := by
    rw [h2, List.map_map]
    apply List.map_congr_left
    intro i hi
    have hi2 : i < n := by simpa using hi
    have hle : (i + 1) * cfg.numBytes ≤ n * cfg.numBytes := Nat.mul_le_mul_right _ hi2
    simp only [fixedValue, Function.comp, Decoder.emit]
    congr 3
    rw [List.drop_take, List.take_take]
    congr 1
    rw [Nat.add_mul] at hle
    omega
  refine ⟨d1.emit (.runKernel (processFixedWidthRun hasFilter filterOnly hasHook sc
    (List.range n) scatterRows (xs.map (fun x => .int (toInt64 x))) filter).numValues), ?_, ?_⟩
  · simp only [fixedWidthScan, span_range n hn, h4, Outcome.bind_ok, hrun]
  · simp only [Decoder.view, Prod.mk.injEq] at h5 ⊢
    refine ⟨by simpa [Decoder.emit, h3] using h5.1, by simpa [Decoder.emit] using h5.2.1, ?_⟩
    have h6 := h5.2.2
    simp only [Decoder.emit, processed_append] at h6 ⊢
    rw [h6]
    simp [processed]

/-! ## Stream values as `int64_t` -/

theorem toInt64_of_fits (x : Int) (hlo : -2 ^ 63 ≤ x) (hhi : x < 2 ^ 63) : toInt64 x = x := by
  unfold toInt64
  simp only
  split <;> omega

theorem toInt64_mod (x : Int) : toInt64 x % 2 ^ 64 = x % 2 ^ 64 := by
  unfold toInt64
  simp only
  split <;> omega

theorem toInt64_range (x : Int) : -2 ^ 63 ≤ toInt64 x ∧ toInt64 x < 2 ^ 63 := by
  unfold toInt64
  simp only
  split <;> omega

theorem map_toInt64_of_fits (xs : List Int) (h : ∀ x ∈ xs, -2 ^ 63 ≤ x ∧ x < 2 ^ 63) :
    xs.map (fun x => Value.int (toInt64 x)) = xs.map .int := by
  apply List.map_congr_left
  intro x hx
  rw [toInt64_of_fits x (h x hx).1 (h x hx).2]

theorem toInt64_getD_of_fits (xs : List Int) (h : ∀ x ∈ xs, -2 ^ 63 ≤ x ∧ x < 2 ^ 63)
    (k : Nat) : toInt64 (xs.getD k 0) = xs.getD k 0 := by
  by_cases hk : k < xs.length
  · have hm : xs.getD k 0 ∈ xs := by
      rw [List.getD_eq_getElem _ _ hk]
      exact List.getElem_mem hk
    exact toInt64_of_fits _ (h _ hm).1 (h _ hm).2
  · rw [List.getD_eq_default _ _ (by omega)]
    exact toInt64_of_fits 0 (by norm_num) (by norm_num)

/-! ## C4: a dense read without nulls and filter hands over the stream -/

theorem processFixedWidthRun_plain (rows : List Nat) (scatterRows : Option (List Nat))
    (values : List Value) (filter : Value → Bool) :
    processFixedWidthRun false false false false rows scatterRows values filter
      = { values := values.map some, filterHits := [], hooked := [],
          numValues := values.length } := by
  simp [processFixedWidthRun]

/-- C4. Let the stream, once the pending skip is resolved, hold the `n > 0`
integer values `xs` (fixed-width or variable-length), and let the reference
visitor read the dense batch `[0, n)` with no null bitmap, no filter, no hook,
materializing. On the scalar path `readWithVisitor` returns (given fuel for
`n` iterations) having called `process` on exactly the values `xs`, each once,
in stream order, each as the `int64_t` that `readInt<int64_t>` returns; the
visitor holds these values and the count `n`; the stream is consumed up to the
end of these values. On the fast path, when eligible, the visitor holds the
same values and count and the stream is in the same state. A value is handed
over unchanged when it fits 64 signed bits (every value of fewer than 8
bytes, and every signed value of 8); otherwise as the two-complement reading
of its low 64 bits. -/
theorem dense_read_hands_stream_values (cfg : Config) (c : VisitorConfig) (nulls : Nulls)
    (d : Decoder) (n : Nat) (start : List Nat) (xs : List Int) (rest : List Nat) (fuel : Nat)
    (hn : 0 < n) (hfuel : n ≤ fuel)
    (hdt : c.dataType = .integer) (hf : c.hasFilter = false) (hh : c.hasHook = false)
    (hfo : c.filterOnly = false)
    (hpend : advance cfg d.pendingSkip d.input = some start)
    (hstream : valuesOf cfg n start = some (xs, rest)) :
    (∃ d1 v1, readWithVisitor cfg false nulls (ColumnVisitor.visitor c) false fuel d
          (ColumnVisitor.init (List.range n)) = .ok (d1, v1)
        ∧ processed d1.log = processed d.log ++ xs.map (fun x => .int (toInt64 x))
        ∧ v1.values = xs.map (fun x => some (.int (toInt64 x))) ∧ v1.numValues = n
        ∧ d1.input = rest ∧ d1.pendingSkip = 0)
    ∧ (c.eligible = true →
        ∃ d1 v1, readWithVisitor cfg false nulls (ColumnVisitor.visitor c) true fuel d
          (ColumnVisitor.init (List.range n)) = .ok (d1, v1)
        ∧ processed d1.log = processed d.log
        ∧ v1.values = xs.map (fun x => some (.int (toInt64 x))) ∧ v1.numValues = n
        ∧ d1.input = rest ∧ d1.pendingSkip = 0)
    ∧ ((∀ x ∈ xs, -2 ^ 63 ≤ x ∧ x < 2 ^ 63) →
        xs.map (fun x => Value.int (toInt64 x)) = xs.map .int)
    ∧ (∀ x ∈ xs, toInt64 x % 2 ^ 64 = x % 2 ^ 64
        ∧ -2 ^ 63 ≤ toInt64 x ∧ toInt64 x < 2 ^ 63) := by
  obtain ⟨d0, hd0, hv0⟩ := skipPending_view cfg d start hpend
  simp only [Decoder.view, Prod.mk.injEq] at hv0
  have hlen := (valuesOf_advance cfg n _ _ _ hstream).2
  refine ⟨?_, ?_, map_toInt64_of_fits xs,
    fun x _ => ⟨toInt64_mod x, toInt64_range x⟩⟩
  · have hstart : (ColumnVisitor.visitor c).start (ColumnVisitor.init (List.range n)) = 0 := by
      obtain ⟨m, rfl⟩ : ∃ m, n = m + 1 := ⟨n - 1, by omega⟩
      simp [ColumnVisitor.visitor, ColumnVisitor.init, List.range_succ_eq_map]
    obtain ⟨s1, h1, h2, h3⟩ := dense_loop cfg c hdt nulls false n n
      { current := 0, dec := skipT false 0 0 nulls d0, vis := ColumnVisitor.init (List.range n) }
      xs rest hn (by simp [ColumnVisitor.init]) rfl
      (by simp [skipT, skip, hv0.2.1]) (by simpa [skipT, skip, hv0.1] using hstream) fuel hfuel
    obtain ⟨h4, h5⟩ := fold_process_plain c hf hh hfo xs (ColumnVisitor.init (List.range n))
    simp only [Decoder.view, Prod.mk.injEq] at h2
    refine ⟨s1.dec, s1.vis, ?_, ?_, ?_, ?_, h2.1, h2.2.1⟩
    · simp only [readWithVisitor, hd0, Outcome.bind_ok, scalarPath, hstart]
      simp [h1]
    · rw [h2.2.2, processed_skipT, hv0.2.2]
    · rw [h3, h4]; simp [ColumnVisitor.init]
    · rw [h3, h5, hlen]; simp [ColumnVisitor.init]
  · intro helig
    have hfast : readWithVisitor cfg false nulls (ColumnVisitor.visitor c) true fuel d
          (ColumnVisitor.init (List.range n))
        = fastPathNoNulls cfg (ColumnVisitor.visitor c) d0 (ColumnVisitor.init (List.range n)) := by
      rw [readWithVisitor_fast cfg false nulls _ fuel d _
        (by simp [ColumnVisitor.visitor, hdt]) (by simp [ColumnVisitor.visitor, helig])]
      simp [hd0, fastPath]
    rw [hfast]
    unfold fastPathNoNulls
    simp only [ColumnVisitor.visitor, ColumnVisitor.init, hf, hh, hfo, hdt, List.length_range]
    have hmap : List.map (asValue DataType.integer) xs = xs.map (fun x => .int (toInt64 x)) := by
      apply List.map_congr_left; intro a _; rfl
    by_cases hv : cfg.useVInts = true
    · simp only [hv, if_true]
      have hread : ∃ d1, (if c.dense = true then bulkRead cfg n d0
            else bulkReadRows cfg (List.range n) d0) = .ok (xs, d1)
          ∧ d1.view = (rest, 0, processed d0.log) := by
        split
        · exact bulkRead_view cfg n d0 xs rest hv0.2.1 (by rw [hv0.1]; exact hstream)
        · exact bulkReadRows_view cfg n hn d0 xs rest hv0.2.1 (by rw [hv0.1]; exact hstream)
      obtain ⟨d1, h1, h2⟩ := hread
      simp only [Decoder.view, Prod.mk.injEq] at h2
      rw [h1]
      simp only [Outcome.bind_ok, finish, Bool.false_eq_true, if_false,
        processFixedWidthRun_plain, hmap]
      refine ⟨_, _, rfl, ?_, ?_, rfl, ?_, ?_⟩
      · rw [processed_emit_other _ _ (by intro v h; cases h),
          processed_emit_other _ _ (by intro v h; cases h), h2.2.2, hv0.2.2]
      · simp
      · simp [Decoder.emit, h2.1]
      · simp [Decoder.emit, h2.2.1]
    · simp only [hv, Bool.false_eq_true, if_false]
      obtain ⟨d1, h1, h2⟩ := fixedWidthScan_view cfg hv false false false false none
        c.testValue n hn d0 xs rest (by rw [hv0.1]; exact hstream)
      simp only [Decoder.view, Prod.mk.injEq] at h2
      rw [h1]
      simp only [Outcome.bind_ok, finish, Bool.false_eq_true, if_false,
        processFixedWidthRun_plain, hmap]
      refine ⟨_, _, rfl, ?_, ?_, rfl, ?_, ?_⟩
      · rw [processed_emit_other _ _ (by intro v h; cases h), h2.2.2, hv0.2.2]
      · simp
      · simp [Decoder.emit, h2.1]
      · simp [Decoder.emit, h2.2.1, hv0.2.1]

/-- Witness for C4: the 4-byte little-endian unsigned stream 10, 20, 30, 40, 50
is handed over as 10, 20, 30, 40, 50. -/
theorem dense_read_hands_stream_values_witness :
    valuesOf fixed4 5 stream5.input = some ([10, 20, 30, 40, 50], [])
    ∧ (∃ d1 v1, readWithVisitor fixed4 false (fun _ => true)
          (ColumnVisitor.visitor (plain true false)) false 5 stream5
          (ColumnVisitor.init (List.range 5)) = .ok (d1, v1)
        ∧ processed d1.log = [.int 10, .int 20, .int 30, .int 40, .int 50]
        ∧ v1.values = [some (.int 10), some (.int 20), some (.int 30), some (.int 40),
            some (.int 50)]
        ∧ v1.numValues = 5 ∧ d1.input = [] ∧ d1.pendingSkip = 0) := by
  refine ⟨by decide, ?_⟩
  obtain ⟨d1, v1, h1, h2, h3, h4, h5, h6⟩ :=
    (dense_read_hands_stream_values fixed4 (plain true false) (fun _ => true) stream5 5
      stream5.input [10, 20, 30, 40, 50] [] 5 (by decide) (by decide) rfl rfl rfl rfl rfl
      (by decide)).1
  refine ⟨d1, v1, h1, ?_, ?_, h4, h5, h6⟩
  · rw [h2]; decide
  · rw [h3]; decide

/-! ## Counting value-bearing rows -/

theorem countNonNulls_split (nulls : Nulls) (a b e : Nat) (hab : a ≤ b) (hbe : b ≤ e) :
    countNonNulls nulls a b + countNonNulls nulls b e = countNonNulls nulls a e := by
  unfold countNonNulls
  have h : List.range' a (e - a) = List.range' a (b - a) ++ List.range' b (e - b) := by
    have := List.range'_append a (b - a) (e - b) 1
    simp only [Nat.one_mul] at this
    rw [show a + (b - a) = b by omega] at this
    rw [this]
    congr 1
    omega
  rw [h, List.filter_append, List.length_append]

theorem countNonNulls_self (nulls : Nulls) (a : Nat) : countNonNulls nulls a a = 0 := by
  simp [countNonNulls]

theorem countNonNulls_one (nulls : Nulls) (a : Nat) :
    countNonNulls nulls a (a + 1) = if nulls a then 1 else 0 := by
  simp [countNonNulls]
  split <;> simp [*]

theorem countNonNulls_zero (nulls : Nulls) (a b : Nat)
    (h : ∀ i, a ≤ i → i < b → nulls i = false) : countNonNulls nulls a b = 0 := by
  unfold countNonNulls
  rw [List.length_eq_zero, List.filter_eq_nil_iff]
  intro i hi
  rw [List.mem_range'_1] at hi
  simp [h i hi.1 (by omega)]

theorem countNonNulls_succ_live (nulls : Nulls) (a : Nat) (ha : nulls a = true) :
    countNonNulls nulls 0 (a + 1) = countNonNulls nulls 0 a + 1 := by
  rw [← countNonNulls_split nulls 0 a (a + 1) (by omega) (by omega), countNonNulls_one, ha]
  simp

theorem countNonNulls_succ_null (nulls : Nulls) (a : Nat) (ha : nulls a = false) :
    countNonNulls nulls 0 (a + 1) = countNonNulls nulls 0 a := by
  rw [← countNonNulls_split nulls 0 a (a + 1) (by omega) (by omega), countNonNulls_one, ha]
  simp

theorem countNonNulls_mono (nulls : Nulls) (a b : Nat) (hab : a ≤ b) :
    countNonNulls nulls 0 a ≤ countNonNulls nulls 0 b := by
  rw [← countNonNulls_split nulls 0 a b (by omega) hab]
  omega

/-! ## The reference visitor on a sorted selection -/

theorem span_append_cons (pre : List Nat) (r : Nat) (post : List Nat) :
    span (pre ++ r :: post) = span (r :: post) := by
  simp [span, List.getLast?_append, List.getLast?_cons]

theorem span_singleton (r : Nat) : span [r] = r + 1 := by
  simp [span]

theorem span_cons_cons (r r2 : Nat) (post : List Nat) :
    span (r :: r2 :: post) = span (r2 :: post) := by
  simp [span]

theorem lt_span_of_sorted (post : List Nat) : ∀ r : Nat, (r :: post).Pairwise (· < ·) →
    r < span (r :: post) := by
  induction post with
  | nil => intro r _; simp [span]
  | cons r2 post ih =>
    intro r h
    rw [span_cons_cons]
    have h1 := List.pairwise_cons.1 h
    have h2 := ih r2 h1.2
    have h3 := h1.1 r2 (by simp)
    omega

theorem getD_append_at (pre l : List Nat) (k : Nat) :
    (pre ++ l).getD (pre.length + k) 0 = l.getD k 0 := by
  rw [List.getD_eq_getElem?_getD, List.getD_eq_getElem?_getD,
    List.getElem?_append_right (by omega)]
  congr 2
  omega

theorem currentRow_at (v : ColumnVisitor) (pre : List Nat) (r : Nat) (post : List Nat)
    (hrows : v.rows = pre ++ r :: post) (hidx : v.rowIndex = pre.length) :
    v.currentRow = r := by
  have := getD_append_at pre (r :: post) 0
  simpa [ColumnVisitor.currentRow, hrows, hidx] using this

theorem process_at (c : VisitorConfig) (x : Value) (v : ColumnVisitor) (pre : List Nat)
    (r : Nat) (post : List Nat)
    (hrows : v.rows = pre ++ r :: post) (hidx : v.rowIndex = pre.length) :
    (ColumnVisitor.process c x v).2.2.rows = v.rows
    ∧ (ColumnVisitor.process c x v).2.2.rowIndex = pre.length + 1
    ∧ (post = [] → (ColumnVisitor.process c x v).1 = 0
        ∧ (ColumnVisitor.process c x v).2.1 = true)
    ∧ (∀ r2 post2, post = r2 :: post2 → (ColumnVisitor.process c x v).1 = r2 - r - 1
        ∧ (ColumnVisitor.process c x v).2.1 = false) := by
  have hcur := currentRow_at v pre r post hrows hidx
  unfold ColumnVisitor.process
  simp only
  generalize hv1 : (if (!c.hasFilter || c.testValue x) = true then
      ColumnVisitor.keep c v.currentRow (some x) v else v) = v1
  have h1 : v1.rows = v.rows ∧ v1.rowIndex = v.rowIndex := by
    rw [← hv1]
    split
    · exact keep_rows _ _ _ _
    · exact ⟨rfl, rfl⟩
  refine ⟨by rw [advance_state]; exact h1.1, by rw [advance_state]; simp [h1.2, hidx], ?_, ?_⟩
  · intro hpost
    unfold ColumnVisitor.advance
    simp [h1.1, h1.2, hrows, hidx, hpost]
  · intro r2 post2 hpost
    have hnext : ({ v1 with rowIndex := v1.rowIndex + 1 } : ColumnVisitor).currentRow = r2 := by
      have := getD_append_at pre (r :: r2 :: post2) 1
      simpa [ColumnVisitor.currentRow, h1.1, h1.2, hrows, hidx, hpost] using this
    have hlen : ¬ (v1.rowIndex + 1 ≥ v1.rows.length) := by
      simp [h1.1, h1.2, hrows, hidx, hpost]
    unfold ColumnVisitor.advance
    simp only [hlen, if_false, hnext, hcur, and_self]

/-! ## The scalar loop with nulls hidden -/

theorem live_row (cfg : Config) (c : VisitorConfig) (hdt : c.dataType = .integer)
    (nulls : Nulls) (rows start : List Nat) (xs : List Int) (rest0 : List Nat)
    (hstream : valuesOf cfg (countNonNulls nulls 0 (span rows)) start = some (xs, rest0))
    (hsorted : rows.Pairwise (· < ·))
    (s : LoopState ColumnVisitor) (pre : List Nat) (r : Nat) (post : List Nat)
    (h : AtRow cfg nulls start rows s pre r post) (hlive : nulls r = true) :
    ∃ step, processRow cfg true nulls (ColumnVisitor.visitor c) s = .ok step
      ∧ processed step.state.dec.log = processed s.dec.log ++ [rowValue nulls xs r]
      ∧ step.state.vis = (ColumnVisitor.process c (rowValue nulls xs r) s.vis).2.2
      ∧ (post = [] → step.isExit = true ∧ AtEnd cfg nulls start rows step.state.dec)
      ∧ (∀ r2 post2, post = r2 :: post2 → step.isExit = false
          ∧ AtRow cfg nulls start rows step.state (pre ++ [r]) r2 post2) := by
  obtain ⟨hrows, hsplit, hidx, hcur, K, hK, hKP⟩ := h
  have hsuffix : (r :: post).Pairwise (· < ·) := by
    rw [hsplit] at hsorted
    exact (List.pairwise_append.1 hsorted).2.1
  have hr_lt : r < span rows := by
    rw [hsplit, span_append_cons]; exact lt_span_of_sorted post r hsuffix
  have hc_lt : countNonNulls nulls 0 r < countNonNulls nulls 0 (span rows) := by
    have h1 := countNonNulls_succ_live nulls r hlive
    have h2 := countNonNulls_mono nulls (r + 1) (span rows) (by omega)
    omega
  obtain ⟨mid, rest1, hm1, hm2, hm3⟩ :=
    valuesOf_get cfg _ start xs rest0 hstream (countNonNulls nulls 0 r) hc_lt
  have hadv : advance cfg s.dec.pendingSkip s.dec.input = some mid := by
    have := advance_add cfg K s.dec.pendingSkip start
    rw [hKP, hm1, hK] at this
    simpa using this.symm
  obtain ⟨d1, hd1, hrow⟩ := processRow_view cfg c hdt true nulls s mid _ rest1 hadv hm2
  simp only [Decoder.view, Prod.mk.injEq] at hd1
  obtain ⟨hp1, hp2, hp3, hp4⟩ := process_at c (rowValue nulls xs r) s.vis pre r post
    (by rw [hrows, hsplit]) hidx
  have hrow2 : processRow cfg true nulls (ColumnVisitor.visitor c) s =
      .ok (skipTail true nulls (ColumnVisitor.process c (rowValue nulls xs r) s.vis).1
        (ColumnVisitor.process c (rowValue nulls xs r) s.vis).2.1
        { s with dec := d1, vis := (ColumnVisitor.process c (rowValue nulls xs r) s.vis).2.2 }) :=
    hrow
  refine ⟨_, hrow2, ?_, ?_, ?_, ?_⟩
  · unfold skipTail
    simp only
    split <;> split <;> simp [Step.state, processed_skipT, hd1.2.2, rowValue]
  · unfold skipTail
    simp only
    split <;> split <;> simp [Step.state]
  · intro hpost
    obtain ⟨h0, h1⟩ := hp3 hpost
    simp only [h0, h1, skipTail, ne_eq, not_true_eq_false, if_false, if_true, Step.isExit,
      Step.state, true_and]
    refine ⟨countNonNulls nulls 0 r + 1, by rw [hm3, hd1.1], ?_⟩
    rw [hd1.2.1, hsplit, span_append_cons, hpost, span_singleton,
      countNonNulls_succ_live nulls r hlive]
  · intro r2 post2 hpost
    obtain ⟨h0, h1⟩ := hp4 r2 post2 hpost
    have hlt : r < r2 := by
      rw [hpost] at hsuffix
      exact (List.pairwise_cons.1 hsuffix).1 r2 (by simp)
    have hcount : countNonNulls nulls 0 r + 1 + countNonNulls nulls (r + 1) r2
        = countNonNulls nulls 0 r2 := by
      rw [← countNonNulls_succ_live nulls r hlive]
      exact countNonNulls_split nulls 0 (r + 1) r2 (by omega) (by omega)
    simp only [h0, h1, skipTail, Bool.false_eq_true, if_false, Step.isExit, Step.state,
      true_and]
    by_cases ht : r2 - r - 1 = 0
    · have hr2 : r2 = r + 1 := by omega
      simp only [ht, ne_eq, not_true_eq_false, if_false]
      refine ⟨hp1.trans hrows, by rw [hsplit, hpost]; simp, by simp [hp2], by simp [hcur, hr2],
        countNonNulls nulls 0 r + 1, by rw [hm3, hd1.1], ?_⟩
      simp only [hd1.2.1, hr2, countNonNulls_succ_live nulls r hlive, Nat.add_zero]
    · simp only [ht, ne_eq, not_false_eq_true, if_true]
      refine ⟨hp1.trans hrows, by rw [hsplit, hpost]; simp, by simp [hp2],
        by simp only [hcur]; omega,
        countNonNulls nulls 0 r + 1, by simp [skipT, skip, hm3, hd1.1], ?_⟩
      simp only [skipT, skip, if_true, hd1.2.1, hcur, Nat.zero_add]
      rw [show r + 1 + (r2 - r - 1) = r2 by omega]
      exact hcount

theorem liveValues_cons_live (nulls : Nulls) (xs : List Int) (r : Nat) (post : List Nat)
    (h : nulls r = true) :
    liveValues nulls xs (r :: post) = rowValue nulls xs r :: liveValues nulls xs post := by
  simp [liveValues, h]

theorem liveValues_nulls (nulls : Nulls) (xs : List Int) (pnull post : List Nat)
    (h : ∀ x ∈ pnull, nulls x = false) :
    liveValues nulls xs (pnull ++ post) = liveValues nulls xs post := by
  have : pnull.filter (fun r => nulls r) = [] := by
    rw [List.filter_eq_nil_iff]
    intro x hx
    simp [h x hx]
  simp [liveValues, List.filter_append, this]

theorem findIdx_split (p : Nat → Bool) : ∀ (post : List Nat) (j : Nat),
    post.findIdx? p = some j →
    ∃ pnull r2 post2, post = pnull ++ r2 :: post2 ∧ pnull.length = j ∧ p r2 = true
      ∧ ∀ x ∈ pnull, p x = false := by
  intro post
  induction post with
  | nil => intro j h; simp at h
  | cons x post ih =>
    intro j h
    rw [List.findIdx?_cons] at h
    by_cases hx : p x = true
    · simp only [hx, if_true, Option.some.injEq] at h
      exact ⟨[], x, post, rfl, by simpa using h, hx, by simp⟩
    · simp only [hx, Bool.false_eq_true, if_false, Nat.zero_add, List.findIdx?_succ,
        Option.map_eq_some'] at h
      obtain ⟨k, hk, rfl⟩ := h
      obtain ⟨pnull, r2, post2, h1, h2, h3, h4⟩ := ih k hk
      refine ⟨x :: pnull, r2, post2, by simp [h1], by simp [h2], h3, ?_⟩
      intro y hy
      rcases List.mem_cons.1 hy with rfl | hy
      · simpa using hx
      · exact h4 y hy

/-- Between a selected row and the next selected row that is present, no row
holds a value when the batch is the dense range and the selected rows in
between are null. -/
theorem gap_null (nulls : Nulls) (n : Nat) (pre : List Nat) (r : Nat) (pnull tail : List Nat)
    (hrange : pre ++ r :: (pnull ++ tail) = List.range n)
    (hsorted : (pre ++ r :: (pnull ++ tail)).Pairwise (· < ·))
    (hnull : ∀ x ∈ pnull, nulls x = false) (bound : Nat) (hb : bound ≤ n)
    (htail : ∀ x ∈ tail, bound ≤ x) :
    ∀ i, r + 1 ≤ i → i < bound → nulls i = false := by
  intro i h1 h2
  have hi : i ∈ pre ++ r :: (pnull ++ tail) := by
    rw [hrange]; exact List.mem_range.2 (by omega)
  have hpre := (List.pairwise_append.1 hsorted).2.2
  rcases List.mem_append.1 hi with hi | hi
  · have := hpre i hi r (by simp)
    omega
  · rcases List.mem_cons.1 hi with hi | hi
    · omega
    · rcases List.mem_append.1 hi with hi | hi
      · exact hnull i hi
      · have := htail i hi
        omega

theorem process_plain (c : VisitorConfig) (x : Value) (v : ColumnVisitor) :
    Plain c v (ColumnVisitor.process c x v).2.2 [x] := by
  intro hf hh hfo
  simp only [ColumnVisitor.process, advance_state, ColumnVisitor.keep, hf, hh, hfo]
  simp

theorem live_row_outcome (cfg : Config) (c : VisitorConfig) (hdt : c.dataType = .integer)
    (nulls : Nulls) (rows start : List Nat) (xs : List Int) (rest0 : List Nat)
    (hstream : valuesOf cfg (countNonNulls nulls 0 (span rows)) start = some (xs, rest0))
    (hsorted : rows.Pairwise (· < ·))
    (s : LoopState ColumnVisitor) (pre : List Nat) (r : Nat) (post : List Nat)
    (h : AtRow cfg nulls start rows s pre r post) (hlive : nulls r = true) :
    ∃ step, processRow cfg true nulls (ColumnVisitor.visitor c) s = .ok step
      ∧ processed step.state.dec.log = processed s.dec.log ++ [rowValue nulls xs r]
      ∧ Plain c s.vis step.state.vis [rowValue nulls xs r]
      ∧ ((step.isExit = true ∧ AtEnd cfg nulls start rows step.state.dec
            ∧ liveValues nulls xs (r :: post) = [rowValue nulls xs r])
        ∨ (step.isExit = false ∧ ∃ r2 post2, post = r2 :: post2
            ∧ AtRow cfg nulls start rows step.state (pre ++ [r]) r2 post2
            ∧ liveValues nulls xs (r :: post)
                = [rowValue nulls xs r] ++ liveValues nulls xs (r2 :: post2))) := by
  obtain ⟨step, h1, h2, h3, h4, h5⟩ :=
    live_row cfg c hdt nulls rows start xs rest0 hstream hsorted s pre r post h hlive
  refine ⟨step, h1, h2, by rw [h3]; exact process_plain c _ _, ?_⟩
  cases post with
  | nil =>
    obtain ⟨h6, h7⟩ := h4 rfl
    exact Or.inl ⟨h6, h7, by simp [liveValues, hlive]⟩
  | cons r2 post2 =>
    obtain ⟨h6, h7⟩ := h5 r2 post2 rfl
    exact Or.inr ⟨h6, r2, post2, rfl, h7, by rw [liveValues_cons_live _ _ _ _ hlive]; rfl⟩

theorem iteration_hidden_eq (cfg : Config) (c : VisitorConfig) (nulls : Nulls)
    (s : LoopState ColumnVisitor) :
    iteration cfg true nulls (ColumnVisitor.visitor c) false s =
      if (ColumnVisitor.checkAndSkipNulls nulls s.current s.vis).2.2.1 = true then
        .ok (.exit
          { current := (ColumnVisitor.checkAndSkipNulls nulls s.current s.vis).2.1,
            dec := afterCheck c nulls (ColumnVisitor.checkAndSkipNulls nulls s.current s.vis).1
              (ColumnVisitor.checkAndSkipNulls nulls s.current s.vis).2.1 s,
            vis := (ColumnVisitor.checkAndSkipNulls nulls s.current s.vis).2.2.2 })
      else processRow cfg true nulls (ColumnVisitor.visitor c)
          { current := (ColumnVisitor.checkAndSkipNulls nulls s.current s.vis).2.1,
            dec := afterCheck c nulls (ColumnVisitor.checkAndSkipNulls nulls s.current s.vis).1
              (ColumnVisitor.checkAndSkipNulls nulls s.current s.vis).2.1 s,
            vis := (ColumnVisitor.checkAndSkipNulls nulls s.current s.vis).2.2.2 } := by
  simp only [iteration, if_true, Bool.not_false, afterCheck]
  rfl

theorem afterCheck_view (c : VisitorConfig) (nulls : Nulls) (toSkip current : Nat)
    (s : LoopState ColumnVisitor) :
    (afterCheck c nulls toSkip current s).input = s.dec.input
    ∧ (afterCheck c nulls toSkip current s).pendingSkip
        = s.dec.pendingSkip + (if c.dense = true then 0 else toSkip)
    ∧ processed (afterCheck c nulls toSkip current s).log = processed s.dec.log := by
  unfold afterCheck
  cases hd : c.dense
  · simp [skipT, skip, Decoder.emit, processed]
  · simp [Decoder.emit, processed]

theorem check_live (nulls : Nulls) (current : Nat) (v : ColumnVisitor)
    (h : nulls current = true) :
    ColumnVisitor.checkAndSkipNulls nulls current v = (0, current, false, v) := by
  simp [ColumnVisitor.checkAndSkipNulls, h]

theorem findIdx_prefix (p : Nat → Bool) (pnull : List Nat) (r2 : Nat) (post2 : List Nat)
    (hnull : ∀ x ∈ pnull, p x = false) (hr2 : p r2 = true) :
    (pnull ++ r2 :: post2).findIdx? p = some pnull.length := by
  induction pnull with
  | nil => simp [List.findIdx?_cons, hr2]
  | cons x pnull ih =>
    have hx : p x = false := hnull x (by simp)
    have := ih (fun y hy => hnull y (by simp [hy]))
    simp [List.findIdx?_cons, hx, List.findIdx?_succ, this]

theorem check_jump (nulls : Nulls) (v : ColumnVisitor) (pre : List Nat) (r : Nat)
    (pnull : List Nat) (r2 : Nat) (post2 : List Nat)
    (hrows : v.rows = pre ++ r :: (pnull ++ r2 :: post2)) (hidx : v.rowIndex = pre.length)
    (hr : nulls r = false) (hnull : ∀ x ∈ pnull, nulls x = false) (hr2 : nulls r2 = true) :
    ColumnVisitor.checkAndSkipNulls nulls r v =
      (countNonNulls nulls (r + 1) r2, r2, false,
        { v with rowIndex := pre.length + 1 + pnull.length }) := by
  have hdrop : v.rows.drop (v.rowIndex + 1) = pnull ++ r2 :: post2 := by
    rw [hrows, hidx, List.drop_append_eq_append_drop]
    simp
  have hfind : (pnull ++ r2 :: post2).findIdx? (fun r => nulls r) = some pnull.length :=
    findIdx_prefix (fun r => nulls r) pnull r2 post2 hnull hr2
  have hcur : ({ v with rowIndex := v.rowIndex + 1 + pnull.length } : ColumnVisitor).currentRow
      = r2 := by
    have hrows2 : v.rows = (pre ++ r :: pnull) ++ r2 :: post2 := by rw [hrows]; simp
    have hlen : v.rowIndex + 1 + pnull.length = (pre ++ r :: pnull).length + 0 := by
      simp [hidx]; omega
    show v.rows.getD (v.rowIndex + 1 + pnull.length) 0 = r2
    rw [hrows2, hlen, getD_append_at]
    rfl
  simp only [ColumnVisitor.checkAndSkipNulls, hr, Bool.false_eq_true, if_false, hdrop, hfind, hcur]
  rw [hidx]

theorem check_end (nulls : Nulls) (v : ColumnVisitor) (pre : List Nat) (r : Nat)
    (post : List Nat)
    (hrows : v.rows = pre ++ r :: post) (hidx : v.rowIndex = pre.length)
    (hr : nulls r = false) (hnull : ∀ x ∈ post, nulls x = false) :
    ColumnVisitor.checkAndSkipNulls nulls r v =
      (countNonNulls nulls (r + 1) (span v.rows), r, true,
        { v with rowIndex := v.rows.length }) := by
  have hdrop : v.rows.drop (v.rowIndex + 1) = post := by
    rw [hrows, hidx, List.drop_append_eq_append_drop]
    simp
  have hfind : post.findIdx? (fun r => nulls r) = none := by
    rw [List.findIdx?_eq_none_iff]
    intro x hx
    simp [hnull x hx]
  simp only [ColumnVisitor.checkAndSkipNulls, hr, Bool.false_eq_true, if_false, hdrop, hfind]

theorem hidden_iteration (cfg : Config) (c : VisitorConfig) (hdt : c.dataType = .integer)
    (nulls : Nulls) (rows start : List Nat) (xs : List Int) (rest0 : List Nat)
    (hstream : valuesOf cfg (countNonNulls nulls 0 (span rows)) start = some (xs, rest0))
    (hsorted : rows.Pairwise (· < ·))
    (hdense : c.dense = true → rows = List.range rows.length)
    (s : LoopState ColumnVisitor) (pre : List Nat) (r : Nat) (post : List Nat)
    (h : AtRow cfg nulls start rows s pre r post) :
    ∃ step emitted, iteration cfg true nulls (ColumnVisitor.visitor c) false s = .ok step
      ∧ processed step.state.dec.log = processed s.dec.log ++ emitted
      ∧ Plain c s.vis step.state.vis emitted
      ∧ ((step.isExit = true ∧ AtEnd cfg nulls start rows step.state.dec
            ∧ liveValues nulls xs (r :: post) = emitted)
        ∨ (step.isExit = false ∧ ∃ pre2 r2 post2,
            AtRow cfg nulls start rows step.state pre2 r2 post2
            ∧ post2.length < post.length
            ∧ liveValues nulls xs (r :: post)
                = emitted ++ liveValues nulls xs (r2 :: post2))) := by
  obtain ⟨hrows, hsplit, hidx, hcur, K, hK, hKP⟩ := h
  have hit := iteration_hidden_eq cfg c nulls s
  have hsuffix : (r :: post).Pairwise (· < ·) := by
    rw [hsplit] at hsorted
    exact (List.pairwise_append.1 hsorted).2.1
  by_cases hlive : nulls r = true
  · have hck := check_live nulls s.current s.vis (by rw [hcur]; exact hlive)
    rw [hck] at hit
    simp only [Bool.false_eq_true, if_false] at hit
    obtain ⟨hv1, hv2, hv3⟩ := afterCheck_view c nulls 0 s.current s
    have hs1 : AtRow cfg nulls start rows
        { current := s.current, dec := afterCheck c nulls 0 s.current s, vis := s.vis }
        pre r post :=
      ⟨hrows, hsplit, hidx, hcur, K, by rw [hv1]; exact hK, by rw [hv2]; simpa using hKP⟩
    obtain ⟨step, h1, h2, h3, h4⟩ := live_row_outcome cfg c hdt nulls rows start xs rest0
      hstream hsorted _ pre r post hs1 hlive
    refine ⟨step, [rowValue nulls xs r], by rw [hit]; exact h1, by rw [h2, hv3], h3, ?_⟩
    rcases h4 with ⟨e1, e2, e3⟩ | ⟨e1, r2, post2, e2, e3, e4⟩
    · exact Or.inl ⟨e1, e2, e3⟩
    · exact Or.inr ⟨e1, _, r2, post2, e3, by rw [e2]; simp, e4⟩
  · have hr : nulls r = false := by simpa using hlive
    have hr_lt : r < span rows := by
      rw [hsplit, span_append_cons]; exact lt_span_of_sorted post r hsuffix
    cases hf : post.findIdx? (fun r => nulls r) with
    | some j =>
      obtain ⟨pnull, r2, post2, hp1, hp2, hp3, hp4⟩ := findIdx_split _ post j hf
      have hck := check_jump nulls s.vis pre r pnull r2 post2
        (by rw [hrows, hsplit, hp1]) hidx hr hp4 hp3
      rw [hcur, hck] at hit
      simp only [Bool.false_eq_true, if_false] at hit
      have hlt : r < r2 := by
        rw [hp1] at hsuffix
        exact (List.pairwise_cons.1 hsuffix).1 r2 (by simp)
      have hgap : countNonNulls nulls 0 r + countNonNulls nulls (r + 1) r2
          = countNonNulls nulls 0 r2 := by
        rw [← countNonNulls_succ_null nulls r hr]
        exact countNonNulls_split nulls 0 (r + 1) r2 (by omega) (by omega)
      have hzero : c.dense = true → countNonNulls nulls (r + 1) r2 = 0 := by
        intro hd
        have hrange := hdense hd
        apply countNonNulls_zero
        have hsorted2 : (pre ++ r :: (pnull ++ r2 :: post2)).Pairwise (· < ·) := by
          rw [← hp1, ← hsplit]; exact hsorted
        have hr2mem : r2 ∈ List.range rows.length := by
          rw [← hrange, hsplit, hp1]; simp
        refine gap_null nulls rows.length pre r pnull (r2 :: post2)
          (by rw [← hp1, ← hsplit]; exact hrange) hsorted2 hp4 r2
          (Nat.le_of_lt (List.mem_range.1 hr2mem)) ?_
        intro x hx
        rcases List.mem_cons.1 hx with rfl | hx
        · exact Nat.le_refl _
        · have h5 := (List.pairwise_append.1 hsorted2).2.1
          have h6 := (List.pairwise_cons.1 h5).2
          have h7 := (List.pairwise_append.1 h6).2.1
          exact Nat.le_of_lt ((List.pairwise_cons.1 h7).1 x hx)
      obtain ⟨hv1, hv2, hv3⟩ :=
        afterCheck_view c nulls (countNonNulls nulls (r + 1) r2) r2 s
      have hs1 : AtRow cfg nulls start rows
          { current := r2, dec := afterCheck c nulls (countNonNulls nulls (r + 1) r2) r2 s,
            vis := { s.vis with rowIndex := pre.length + 1 + pnull.length } }
          (pre ++ r :: pnull) r2 post2 := by
        refine ⟨hrows, by rw [hsplit, hp1]; simp, by simp; omega, rfl, K,
          by rw [hv1]; exact hK, ?_⟩
        rw [hv2]
        cases hd : c.dense with
        | true =>
          have := hzero hd
          simp only [if_true]
          omega
        | false =>
          simp only [Bool.false_eq_true, if_false]
          omega
      obtain ⟨step, h1, h2, h3, h4⟩ := live_row_outcome cfg c hdt nulls rows start xs rest0
        hstream hsorted _ (pre ++ r :: pnull) r2 post2 hs1 hp3
      have hlv : liveValues nulls xs (r :: post) = liveValues nulls xs (r2 :: post2) := by
        have h5 := liveValues_nulls nulls xs (r :: pnull) (r2 :: post2) (by
          intro x hx
          rcases List.mem_cons.1 hx with rfl | hx
          · exact hr
          · exact hp4 x hx)
        rw [← h5, hp1]
        rfl
      refine ⟨step, [rowValue nulls xs r2], by rw [hit]; exact h1, by rw [h2, hv3], h3, ?_⟩
      rcases h4 with ⟨e1, e2, e3⟩ | ⟨e1, r3, post3, e2, e3, e4⟩
      · exact Or.inl ⟨e1, e2, by rw [hlv, e3]⟩
      · refine Or.inr ⟨e1, _, r3, post3, e3, ?_, by rw [hlv, e4]⟩
        rw [hp1, e2]
        simp
        omega
    | none =>
      have hall : ∀ x ∈ post, nulls x = false := by
        have := List.findIdx?_eq_none_iff.1 hf
        intro x hx
        simpa using this x hx
      have hck := check_end nulls s.vis pre r post (by rw [hrows, hsplit]) hidx hr hall
      rw [hcur, hck] at hit
      simp only [if_true] at hit
      have hgap : countNonNulls nulls 0 r + countNonNulls nulls (r + 1) (span rows)
          = countNonNulls nulls 0 (span rows) := by
        rw [← countNonNulls_succ_null nulls r hr]
        exact countNonNulls_split nulls 0 (r + 1) (span rows) (by omega) (by omega)
      have hzero : c.dense = true → countNonNulls nulls (r + 1) (span rows) = 0 := by
        intro hd
        have hrange := hdense hd
        have hpos : 0 < rows.length := by rw [hsplit]; simp
        have hspan : span rows = rows.length := by
          conv_lhs => rw [hrange]
          exact span_range _ hpos
        apply countNonNulls_zero
        rw [hspan]
        refine gap_null nulls rows.length pre r post []
          (by rw [List.append_nil, ← hsplit]; exact hrange)
          (by rw [List.append_nil, ← hsplit]; exact hsorted) hall rows.length
          (Nat.le_refl _) (by simp)
      obtain ⟨hv1, hv2, hv3⟩ :=
        afterCheck_view c nulls (countNonNulls nulls (r + 1) (span s.vis.rows)) r s
      refine ⟨_, [], hit, by simp [Step.state, hv3], ?_, Or.inl ⟨rfl, ?_, ?_⟩⟩
      · intro _ _ _
        simp [Step.state]
      · refine ⟨K, by simp only [Step.state]; rw [hv1]; exact hK, ?_⟩
        simp only [Step.state]
        rw [hv2, hrows]
        cases hd : c.dense with
        | true =>
          have := hzero hd
          simp only [if_true]
          omega
        | false =>
          simp only [Bool.false_eq_true, if_false]
          omega
      · have h5 := liveValues_nulls nulls xs (r :: post) [] (by
          intro x hx
          rcases List.mem_cons.1 hx with rfl | hx
          · exact hr
          · exact hall x hx)
        simpa [liveValues] using h5

theorem Plain.same (c : VisitorConfig) (v : ColumnVisitor) : Plain c v v [] := by
  intro _ _ _
  simp

theorem Plain.append {c : VisitorConfig} {v v1 v2 : ColumnVisitor} {e1 e2 : List Value}
    (h1 : Plain c v v1 e1) (h2 : Plain c v1 v2 e2) : Plain c v v2 (e1 ++ e2) := by
  intro hf hh hfo
  obtain ⟨a1, a2⟩ := h1 hf hh hfo
  obtain ⟨b1, b2⟩ := h2 hf hh hfo
  refine ⟨by rw [b1, a1]; simp, by rw [b2, a2]; simp; omega⟩

theorem hidden_loop (cfg : Config) (c : VisitorConfig) (hdt : c.dataType = .integer)
    (nulls : Nulls) (rows start : List Nat) (xs : List Int) (rest0 : List Nat)
    (hstream : valuesOf cfg (countNonNulls nulls 0 (span rows)) start = some (xs, rest0))
    (hsorted : rows.Pairwise (· < ·))
    (hdense : c.dense = true → rows = List.range rows.length) :
    ∀ (m : Nat) (s : LoopState ColumnVisitor) (pre : List Nat) (r : Nat) (post : List Nat),
      post.length < m → AtRow cfg nulls start rows s pre r post → ∀ fuel, m ≤ fuel →
      ∃ s1, scalarLoop cfg true nulls (ColumnVisitor.visitor c) false fuel s = .ok s1
        ∧ processed s1.dec.log = processed s.dec.log ++ liveValues nulls xs (r :: post)
        ∧ AtEnd cfg nulls start rows s1.dec
        ∧ Plain c s.vis s1.vis (liveValues nulls xs (r :: post)) := by
  intro m
  induction m with
  | zero => intro s pre r post h; omega
  | succ m ih =>
    intro s pre r post hlen hat fuel hfuel
    obtain ⟨fuel1, rfl⟩ : ∃ f, fuel = f + 1 := ⟨fuel - 1, by omega⟩
    obtain ⟨step, emitted, h1, h2, h3, h4⟩ := hidden_iteration cfg c hdt nulls rows start xs
      rest0 hstream hsorted hdense s pre r post hat
    unfold scalarLoop
    rw [h1]
    cases step with
    | exit s1 =>
      rcases h4 with ⟨_, e2, e3⟩ | ⟨e1, _⟩
      · exact ⟨s1, rfl, by rw [e3]; exact h2, e2, by rw [e3]; exact h3⟩
      · simp [Step.isExit] at e1
    | next s1 =>
      rcases h4 with ⟨e1, _⟩ | ⟨_, pre2, r2, post2, e2, e3, e4⟩
      · simp [Step.isExit] at e1
      · obtain ⟨s2, g1, g2, g3, g4⟩ := ih s1 pre2 r2 post2 (by omega) e2 fuel1 (by omega)
        refine ⟨s2, by simpa using g1, ?_, g3, ?_⟩
        · rw [g2, e4]
          simp only [Step.state] at h2
          rw [h2, List.append_assoc]
        · rw [e4]
          exact Plain.append h3 g4

/-! ## C2: hidden nulls -/

/-- C2. With a null bitmap and nulls hidden, the scalar path of
`readWithVisitor` with the reference visitor, on any ascending non-empty row
selection (the range `[0, n)` if the visitor is statically dense) over a
stream that holds the values `xs` of the non-null rows up to the last selected
row, returns (given fuel for one iteration per selected row), and `process` is
called on exactly the values of the selected non-null rows in ascending row
order, the value of row `r` being `xs[countNonNulls(0, r)]` (a null row holds
no bytes) as the `int64_t` that `readInt<int64_t>` returns; their number is
the number of such rows; the values consumed plus the pending skip count
exactly the non-null rows up to the last selected row, so no value was decoded
for a null row; and a materializing visitor without filter and hook ends
holding these values and this count. A value is handed over unchanged when
it fits 64 signed bits, otherwise as the two-complement reading of its low 64
bits. -/
theorem hidden_nulls_emit_live_rows (cfg : Config) (c : VisitorConfig) (nulls : Nulls)
    (d : Decoder) (rows start : List Nat) (xs : List Int) (rest : List Nat) (fuel : Nat)
    (hrows : rows ≠ []) (hsorted : rows.Pairwise (· < ·))
    (hdense : c.dense = true → rows = List.range rows.length)
    (hdt : c.dataType = .integer) (hhide : c.allowNulls = false)
    (hfuel : rows.length ≤ fuel)
    (hpend : advance cfg d.pendingSkip d.input = some start)
    (hstream : valuesOf cfg (countNonNulls nulls 0 (span rows)) start = some (xs, rest)) :
    (∃ d1 v1, readWithVisitor cfg true nulls (ColumnVisitor.visitor c) false fuel d
        (ColumnVisitor.init rows) = .ok (d1, v1)
      ∧ processed d1.log = processed d.log ++
          (rows.filter (fun r => nulls r)).map
            (fun r => Value.int (toInt64 (xs.getD (countNonNulls nulls 0 r) 0)))
      ∧ (processed d1.log).length
          = (processed d.log).length + (rows.filter (fun r => nulls r)).length
      ∧ (∃ K, advance cfg K start = some d1.input
          ∧ K + d1.pendingSkip = countNonNulls nulls 0 (span rows))
      ∧ (c.hasFilter = false → c.hasHook = false → c.filterOnly = false →
          v1.values = (rows.filter (fun r => nulls r)).map
              (fun r => some (Value.int (toInt64 (xs.getD (countNonNulls nulls 0 r) 0))))
          ∧ v1.numValues = (rows.filter (fun r => nulls r)).length))
    ∧ ((∀ x ∈ xs, -2 ^ 63 ≤ x ∧ x < 2 ^ 63) →
        ∀ k, toInt64 (xs.getD k 0) = xs.getD k 0)
    ∧ (∀ k, toInt64 (xs.getD k 0) % 2 ^ 64 = xs.getD k 0 % 2 ^ 64
        ∧ -2 ^ 63 ≤ toInt64 (xs.getD k 0) ∧ toInt64 (xs.getD k 0) < 2 ^ 63) := by
  refine ⟨?_, toInt64_getD_of_fits xs, fun k => ⟨toInt64_mod _, toInt64_range _⟩⟩
  obtain ⟨d0, hd0, hv0⟩ := skipPending_view cfg d start hpend
  simp only [Decoder.view, Prod.mk.injEq] at hv0
  obtain ⟨r0, post0, rfl⟩ : ∃ r0 post0, rows = r0 :: post0 := by
    cases rows with
    | nil => exact absurd rfl hrows
    | cons a as => exact ⟨a, as, rfl⟩
  have hat : AtRow cfg nulls start (r0 :: post0)
      { current := r0, dec := skipT true r0 0 nulls d0, vis := ColumnVisitor.init (r0 :: post0) }
      [] r0 post0 := by
    refine ⟨rfl, rfl, rfl, rfl, 0, by simp [advance, skipT, skip, hv0.1], ?_⟩
    simp [skipT, skip, hv0.2.1]
  obtain ⟨s1, h1, h2, h3, h4⟩ := hidden_loop cfg c hdt nulls (r0 :: post0) start xs rest
    hstream hsorted hdense (post0.length + 1) _ [] r0 post0 (by omega) hat fuel
    (by simpa using hfuel)
  have hlog : processed s1.dec.log = processed d.log ++
      ((r0 :: post0).filter (fun r => nulls r)).map
        (fun r => Value.int (toInt64 (xs.getD (countNonNulls nulls 0 r) 0))) := by
    rw [h2, processed_skipT, hv0.2.2]
    rfl
  refine ⟨s1.dec, s1.vis, ?_, hlog, by rw [hlog]; simp, h3, ?_⟩
  · have hpath : scalarPath cfg true nulls (ColumnVisitor.visitor c) fuel d0
        (ColumnVisitor.init (r0 :: post0)) = .ok s1 := by
      have hunfold : scalarPath cfg true nulls (ColumnVisitor.visitor c) fuel d0
          (ColumnVisitor.init (r0 :: post0)) =
          scalarLoop cfg true nulls (ColumnVisitor.visitor c) (true && c.allowNulls) fuel
            { current := r0, dec := skipT true r0 0 nulls d0,
              vis := ColumnVisitor.init (r0 :: post0) } := rfl
      rw [hunfold, hhide]
      exact h1
    simp [readWithVisitor, hd0, hpath]
  · intro hf hh hfo
    obtain ⟨g1, g2⟩ := h4 hf hh hfo
    refine ⟨by rw [g1]; simp [ColumnVisitor.init, liveValues, rowValue, Function.comp], ?_⟩
    rw [g2]
    simp [ColumnVisitor.init, liveValues]

/-- Witness for C2: bitmap 1,0,1,1,0 over the stream 10, 20, 30, 40, 50, all five
rows selected: the rows 0, 2 and 3 are emitted, with the values 10, 20, 30 the
stream holds for them, count 3. -/
theorem hidden_nulls_emit_live_rows_witness :
    valuesOf fixed4 (countNonNulls bitmap5 0 (span [0, 1, 2, 3, 4])) stream5.input
        = some ([10, 20, 30], [40, 50].flatMap (leBytes 4))
    ∧ [0, 1, 2, 3, 4].filter (fun r => bitmap5 r) = [0, 2, 3]
    ∧ ∃ d1 v1, readWithVisitor fixed4 true bitmap5 (ColumnVisitor.visitor (plain true false))
          false 5 stream5 (ColumnVisitor.init [0, 1, 2, 3, 4]) = .ok (d1, v1)
        ∧ processed d1.log = [.int 10, .int 20, .int 30]
        ∧ v1.numValues = 3 := by
  refine ⟨by decide, by decide, ?_⟩
  obtain ⟨d1, v1, h1, h2, _, _, h5⟩ :=
    (hidden_nulls_emit_live_rows fixed4 (plain true false) bitmap5 stream5 [0, 1, 2, 3, 4]
      stream5.input [10, 20, 30] ([40, 50].flatMap (leBytes 4)) 5 (by decide) (by decide)
      (fun _ => by decide) rfl rfl (by decide) (by decide) (by decide)).1
  exact ⟨d1, v1, h1, by rw [h2]; decide, (h5 rfl rfl rfl).2⟩

/-! ## C1: scalar path against fast path -/

/-- C1, at a failing input. Variable-length encoding, a null bitmap 1,0,1, a
visitor that is not statically dense reading the batch 0, 1, 2 (a dense run),
nulls surfaced, no filter, no hook, fast path eligible. The scalar path
returns: `process` saw the values 1 and 2, the visitor holds 1, null, 2 and
the count 3. The fast path takes the dense compaction, which leaves
`innerVector` the null pointer, and then dereferences it in
`bulkReadRows(*innerVector, data)`: no value is delivered and no count is
recorded. -/
theorem fast_path_fails_where_scalar_path_reads :
    (∃ d1 v1, readWithVisitor vint1 true bitmap5 (ColumnVisitor.visitor (plain false true))
          false 3 vintStream (ColumnVisitor.init [0, 1, 2]) = .ok (d1, v1)
        ∧ processed d1.log = [.int 1, .int 2]
        ∧ v1.values = [some (.int 1), none, some (.int 2)]
        ∧ v1.numValues = 3)
    ∧ (ColumnVisitor.visitor (plain false true)).useFastPath true
          (ColumnVisitor.init [0, 1, 2]) = true
    ∧ readWithVisitor vint1 true bitmap5 (ColumnVisitor.visitor (plain false true))
          true 3 vintStream (ColumnVisitor.init [0, 1, 2])
        = .thrown .nullDeref [.skipLongs 0] := by
  have h2 : readWithVisitor vint1 true bitmap5 (ColumnVisitor.visitor (plain false true))
      false 3 vintStream (ColumnVisitor.init [0, 1, 2])
      = .ok ({ input := [3, 4, 5], pendingSkip := 0,
               log := [.skipLongs 0, .skip 0, .skipLongs 0, .readInt, .consume 0 1,
                 .process (.int 1), .processNull, .skipLongs 0, .readInt, .consume 0 1,
                 .process (.int 2)] },
             { rows := [0, 1, 2], rowIndex := 3, bias := 0,
               values := [some (.int 1), none, some (.int 2)], outputRows := [],
               hooked := [], numValues := 3, hasNulls := true, resultNulls := [] }) := by
    decide
  exact ⟨⟨_, _, h2, by decide, rfl, rfl⟩, rfl, by decide⟩

/-! ## C8: what the scalar loop hands over for a 128-bit value -/

theorem processRow_int128 {V : Type} (cfg : Config) (vis : Visitor V) (hasNulls : Bool)
    (nulls : Nulls) (s : LoopState V) (e : Int) (d1 : Decoder)
    (hdt : vis.dataType = .int128) (hread : readInt cfg s.dec = .ok (e, d1)) :
    ∃ step, processRow cfg hasNulls nulls vis s = .ok step
      ∧ processed step.state.dec.log = processed d1.log ++
          [if cfg.numBytes = 12 then .timestamp (int96Days e) (int96Nanos e) else .int e] := by
  unfold processRow decodeValue
  simp only [hdt, hread, Outcome.bind_ok]
  by_cases h12 : cfg.numBytes = 12
  · simp only [h12, if_true, Outcome.bind_ok]
    refine ⟨_, rfl, ?_⟩
    unfold skipTail
    simp only
    split <;> split <;> simp [Step.state, processed_skipT, processed_emit_process]
  · simp only [h12, if_false, Outcome.bind_ok]
    refine ⟨_, rfl, ?_⟩
    unfold skipTail
    simp only
    split <;> split <;> simp [Step.state, processed_skipT, processed_emit_process]

/-- C8. With value type `int128_t`, the scalar loop decodes a value as the
encoded integer `e` that `readInt` returns and hands the visitor
`Timestamp::fromDaysAndNanos(days, nanos)` when the on-disk width is 12, with
`days` the low 32 bits of `e` read as a signed 32-bit integer and `nanos` bits
32..95 of `e`, and `e` itself unchanged for any other width. Hence every
signed 32-bit `days` and unsigned 64-bit `nanos`, encoded as
`days mod 2^32 + nanos * 2^32`, decode back to `(days, nanos)`; and in a
little-endian 12-byte value `days` is the first 4 bytes and `nanos` the
following 8. -/
theorem int96_timestamp_split (cfg : Config) (d : Decoder) (days : Int) (nanos : Nat)
    (hlo : -2 ^ 31 ≤ days) (hhi : days < 2 ^ 31) (hn : nanos < 2 ^ 64) :
    decodeValue cfg .int128 d =
        (readInt cfg d).bind (fun r =>
          .ok (if cfg.numBytes = 12 then .timestamp (int96Days r.1) (int96Nanos r.1)
               else .int r.1, r.2))
    ∧ (∀ (V : Type) (vis : Visitor V) (hasNulls : Bool) (nulls : Nulls) (s : LoopState V)
        (e : Int) (d1 : Decoder),
        vis.dataType = .int128 → readInt cfg s.dec = .ok (e, d1) →
        ∃ step, processRow cfg hasNulls nulls vis s = .ok step
          ∧ processed step.state.dec.log = processed d1.log ++
              [if cfg.numBytes = 12 then .timestamp (int96Days e) (int96Nanos e)
               else .int e])
    ∧ (∀ e : Int,
        int96Days e = (if e % 2 ^ 32 < 2 ^ 31 then e % 2 ^ 32 else e % 2 ^ 32 - 2 ^ 32)
        ∧ (int96Nanos e : Int) = (e / 2 ^ 32) % 2 ^ 64)
    ∧ int96Days (days % 2 ^ 32 + nanos * 2 ^ 32) = days
    ∧ int96Nanos (days % 2 ^ 32 + nanos * 2 ^ 32) = nanos
    ∧ (∀ bs : List Nat, bs.length = 12 → cfg.bigEndian = false →
        int96Days (decodeFixed cfg bs) = toInt32 (leValue (bs.take 4))
        ∧ int96Nanos (decodeFixed cfg bs) = leValue (bs.drop 4)) := by
  refine ⟨?_, ?_, ?_, (int96_roundtrip days nanos hlo hhi hn).1,
    (int96_roundtrip days nanos hlo hhi hn).2, fun bs h1 h2 => int96_bytes cfg bs h1 h2⟩
  · unfold decodeValue
    simp only
    congr 1
    funext r
    split <;> rfl
  · intro V vis hasNulls nulls s e d1 hdt hread
    exact processRow_int128 cfg vis hasNulls nulls s e d1 hdt hread
  · intro e
    refine ⟨rfl, ?_⟩
    unfold int96Nanos
    omega

/-- Witness for C8: day -1 and 5 nanoseconds. -/
theorem int96_timestamp_split_witness :
    int96Days ((-1 : Int) % 2 ^ 32 + (5 : Nat) * 2 ^ 32) = -1
    ∧ int96Nanos ((-1 : Int) % 2 ^ 32 + (5 : Nat) * 2 ^ 32) = 5 :=
  ⟨(int96_timestamp_split fixed4 stream5 (-1) 5 (by norm_num) (by norm_num)
      (by norm_num)).2.2.2.1,
   (int96_timestamp_split fixed4 stream5 (-1) 5 (by norm_num) (by norm_num)
      (by norm_num)).2.2.2.2.1⟩

/-! ## Failures of the scalar path and of the bulk readers -/

theorem Outcome.OnlyShort.seq {α β : Type} {x : Outcome α} {f : α → Outcome β}
    (hx : x.OnlyShort) (hf : ∀ a, (f a).OnlyShort) : (x.bind f).OnlyShort := by
  cases x with
  | ok a => exact hf a
  | thrown e l => exact hx
  | outOfFuel => trivial

theorem takeBytes_short (n : Nat) (d : Decoder) : (takeBytes n d).OnlyShort := by
  unfold takeBytes
  split
  · trivial
  · rfl

theorem readVInt_short (cfg : Config) (d : Decoder) : (readVInt cfg d).OnlyShort := by
  unfold readVInt
  cases cfg.vint d.input with
  | none => rfl
  | some p => exact (takeBytes_short _ _).seq (fun _ => trivial)

theorem skipVInts_short (cfg : Config) (n : Nat) : ∀ d, (skipVInts cfg n d).OnlyShort := by
  induction n with
  | zero => intro d; trivial
  | succ n ih =>
    intro d
    unfold skipVInts
    exact (readVInt_short cfg d).seq (fun r => ih r.2)

theorem skipLongs_short (cfg : Config) (n : Nat) (d : Decoder) :
    (skipLongs cfg n d).OnlyShort := by
  unfold skipLongs
  simp only
  split
  · exact skipVInts_short cfg n _
  · exact (takeBytes_short _ _).seq (fun _ => trivial)

theorem skipPending_short (cfg : Config) (d : Decoder) : (skipPending cfg d).OnlyShort :=
  skipLongs_short cfg _ _

theorem readOne_short (cfg : Config) (d : Decoder) : (readOne cfg d).OnlyShort := by
  unfold readOne
  split
  · exact readVInt_short cfg d
  · exact (takeBytes_short _ _).seq (fun _ => trivial)

theorem readInt_short (cfg : Config) (d : Decoder) : (readInt cfg d).OnlyShort :=
  (skipPending_short cfg d).seq (fun _ => readOne_short cfg _)

theorem readFixed_short (cfg : Config) (size : Nat) (d : Decoder) :
    (readFixed cfg size d).OnlyShort :=
  (skipPending_short cfg d).seq (fun _ => takeBytes_short _ _)

theorem decodeValue_short (cfg : Config) (dt : DataType) (d : Decoder) :
    (decodeValue cfg dt d).OnlyShort := by
  cases dt with
  | float => exact (readFixed_short cfg 4 d).seq (fun _ => trivial)
  | double => exact (readFixed_short cfg 8 d).seq (fun _ => trivial)
  | int128 =>
    refine (readInt_short cfg d).seq (fun a => ?_)
    simp only
    split <;> trivial
  | integer => exact (readInt_short cfg d).seq (fun _ => trivial)

theorem processRow_short {V : Type} (cfg : Config) (hasNulls : Bool) (nulls : Nulls)
    (vis : Visitor V) (s : LoopState V) : (processRow cfg hasNulls nulls vis s).OnlyShort :=
  (decodeValue_short cfg vis.dataType s.dec).seq (fun _ => trivial)

theorem iteration_short {V : Type} (cfg : Config) (hasNulls : Bool) (nulls : Nulls)
    (vis : Visitor V) (allowNulls : Bool) (s : LoopState V) :
    (iteration cfg hasNulls nulls vis allowNulls s).OnlyShort := by
  unfold iteration
  split
  · split
    · simp only
      split
      · trivial
      · exact processRow_short _ _ _ _ _
    · split
      · trivial
      · exact processRow_short _ _ _ _ _
  · exact processRow_short _ _ _ _ _

theorem scalarLoop_short {V : Type} (cfg : Config) (hasNulls : Bool) (nulls : Nulls)
    (vis : Visitor V) (allowNulls : Bool) (fuel : Nat) :
    ∀ s : LoopState V, (scalarLoop cfg hasNulls nulls vis allowNulls fuel s).OnlyShort := by
  induction fuel with
  | zero => intro s; trivial
  | succ fuel ih =>
    intro s
    unfold scalarLoop
    refine (iteration_short cfg hasNulls nulls vis allowNulls s).seq (fun r => ?_)
    cases r with
    | next s1 => exact ih s1
    | exit s1 => trivial

theorem scalarPath_short {V : Type} (cfg : Config) (hasNulls : Bool) (nulls : Nulls)
    (vis : Visitor V) (fuel : Nat) (d : Decoder) (v : V) :
    (scalarPath cfg hasNulls nulls vis fuel d v).OnlyShort :=
  scalarLoop_short cfg hasNulls nulls vis _ fuel _

/-! ## The calls of the scalar path -/

theorem takeBytes_scalar {l0 : List Event} {d : Decoder} (h : Only scalarEvent l0 d.log)
    (n : Nat) :
    (takeBytes n d).Sat (fun r => Only scalarEvent l0 r.2.log) (Only scalarEvent l0) := by
  unfold takeBytes
  split
  · exact Only.snoc h _ trivial
  · exact h

theorem readVInt_scalar {l0 : List Event} (cfg : Config) {d : Decoder}
    (h : Only scalarEvent l0 d.log) :
    (readVInt cfg d).Sat (fun r => Only scalarEvent l0 r.2.log) (Only scalarEvent l0) := by
  unfold readVInt
  cases cfg.vint d.input with
  | none => exact h
  | some p => exact (takeBytes_scalar h p.2).bind (fun _ ha => ha)

theorem readOne_scalar {l0 : List Event} (cfg : Config) {d : Decoder}
    (h : Only scalarEvent l0 d.log) :
    (readOne cfg d).Sat (fun r => Only scalarEvent l0 r.2.log) (Only scalarEvent l0) := by
  unfold readOne
  split
  · exact readVInt_scalar cfg h
  · exact (takeBytes_scalar h _).bind (fun _ ha => ha)

theorem skipVInts_scalar {l0 : List Event} (cfg : Config) (n : Nat) : ∀ {d : Decoder},
    Only scalarEvent l0 d.log →
    (skipVInts cfg n d).Sat (fun r => Only scalarEvent l0 r.log) (Only scalarEvent l0) := by
  induction n with
  | zero => intro d h; exact h
  | succ n ih =>
    intro d h
    unfold skipVInts
    exact (readVInt_scalar cfg h).bind (fun _ ha => ih ha)

theorem skipLongs_scalar {l0 : List Event} (cfg : Config) (n : Nat) {d : Decoder}
    (h : Only scalarEvent l0 d.log) :
    (skipLongs cfg n d).Sat (fun r => Only scalarEvent l0 r.log) (Only scalarEvent l0) := by
  have h0 : Only scalarEvent l0 (d.emit (.skipLongs n)).log := Only.snoc h _ trivial
  unfold skipLongs
  simp only
  split
  · exact skipVInts_scalar cfg n h0
  · exact (takeBytes_scalar h0 _).bind (fun _ ha => ha)

theorem skipPending_scalar {l0 : List Event} (cfg : Config) {d : Decoder}
    (h : Only scalarEvent l0 d.log) :
    (skipPending cfg d).Sat (fun r => Only scalarEvent l0 r.log) (Only scalarEvent l0) :=
  skipLongs_scalar cfg _ (d := { d with pendingSkip := 0 }) h

theorem readInt_scalar {l0 : List Event} (cfg : Config) {d : Decoder}
    (h : Only scalarEvent l0 d.log) :
    (readInt cfg d).Sat (fun r => Only scalarEvent l0 r.2.log) (Only scalarEvent l0) :=
  (skipPending_scalar cfg h).bind
    (fun _ ha => readOne_scalar cfg (Only.snoc ha .readInt trivial))

theorem readFixed_scalar {l0 : List Event} (cfg : Config) (size : Nat) {d : Decoder}
    (h : Only scalarEvent l0 d.log) :
    (readFixed cfg size d).Sat (fun r => Only scalarEvent l0 r.2.log) (Only scalarEvent l0) :=
  (skipPending_scalar cfg h).bind
    (fun _ ha => takeBytes_scalar (Only.snoc ha (.readFixed size) trivial) _)

theorem decodeValue_scalar {l0 : List Event} (cfg : Config) (dt : DataType) {d : Decoder}
    (h : Only scalarEvent l0 d.log) :
    (decodeValue cfg dt d).Sat (fun r => Only scalarEvent l0 r.2.log) (Only scalarEvent l0) := by
  cases dt with
  | float => exact (readFixed_scalar cfg 4 h).bind (fun _ ha => ha)
  | double => exact (readFixed_scalar cfg 8 h).bind (fun _ ha => ha)
  | int128 =>
    refine (readInt_scalar cfg h).bind (fun a ha => ?_)
    simp only
    split <;> exact ha
  | integer => exact (readInt_scalar cfg h).bind (fun _ ha => ha)

theorem skipTail_scalar {V : Type} {l0 : List Event} (hasNulls : Bool) (nulls : Nulls)
    (toSkip : Nat) (atEnd : Bool) (s : LoopState V) (h : Only scalarEvent l0 s.dec.log) :
    Only scalarEvent l0 (skipTail hasNulls nulls toSkip atEnd s).log := by
  have h1 : Only scalarEvent l0 (skipT hasNulls toSkip (s.current + 1) nulls s.dec).log :=
    Only.snoc h _ trivial
  unfold skipTail
  by_cases ht : toSkip = 0 <;> cases atEnd <;> simp [ht, h, h1, Step.log]

theorem processRow_scalar {V : Type} {l0 : List Event} (cfg : Config) (hasNulls : Bool)
    (nulls : Nulls) (vis : Visitor V) (s : LoopState V) (h : Only scalarEvent l0 s.dec.log) :
    (processRow cfg hasNulls nulls vis s).Sat (fun r => Only scalarEvent l0 r.log)
      (Only scalarEvent l0) := by
  unfold processRow
  refine (decodeValue_scalar cfg vis.dataType h).bind (fun a ha => ?_)
  exact skipTail_scalar _ _ _ _ _ (Only.snoc ha _ trivial)

theorem iteration_scalar {V : Type} {l0 : List Event} (cfg : Config) (hasNulls : Bool)
    (nulls : Nulls) (vis : Visitor V) (allowNulls : Bool) (s : LoopState V)
    (h : Only scalarEvent l0 s.dec.log) :
    (iteration cfg hasNulls nulls vis allowNulls s).Sat (fun r => Only scalarEvent l0 r.log)
      (Only scalarEvent l0) := by
  have h1 : Only scalarEvent l0 (s.dec.emit (.checkAndSkipNulls s.current)).log :=
    Only.snoc h _ trivial
  have h2 : ∀ n c, Only scalarEvent l0
      (skipT false n c nulls (s.dec.emit (.checkAndSkipNulls s.current))).log :=
    fun n c => Only.snoc h1 _ trivial
  unfold iteration
  split
  · split
    · simp only
      split
      · split
        · exact h2 _ _
        · exact h1
      · apply processRow_scalar
        split
        · exact h2 _ _
        · exact h1
    · split
      · exact skipTail_scalar _ _ _ _ _ (Only.snoc h _ trivial)
      · exact processRow_scalar cfg hasNulls nulls vis s h
  · exact processRow_scalar cfg hasNulls nulls vis s h

theorem scalarLoop_scalar {V : Type} {l0 : List Event} (cfg : Config) (hasNulls : Bool)
    (nulls : Nulls) (vis : Visitor V) (allowNulls : Bool) (fuel : Nat) :
    ∀ (s : LoopState V), Only scalarEvent l0 s.dec.log →
    (scalarLoop cfg hasNulls nulls vis allowNulls fuel s).Sat
      (fun r => Only scalarEvent l0 r.dec.log) (Only scalarEvent l0) := by
  induction fuel with
  | zero => intro s _; trivial
  | succ fuel ih =>
    intro s h
    unfold scalarLoop
    refine (iteration_scalar cfg hasNulls nulls vis allowNulls s h).bind (fun r hr => ?_)
    cases r with
    | next s1 => exact ih s1 hr
    | exit s1 => exact hr

theorem scalarPath_scalar {V : Type} {l0 : List Event} (cfg : Config) (hasNulls : Bool)
    (nulls : Nulls) (vis : Visitor V) (fuel : Nat) (d : Decoder) (v : V)
    (h : Only scalarEvent l0 d.log) :
    (scalarPath cfg hasNulls nulls vis fuel d v).Sat
      (fun r => Only scalarEvent l0 r.dec.log) (Only scalarEvent l0) :=
  scalarLoop_scalar cfg hasNulls nulls vis _ fuel _ (Only.snoc h _ trivial)

/-! ## C11: the fallback to the scalar loop -/

theorem readWithVisitor_fallback {V : Type} (cfg : Config) (hasNulls : Bool) (nulls : Nulls)
    (vis : Visitor V) (useFastPath : Bool) (fuel : Nat) (d : Decoder) (v : V)
    (h : vis.dataType = .int128 ∨ useFastPath = false ∨ vis.useFastPath hasNulls v = false) :
    readWithVisitor cfg hasNulls nulls vis useFastPath fuel d v
      = (skipPending cfg d).bind (fun d1 =>
          (scalarPath cfg hasNulls nulls vis fuel d1 v).bind (fun s => .ok (s.dec, s.vis))) := by
  unfold readWithVisitor
  congr 1
  funext d1
  rw [if_neg]
  rintro ⟨h1, h2, h3⟩
  rcases h with h | h | h
  · exact h1 h
  · rw [h2] at h; cases h
  · rw [h3] at h; cases h

/-- C11. When the value type of the visitor is `int128_t`, or `useFastPath` is
false, or the eligibility predicate rejects the visitor, `readWithVisitor`
is the resolution of the pending skip followed by the scalar path on the same
decoder and visitor: the same outcome as the call with `useFastPath = false`;
none of the calls it makes is one of the fast path (bulk readers, run kernels,
`setHasNulls`, `setAllNull`, `setNumValues`); and it fails only where the
scalar path does, on a short read of the byte source. -/
theorem fallback_runs_scalar_loop {V : Type} (cfg : Config) (hasNulls : Bool) (nulls : Nulls)
    (vis : Visitor V) (useFastPath : Bool) (fuel : Nat) (d : Decoder) (v : V)
    (h : vis.dataType = .int128 ∨ useFastPath = false ∨ vis.useFastPath hasNulls v = false) :
    readWithVisitor cfg hasNulls nulls vis useFastPath fuel d v
        = (skipPending cfg d).bind (fun d1 =>
            (scalarPath cfg hasNulls nulls vis fuel d1 v).bind (fun s => .ok (s.dec, s.vis)))
    ∧ readWithVisitor cfg hasNulls nulls vis useFastPath fuel d v
        = readWithVisitor cfg hasNulls nulls vis false fuel d v
    ∧ (readWithVisitor cfg hasNulls nulls vis useFastPath fuel d v).Sat
        (fun r => Only scalarEvent d.log r.1.log) (Only scalarEvent d.log)
    ∧ (readWithVisitor cfg hasNulls nulls vis useFastPath fuel d v).OnlyShort := by
  have h1 := readWithVisitor_fallback cfg hasNulls nulls vis useFastPath fuel d v h
  have h2 := readWithVisitor_fallback cfg hasNulls nulls vis false fuel d v
    (Or.inr (Or.inl rfl))
  refine ⟨h1, h1.trans h2.symm, ?_, ?_⟩
  · rw [h1]
    exact (skipPending_scalar cfg (Only.refl _ _)).bind (fun d1 hd1 =>
      (scalarPath_scalar cfg hasNulls nulls vis fuel d1 v hd1).bind (fun _ hs => hs))
  · rw [h1]
    exact (skipPending_short cfg d).seq (fun d1 =>
      (scalarPath_short cfg hasNulls nulls vis fuel d1 v).seq (fun _ => trivial))

/-- Witness for C11: a visitor of value type `int128_t` that the eligibility
predicate accepts, called with `useFastPath = true` on the stream 10, 20, 30,
40, 50: the scalar loop hands over the three selected values. -/
theorem fallback_runs_scalar_loop_witness :
    (ColumnVisitor.visitor wide).dataType = .int128
    ∧ (ColumnVisitor.visitor wide).useFastPath false (ColumnVisitor.init [0, 1, 2]) = true
    ∧ (readWithVisitor fixed4 false bitmap5 (ColumnVisitor.visitor wide) true 3 stream5
          (ColumnVisitor.init [0, 1, 2])).erase (fun r => (processed r.1.log, r.2.numValues))
        = .ok ([.int 10, .int 20, .int 30], 3) := by
  refine ⟨rfl, rfl, ?_⟩
  rw [(fallback_runs_scalar_loop fixed4 false bitmap5 (ColumnVisitor.visitor wide) true 3
    stream5 (ColumnVisitor.init [0, 1, 2]) (Or.inl rfl)).2.1]
  decide

/-! ## Decoding begins by resolving the pending skip -/

theorem decodeValue_from (cfg : Config) (dt : DataType) (d : Decoder) :
    (decodeValue cfg dt d).Sat (fun r => Good (d.log ++ [.skipLongs d.pendingSkip]) r.2)
      (Only callEvent (d.log ++ [.skipLongs d.pendingSkip])) := by
  have hfix : ∀ size, (readFixed cfg size d).Sat
      (fun r => Good (d.log ++ [.skipLongs d.pendingSkip]) r.2)
      (Only callEvent (d.log ++ [.skipLongs d.pendingSkip])) := fun size =>
    (skipPending_from cfg d).bind
      (fun _ ha => takeBytes_good (emit_good ha (.readFixed size) trivial) _)
  have hint : (readInt cfg d).Sat
      (fun r => Good (d.log ++ [.skipLongs d.pendingSkip]) r.2)
      (Only callEvent (d.log ++ [.skipLongs d.pendingSkip])) :=
    (skipPending_from cfg d).bind
      (fun _ ha => readOne_good cfg (emit_good ha .readInt trivial))
  cases dt with
  | float => exact (hfix 4).bind (fun _ ha => ha)
  | double => exact (hfix 8).bind (fun _ ha => ha)
  | int128 =>
    refine hint.bind (fun a ha => ?_)
    simp only
    split <;> exact ha
  | integer => exact hint.bind (fun _ ha => ha)

theorem processRow_from {V : Type} (cfg : Config) (hasNulls : Bool) (nulls : Nulls)
    (vis : Visitor V) (s : LoopState V) :
    (processRow cfg hasNulls nulls vis s).Sat
      (fun r => Only callEvent (s.dec.log ++ [.skipLongs s.dec.pendingSkip]) r.log)
      (Only callEvent (s.dec.log ++ [.skipLongs s.dec.pendingSkip])) := by
  unfold processRow
  refine (decodeValue_from cfg vis.dataType s.dec).bind (fun a ha => ?_)
  exact skipTail_log _ _ _ _ _ (Only.snoc ha.1 _ trivial)

/-! ## C13: the shared tail of an iteration -/

theorem skipTail_spec {V : Type} (hasNulls : Bool) (nulls : Nulls) (toSkip : Nat)
    (atEnd : Bool) (t : LoopState V) :
    (skipTail hasNulls nulls toSkip atEnd t).state.current = t.current + 1 + toSkip
    ∧ (skipTail hasNulls nulls toSkip atEnd t).state.dec.pendingSkip
        = t.dec.pendingSkip + (if toSkip = 0 then 0 else tailCharge hasNulls nulls t.current toSkip)
    ∧ (skipTail hasNulls nulls toSkip atEnd t).state.dec.input = t.dec.input
    ∧ (skipTail hasNulls nulls toSkip atEnd t).state.dec.log
        = t.dec.log ++ (if toSkip = 0 then []
            else [.skip (tailCharge hasNulls nulls t.current toSkip)])
    ∧ (skipTail hasNulls nulls toSkip atEnd t).state.vis = t.vis
    ∧ (skipTail hasNulls nulls toSkip atEnd t).isExit = atEnd := by
  unfold skipTail
  by_cases ht : toSkip = 0 <;> cases atEnd <;>
    simp [ht, Step.state, Step.isExit, skipT, skip, tailCharge]

/-- C13. Every iteration of the scalar loop that processes a row or an
explicit null ends in the shared tail, entered with the skip count `s` and
the `atEnd` flag that the callback (`process`, `processNull`) returned. The
tail moves the cursor to its old value + 1 + `s`; when `s` is not zero it adds
to the pending skip the number of values held by the rows
`[current + 1, current + 1 + s)` of the old cursor (the non-null ones only
under a null bitmap, all `s` without one) and otherwise leaves the decoder as
it is; and it is `return` exactly when `atEnd` is set. None of this depends on
`atEnd`: the skip of the last iteration is charged as well. -/
theorem cursor_skip_then_at_end {V : Type} (cfg : Config) (hasNulls : Bool) (nulls : Nulls)
    (vis : Visitor V) (s : LoopState V) :
    (∀ (toSkip : Nat) (atEnd : Bool) (t : LoopState V),
        (skipTail hasNulls nulls toSkip atEnd t).state.current = t.current + 1 + toSkip
        ∧ (skipTail hasNulls nulls toSkip atEnd t).state.dec.pendingSkip
            = t.dec.pendingSkip +
                (if toSkip = 0 then 0 else tailCharge hasNulls nulls t.current toSkip)
        ∧ (skipTail hasNulls nulls toSkip atEnd t).state.dec.input = t.dec.input
        ∧ (skipTail hasNulls nulls toSkip atEnd t).state.dec.log
            = t.dec.log ++ (if toSkip = 0 then []
                else [.skip (tailCharge hasNulls nulls t.current toSkip)])
        ∧ (skipTail hasNulls nulls toSkip atEnd t).state.vis = t.vis
        ∧ (skipTail hasNulls nulls toSkip atEnd t).isExit = atEnd)
    ∧ processRow cfg hasNulls nulls vis s
        = (decodeValue cfg vis.dataType s.dec).bind (fun r =>
            .ok (skipTail hasNulls nulls (vis.process r.1 s.vis).1 (vis.process r.1 s.vis).2.1
              { s with dec := r.2.emit (.process r.1), vis := (vis.process r.1 s.vis).2.2 }))
    ∧ iteration cfg true nulls vis true s
        = (if isBitNull nulls s.current = true then
            .ok (skipTail true nulls (vis.processNull s.vis).1 (vis.processNull s.vis).2.1
              { s with dec := s.dec.emit .processNull, vis := (vis.processNull s.vis).2.2 })
          else processRow cfg true nulls vis s)
    ∧ iteration cfg true nulls vis false s
        = (if (vis.checkAndSkipNulls nulls s.current s.vis).2.2.1 = true then
            .ok (.exit (if vis.dense = true then checkedDropped nulls vis s
              else checkedCharged nulls vis s))
          else processRow cfg true nulls vis
            (if vis.dense = true then checkedDropped nulls vis s
              else checkedCharged nulls vis s))
    ∧ (∀ allowNulls, iteration cfg false nulls vis allowNulls s
        = processRow cfg false nulls vis s) := by
  refine ⟨fun toSkip atEnd t => skipTail_spec hasNulls nulls toSkip atEnd t, rfl, ?_, ?_, ?_⟩
  · unfold iteration
    simp
  · unfold iteration checkedDropped checkedCharged
    cases hd : vis.dense <;> simp [skipT]
  · intro allowNulls
    unfold iteration
    simp

/-! ## C14: `innerVector` at the call of `bulkReadRows` -/

theorem readValues_short (cfg : Config) (n : Nat) : ∀ d, (readValues cfg n d).OnlyShort := by
  induction n with
  | zero => intro d; trivial
  | succ n ih =>
    intro d
    unfold readValues
    exact (readOne_short cfg d).seq (fun r => (ih r.2).seq (fun _ => trivial))

theorem bulkRead_short (cfg : Config) (n : Nat) (d : Decoder) : (bulkRead cfg n d).OnlyShort :=
  (skipPending_short cfg d).seq (fun _ => readValues_short cfg n _)

theorem bulkReadRows_short (cfg : Config) (rows : List Nat) (d : Decoder) :
    (bulkReadRows cfg rows d).OnlyShort :=
  (skipPending_short cfg d).seq (fun _ =>
    (readValues_short cfg _ _).seq (fun _ => trivial))

theorem fixedWidthScan_short (cfg : Config) (dt : DataType)
    (hasFilter filterOnly hasHook sc : Bool)
    (rows : List Nat) (scatterRows : Option (List Nat)) (filter : Value → Bool) (d : Decoder) :
    (fixedWidthScan cfg dt hasFilter filterOnly hasHook sc rows scatterRows filter d).OnlyShort :=
  (takeBytes_short _ _).seq (fun _ => trivial)

theorem fastPathNulls_short {V : Type} (cfg : Config) (nulls : Nulls) (vis : Visitor V)
    (rows : List Nat) (innerVector : Option (List Nat)) (outerVector : List Nat)
    (numNonNull tailSkip : Nat) (d : Decoder) (v : V)
    (h : innerVector ≠ none ∨ vis.dense = true ∨ cfg.useVInts = false) :
    (fastPathNulls cfg nulls vis rows innerVector outerVector numNonNull tailSkip d v).OnlyShort := by
  unfold fastPathNulls
  simp only
  split
  · rename_i hv
    split
    · exact (bulkRead_short cfg _ d).seq (fun _ => trivial)
    · rename_i hd
      cases innerVector with
      | some inner => exact (bulkReadRows_short cfg inner d).seq (fun _ => trivial)
      | none =>
        rcases h with h | h | h
        · exact absurd rfl h
        · exact absurd h hd
        · rw [hv] at h; cases h
  · exact (fixedWidthScan_short cfg _ _ _ _ _ _ _ _ d).seq (fun _ => trivial)

theorem nonNullRowsFromDense_ne_nil (nulls : Nulls) (n : Nat) :
    (nonNullRowsFromDense nulls n).length ≠ 0 ↔ ∃ i, i < n ∧ nulls i = true := by
  unfold nonNullRowsFromDense
  rw [Nat.ne_zero_iff_zero_lt, List.length_pos, Ne, List.filter_eq_nil_iff]
  simp

theorem Outcome.OnlyShort.not_nullDeref {α : Type} {x : Outcome α} (h : x.OnlyShort)
    (h1 : x.NullDeref) : False := by
  cases x with
  | ok a => exact h1
  | thrown e l =>
    have h2 : e = .shortRead := h
    have h3 : e = .nullDeref := h1
    rw [h2] at h3
    cases h3
  | outOfFuel => exact h1

/-- C14 on the code. In `fastPath` with a null bitmap, `innerVector` is the
null pointer when it is dereferenced for `bulkReadRows`, exactly when the
encoding is variable-length, the static `dense` flag of the visitor is false,
the row batch is treated as a dense run (its last row is `numRows - 1`) and
one of the rows `[0, numRows)` is non-null: then the call fails there, before
any read. In every other case the call does not fail that way: `innerVector`
is the list computed by the sparse compaction, or it is not dereferenced. -/
theorem inner_vector_null_at_bulk_read_rows {V : Type} (cfg : Config) (nulls : Nulls)
    (vis : Visitor V) (d : Decoder) (v : V) :
    (cfg.useVInts = true → vis.dense = false →
        (vis.rows v).getLast? = some ((vis.rows v).length - 1) →
        (∃ i, i < (vis.rows v).length ∧ nulls i = true) →
        fastPath cfg true nulls vis d v = .thrown .nullDeref d.log)
    ∧ ((fastPath cfg true nulls vis d v).NullDeref →
        cfg.useVInts = true ∧ vis.dense = false
        ∧ (vis.rows v).getLast? = some ((vis.rows v).length - 1)
        ∧ ∃ i, i < (vis.rows v).length ∧ nulls i = true) := by
  constructor
  · intro hv hd hrun hlive
    have hne := (nonNullRowsFromDense_ne_nil nulls (vis.rows v).length).2 hlive
    unfold fastPath
    simp only [hd, hrun, Bool.false_or, beq_self_eq_true, if_true, hne, if_false]
    unfold fastPathNulls
    simp [hv, hd]
  · intro hnull
    by_cases hrun : (vis.rows v).getLast? = some ((vis.rows v).length - 1)
    · by_cases hne : (nonNullRowsFromDense nulls (vis.rows v).length).length = 0
      · exfalso
        unfold fastPath at hnull
        simp only [hrun, beq_self_eq_true, Bool.or_true, if_true, hne] at hnull
        exact hnull
      · by_cases hc : cfg.useVInts = true ∧ vis.dense = false
        · exact ⟨hc.1, hc.2, hrun, (nonNullRowsFromDense_ne_nil nulls _).1 hne⟩
        · exfalso
          unfold fastPath at hnull
          simp only [hrun, beq_self_eq_true, Bool.or_true, if_true, hne, if_false] at hnull
          refine (fastPathNulls_short cfg nulls vis _ none _ _ _ d v ?_).not_nullDeref hnull
          right
          cases hd : vis.dense with
          | true => exact Or.inl rfl
          | false =>
            right
            cases hv : cfg.useVInts with
            | true => exact absurd ⟨hv, hd⟩ hc
            | false => rfl
    · exfalso
      by_cases hd : vis.dense = true
      · unfold fastPath at hnull
        simp only [hd, Bool.true_or, if_true] at hnull
        split at hnull
        · exact hnull
        · exact (fastPathNulls_short cfg nulls vis _ none _ _ _ d v
            (Or.inr (Or.inl hd))).not_nullDeref hnull
      · have hd1 : vis.dense = false := by simpa using hd
        have hb : ((vis.rows v).getLast? == some ((vis.rows v).length - 1)) = false := by
          simpa using hrun
        unfold fastPath at hnull
        simp only [hd1, hb, Bool.or_false, Bool.false_eq_true, if_false, if_true] at hnull
        split at hnull
        · exact hnull
        · exact (fastPathNulls_short cfg nulls vis _ (some _) _ _ _ _ _
            (Or.inl (by simp))).not_nullDeref hnull

/-- Witness for C14: variable-length encoding, the bitmap 1,0,1,1,0, a visitor
that is not statically dense reading the batch 0, 1, 2, 3. -/
theorem inner_vector_null_at_bulk_read_rows_witness :
    vint1.useVInts = true
    ∧ (ColumnVisitor.visitor (plain false false)).dense = false
    ∧ [0, 1, 2, 3].getLast? = some ([0, 1, 2, 3].length - 1)
    ∧ fastPath vint1 true bitmap5 (ColumnVisitor.visitor (plain false false)) vintStream
          (ColumnVisitor.init [0, 1, 2, 3]) = .thrown .nullDeref [] :=
  ⟨rfl, rfl, rfl,
    (inner_vector_null_at_bulk_read_rows vint1 bitmap5 (ColumnVisitor.visitor (plain false false))
      vintStream (ColumnVisitor.init [0, 1, 2, 3])).1 rfl rfl rfl ⟨0, by decide, rfl⟩⟩

/-! ## The fast path returns when the stream holds the values it reads -/

/-- On a dense batch the reference visitor passes over no row that holds a
value: its classify-and-skip call returns the count 0. -/
theorem check_dense (nulls : Nulls) (n : Nat) (v : ColumnVisitor)
    (hrows : v.rows = List.range n) (hidx : v.rowIndex < n) :
    (ColumnVisitor.checkAndSkipNulls nulls v.rowIndex v).1 = 0 := by
  have hsplit : v.rows = (List.range v.rowIndex) ++ v.rowIndex ::
      (v.rows.drop (v.rowIndex + 1)) := by
    have h1 : v.rows = v.rows.take v.rowIndex ++ v.rows.drop v.rowIndex :=
      (List.take_append_drop _ _).symm
    have h2 : v.rows.take v.rowIndex = List.range v.rowIndex := by
      rw [hrows, List.take_range, Nat.min_eq_left (by omega)]
    have h3 : v.rows.drop v.rowIndex = v.rowIndex :: v.rows.drop (v.rowIndex + 1) := by
      have hlt : v.rowIndex < v.rows.length := by rw [hrows]; simpa using hidx
      rw [List.drop_eq_getElem_cons hlt]
      congr 1
      simp [hrows]
    rw [h2, h3] at h1
    exact h1
  have hsorted : v.rows.Pairwise (· < ·) := by rw [hrows]; exact List.pairwise_lt_range n
  by_cases hlive : nulls v.rowIndex = true
  · rw [check_live nulls _ v hlive]
  · have hnull : nulls v.rowIndex = false := by simpa using hlive
    cases hf : (v.rows.drop (v.rowIndex + 1)).findIdx? (fun r => nulls r) with
    | none =>
      have hall : ∀ x ∈ v.rows.drop (v.rowIndex + 1), nulls x = false := by
        intro x hx
        have := List.findIdx?_eq_none_iff.1 hf x hx
        simpa using this
      rw [check_end nulls v (List.range v.rowIndex) v.rowIndex _ hsplit (by simp) hnull hall]
      apply countNonNulls_zero
      have hspan : span v.rows = n := by rw [hrows]; exact span_range n (by omega)
      rw [hspan]
      refine gap_null nulls n (List.range v.rowIndex) v.rowIndex
        (v.rows.drop (v.rowIndex + 1)) [] ?_ ?_ hall n (le_refl n) (by simp)
      · rw [List.append_nil, ← hsplit, hrows]
      · rw [List.append_nil, ← hsplit]; exact hsorted
    | some j =>
      obtain ⟨pnull, r2, post2, hp1, _, hp3, hp4⟩ :=
        findIdx_split (fun r => nulls r) _ j hf
      have hsplit2 : v.rows = (List.range v.rowIndex) ++ v.rowIndex ::
          (pnull ++ r2 :: post2) := by rw [← hp1]; exact hsplit
      rw [check_jump nulls v (List.range v.rowIndex) v.rowIndex pnull r2 post2 hsplit2
        (by simp) hnull hp4 hp3]
      apply countNonNulls_zero
      have hr2 : r2 ∈ v.rows := by rw [hsplit2]; simp
      have hr2n : r2 < n := by rw [hrows] at hr2; simpa using hr2
      refine gap_null nulls n (List.range v.rowIndex) v.rowIndex pnull (r2 :: post2)
        (by rw [← hsplit2, hrows]) (by rw [← hsplit2]; exact hsorted) hp4 r2 (by omega) ?_
      intro x hx
      rcases List.mem_cons.1 hx with rfl | hx
      · exact le_refl _
      · have hs2 : (r2 :: post2).Pairwise (· < ·) := by
          rw [hsplit2] at hsorted
          have h1 := (List.pairwise_append.1 hsorted).2.1
          have h2 := (List.pairwise_cons.1 h1).2
          exact (List.pairwise_append.1 h2).2.1
        exact le_of_lt ((List.pairwise_cons.1 hs2).1 x hx)

/-- C12. In the scalar loop with a null bitmap and nulls hidden, the state that
the `atEnd` test and the decoding of the next value start from, right after
`checkAndSkipNulls`, holds the returned skip count as a charge: the pending
skip is the old one plus the count, the source is untouched, and the decoding
begins by resolving that sum. This holds for every visitor that is not
statically dense, where the charge is the call `skip<false>(toSkip)`, and
for every statically dense visitor whose call returns the count 0, as a dense
visitor does: on a dense batch no row between the cursor and the next
non-null row holds a value (shown for the reference visitor on every dense
batch). -/
theorem hidden_null_skip_charged {V : Type} (cfg : Config) (nulls : Nulls) (vis : Visitor V)
    (s : LoopState V)
    (hvalid : vis.dense = true → (vis.checkAndSkipNulls nulls s.current s.vis).1 = 0) :
    iteration cfg true nulls vis false s =
        (if (vis.checkAndSkipNulls nulls s.current s.vis).2.2.1 = true
          then .ok (.exit (checked nulls vis s))
          else processRow cfg true nulls vis (checked nulls vis s))
    ∧ (checked nulls vis s).dec.pendingSkip
        = s.dec.pendingSkip + (vis.checkAndSkipNulls nulls s.current s.vis).1
    ∧ (checked nulls vis s).dec.input = s.dec.input
    ∧ (vis.dense = false →
        (checked nulls vis s).dec.log = s.dec.log ++
          [.checkAndSkipNulls s.current, .skip (vis.checkAndSkipNulls nulls s.current s.vis).1])
    ∧ (processRow cfg true nulls vis (checked nulls vis s)).Sat
        (fun r => Only callEvent ((checked nulls vis s).dec.log ++
          [.skipLongs (s.dec.pendingSkip + (vis.checkAndSkipNulls nulls s.current s.vis).1)])
          r.log)
        (Only callEvent ((checked nulls vis s).dec.log ++
          [.skipLongs (s.dec.pendingSkip + (vis.checkAndSkipNulls nulls s.current s.vis).1)]))
    ∧ (∀ (n : Nat) (v : ColumnVisitor), v.rows = List.range n → v.rowIndex < n →
        (ColumnVisitor.checkAndSkipNulls nulls v.rowIndex v).1 = 0) := by
  have hpend : (checked nulls vis s).dec.pendingSkip
      = s.dec.pendingSkip + (vis.checkAndSkipNulls nulls s.current s.vis).1 := by
    cases hd : vis.dense with
    | false => simp [checked, hd, skipT, skip, Decoder.emit]
    | true => simp [checked, hd, Decoder.emit, hvalid hd]
  refine ⟨?_, hpend, ?_, ?_, ?_, fun n v h1 h2 => check_dense nulls n v h1 h2⟩
  · unfold iteration checked
    simp
  · cases hd : vis.dense <;> simp [checked, hd, skipT, skip, Decoder.emit]
  · intro hd
    simp [checked, hd, skipT, skip, Decoder.emit]
  · have h := processRow_from cfg true nulls vis (checked nulls vis s)
    rw [hpend] at h
    exact h

/-- Witness for C12. A visitor that is not statically dense reads the selection
1, 3 over the bitmap 1,0,1,1,0: at the null row 1 it moves to row 3 and
returns 1, for the value of row 2; the count joins the pending skip, the next
decoding skips two values and reads 30, the value of row 3. A statically
dense visitor reads the batch `[0, 5)`: at the null row 1 it moves to row 2
and returns 0; the next decoding reads 20, the value of row 2. -/
theorem hidden_null_skip_charged_witness :
    ((ColumnVisitor.visitor (plain false false)).dense = false
      ∧ ((ColumnVisitor.visitor (plain false false)).checkAndSkipNulls bitmap5
          atHiddenRow.current atHiddenRow.vis).1 = 1
      ∧ (checked bitmap5 (ColumnVisitor.visitor (plain false false)) atHiddenRow).dec.pendingSkip
          = atHiddenRow.dec.pendingSkip +
            ((ColumnVisitor.visitor (plain false false)).checkAndSkipNulls bitmap5
              atHiddenRow.current atHiddenRow.vis).1
      ∧ (iteration fixed4 true bitmap5 (ColumnVisitor.visitor (plain false false)) false
            atHiddenRow).erase (fun r => r.log)
          = .ok [.skip 1, .checkAndSkipNulls 1, .skip 1, .skipLongs 2, .consume 0 8, .readInt,
              .consume 0 4, .process (.int 30)])
    ∧ ((ColumnVisitor.visitor (plain true false)).dense = true
      ∧ ((ColumnVisitor.visitor (plain true false)).checkAndSkipNulls bitmap5
          atDenseRow.current atDenseRow.vis).1 = 0
      ∧ (checked bitmap5 (ColumnVisitor.visitor (plain true false)) atDenseRow).dec.pendingSkip
          = atDenseRow.dec.pendingSkip +
            ((ColumnVisitor.visitor (plain true false)).checkAndSkipNulls bitmap5
              atDenseRow.current atDenseRow.vis).1
      ∧ (iteration fixed4 true bitmap5 (ColumnVisitor.visitor (plain true false)) false
            atDenseRow).erase (fun r => r.log)
          = .ok [.checkAndSkipNulls 1, .skipLongs 0, .consume 0 0, .readInt, .consume 0 4,
              .process (.int 20)]) := by
  have h1 := hidden_null_skip_charged fixed4 bitmap5 (ColumnVisitor.visitor (plain false false))
    atHiddenRow (fun h => absurd h (by decide))
  have h2 := hidden_null_skip_charged fixed4 bitmap5 (ColumnVisitor.visitor (plain true false))
    atDenseRow (fun _ => by decide)
  refine ⟨⟨rfl, by decide, h1.2.1, ?_⟩, ⟨rfl, by decide, h2.2.1, ?_⟩⟩
  · rw [h1.1]; decide
  · rw [h2.1]; decide

end DirectDecoder
